import Mathlib

/-!
Verification of the `unused` dead-code checker (src/unused2/unused.go).

The development shallowly embeds the checker's data model and operations:
go/types types become the inductive `GoType` (named types are represented by
an identifier resolved through a finite environment, mirroring how
`*types.Named` is a reference cell), graph nodes are stored in an arena list
(ids are list indices, with the synthetic Root at index 0, mirroring the
pointer-based node store), and every recursive walker carries explicit fuel,
returning the artificial error `AErr.outOfFuel` when it runs out; the Go
walkers terminate through memoization, which the model keeps, so any run of
interest is performed with enough fuel to finish.  Fallible operations
return `Except AErr GState`, with one error constructor per panic or failed
assertion in the source.
-/

namespace Unused2

/-! ## The type and object model (go/types and ssa values) -/

/-- The non-recursive data of a `*types.Var`: identity, name, `IsField`,
`Exported`, `Anonymous` (embedded), and defining package (`Pkg()`; `none`
models a nil package).  A full variable pairs this with its type. -/
structure VarMeta where
  vid : Nat
  vname : String
  isField : Bool
  exported : Bool
  anonymous : Bool
  pkg : Option Nat
  deriving DecidableEq

/-- The non-recursive data of a `*types.Func` (a semantic function object;
the lowered `*ssa.Function` is a separate entity). -/
structure FuncMeta where
  oid : Nat
  fname : String
  exported : Bool
  pkg : Option Nat
  deriving DecidableEq

/-- Model of `types.Type`.  A named type holds only its identifier; its
underlying type, its `*types.TypeName` object and its methods live in the
`NamedInfo` environment of the analysis input, mirroring the reference-cell
nature of `*types.Named`.  `basic true` is the one basic kind the checker
distinguishes, `unsafe.Pointer`; every other basic kind is `basic false`.
A variable (`*types.Var`, e.g. a struct field or signature parameter) is a
`VarMeta × GoType` pair; an interface method (`*types.Func`) is a
`FuncMeta × GoType` pair whose type is its signature. -/
inductive GoType where
  | basic (unsafePtr : Bool)
  | named (nid : Nat)
  | strct (fields : List (VarMeta × GoType))
  | ptr (elem : GoType)
  | slice (elem : GoType)
  | array (elem : GoType)
  | chanT (elem : GoType)
  | mapT (key : GoType) (elem : GoType)
  | sig (recv : Option (VarMeta × GoType)) (params : List (VarMeta × GoType))
      (results : List (VarMeta × GoType))
  | iface (methods : List (FuncMeta × GoType))
  | tuple (elems : List (VarMeta × GoType))

/-- Model of `*types.Var`: metadata paired with the variable's type. -/
abbrev GoVar := VarMeta × GoType

/-- Model of `*types.Func`: metadata paired with the signature type. -/
abbrev GoFuncObj := FuncMeta × GoType

/-! ### Decidable equality for `GoType`

`deriving DecidableEq` does not support this nested inductive, so equality
is decided through a hand-written boolean comparison. -/

mutual

def tyBeq : GoType → GoType → Bool
  | .basic a, .basic b => a == b
  | .named a, .named b => a == b
  | .strct fs, .strct gs => varsBeq fs gs
  | .ptr a, .ptr b => tyBeq a b
  | .slice a, .slice b => tyBeq a b
  | .array a, .array b => tyBeq a b
  | .chanT a, .chanT b => tyBeq a b
  | .mapT k a, .mapT l b => tyBeq k l && tyBeq a b
  | .sig r p q, .sig r2 p2 q2 => optVarBeq r r2 && varsBeq p p2 && varsBeq q q2
  | .iface ms, .iface ns => funcsBeq ms ns
  | .tuple fs, .tuple gs => varsBeq fs gs
  | _, _ => false
  termination_by structural a _ => a

def varBeq : GoVar → GoVar → Bool
  | (m, t), (m2, t2) => m == m2 && tyBeq t t2
  termination_by structural a _ => a

def optVarBeq : Option GoVar → Option GoVar → Bool
  | none, none => true
  | some a, some b => varBeq a b
  | _, _ => false
  termination_by structural a _ => a

def varsBeq : List GoVar → List GoVar → Bool
  | [], [] => true
  | a :: as, b :: bs => varBeq a b && varsBeq as bs
  | _, _ => false
  termination_by structural a _ => a

def funcBeq : GoFuncObj → GoFuncObj → Bool
  | (m, t), (m2, t2) => m == m2 && tyBeq t t2
  termination_by structural a _ => a

def funcsBeq : List GoFuncObj → List GoFuncObj → Bool
  | [], [] => true
  | a :: as, b :: bs => funcBeq a b && funcsBeq as bs
  | _, _ => false
  termination_by structural a _ => a

end

mutual

theorem tyBeq_rfl : ∀ a, tyBeq a a = true
  | .basic u => beq_self_eq_true u
  | .named n => beq_self_eq_true n
  | .strct fs => varsBeq_rfl fs
  | .ptr a => tyBeq_rfl a
  | .slice a => tyBeq_rfl a
  | .array a => tyBeq_rfl a
  | .chanT a => tyBeq_rfl a
  | .mapT k a => by
      show (tyBeq k k && tyBeq a a) = true
      rw [tyBeq_rfl k, tyBeq_rfl a]
      rfl
  | .sig r p q => by
      show (optVarBeq r r && varsBeq p p && varsBeq q q) = true
      rw [optVarBeq_rfl r, varsBeq_rfl p, varsBeq_rfl q]
      rfl
  | .iface ms => funcsBeq_rfl ms
  | .tuple fs => varsBeq_rfl fs

theorem varBeq_rfl : ∀ a, varBeq a a = true
  | (m, t) => by
      show (m == m && tyBeq t t) = true
      rw [beq_self_eq_true m, tyBeq_rfl t]
      rfl

theorem optVarBeq_rfl : ∀ a, optVarBeq a a = true
  | none => rfl
  | some a => varBeq_rfl a

theorem varsBeq_rfl : ∀ a, varsBeq a a = true
  | [] => rfl
  | a :: as => by
      show (varBeq a a && varsBeq as as) = true
      rw [varBeq_rfl a, varsBeq_rfl as]
      rfl

theorem funcBeq_rfl : ∀ a, funcBeq a a = true
  | (m, t) => by
      show (m == m && tyBeq t t) = true
      rw [beq_self_eq_true m, tyBeq_rfl t]
      rfl

theorem funcsBeq_rfl : ∀ a, funcsBeq a a = true
  | [] => rfl
  | a :: as => by
      show (funcBeq a a && funcsBeq as as) = true
      rw [funcBeq_rfl a, funcsBeq_rfl as]
      rfl

end

mutual

theorem tyBeq_sound : ∀ a b, tyBeq a b = true → a = b
  | .basic x, b, h => by
      cases b
      case basic y =>
        have h2 : (x == y) = true := h
        exact congrArg GoType.basic (by simpa using h2)
      all_goals exact absurd h Bool.false_ne_true
  | .named x, b, h => by
      cases b
      case named y =>
        have h2 : (x == y) = true := h
        exact congrArg GoType.named (by simpa using h2)
      all_goals exact absurd h Bool.false_ne_true
  | .strct fs, b, h => by
      cases b
      case strct gs => exact congrArg GoType.strct (varsBeq_sound fs gs h)
      all_goals exact absurd h Bool.false_ne_true
  | .ptr a, b, h => by
      cases b
      case ptr e => exact congrArg GoType.ptr (tyBeq_sound a e h)
      all_goals exact absurd h Bool.false_ne_true
  | .slice a, b, h => by
      cases b
      case slice e => exact congrArg GoType.slice (tyBeq_sound a e h)
      all_goals exact absurd h Bool.false_ne_true
  | .array a, b, h => by
      cases b
      case array e => exact congrArg GoType.array (tyBeq_sound a e h)
      all_goals exact absurd h Bool.false_ne_true
  | .chanT a, b, h => by
      cases b
      case chanT e => exact congrArg GoType.chanT (tyBeq_sound a e h)
      all_goals exact absurd h Bool.false_ne_true
  | .mapT k a, b, h => by
      cases b
      case mapT l e =>
        have h2 : (tyBeq k l && tyBeq a e) = true := h
        rw [Bool.and_eq_true] at h2
        rw [tyBeq_sound k l h2.1, tyBeq_sound a e h2.2]
      all_goals exact absurd h Bool.false_ne_true
  | .sig r p q, b, h => by
      cases b
      case sig r2 p2 q2 =>
        have h2 : (optVarBeq r r2 && varsBeq p p2 && varsBeq q q2) = true := h
        rw [Bool.and_eq_true, Bool.and_eq_true] at h2
        rw [optVarBeq_sound r r2 h2.1.1, varsBeq_sound p p2 h2.1.2,
          varsBeq_sound q q2 h2.2]
      all_goals exact absurd h Bool.false_ne_true
  | .iface ms, b, h => by
      cases b
      case iface ns => exact congrArg GoType.iface (funcsBeq_sound ms ns h)
      all_goals exact absurd h Bool.false_ne_true
  | .tuple fs, b, h => by
      cases b
      case tuple gs => exact congrArg GoType.tuple (varsBeq_sound fs gs h)
      all_goals exact absurd h Bool.false_ne_true

theorem varBeq_sound : ∀ a b, varBeq a b = true → a = b
  | (m, t), (m2, t2), h => by
      have h2 : (m == m2 && tyBeq t t2) = true := h
      rw [Bool.and_eq_true] at h2
      rw [show m = m2 from by simpa using h2.1, tyBeq_sound t t2 h2.2]

theorem optVarBeq_sound : ∀ a b, optVarBeq a b = true → a = b
  | none, none, _ => rfl
  | some a, some b, h => congrArg some (varBeq_sound a b h)
  | none, some _, h => absurd h Bool.false_ne_true
  | some _, none, h => absurd h Bool.false_ne_true

theorem varsBeq_sound : ∀ a b, varsBeq a b = true → a = b
  | [], [], _ => rfl
  | a :: as, b :: bs, h => by
      have h2 : (varBeq a b && varsBeq as bs) = true := h
      rw [Bool.and_eq_true] at h2
      rw [varBeq_sound a b h2.1, varsBeq_sound as bs h2.2]
  | [], _ :: _, h => absurd h Bool.false_ne_true
  | _ :: _, [], h => absurd h Bool.false_ne_true

theorem funcBeq_sound : ∀ a b, funcBeq a b = true → a = b
  | (m, t), (m2, t2), h => by
      have h2 : (m == m2 && tyBeq t t2) = true := h
      rw [Bool.and_eq_true] at h2
      rw [show m = m2 from by simpa using h2.1, tyBeq_sound t t2 h2.2]

theorem funcsBeq_sound : ∀ a b, funcsBeq a b = true → a = b
  | [], [], _ => rfl
  | a :: as, b :: bs, h => by
      have h2 : (funcBeq a b && funcsBeq as bs) = true := h
      rw [Bool.and_eq_true] at h2
      rw [funcBeq_sound a b h2.1, funcsBeq_sound as bs h2.2]
  | [], _ :: _, h => absurd h Bool.false_ne_true
  | _ :: _, [], h => absurd h Bool.false_ne_true

end

instance : DecidableEq GoType := fun a b =>
  if h : tyBeq a b = true then isTrue (tyBeq_sound a b h)
  else isFalse fun he => h (he ▸ tyBeq_rfl a)

/-! ## Environments and analysis input -/

/-- Model of `*types.TypeName` (the object side of a named type). -/
structure TypeNameObj where
  tnid : Nat
  tname : String
  exported : Bool
  pkg : Option Nat
  deriving DecidableEq

/-- Environment entry for a named type: underlying type, its `TypeName`
object, and its method list (`NumMethods`/`Method(i)`). -/
structure NamedInfo where
  underlying : GoType
  tobj : TypeNameObj
  methods : List GoFuncObj
  deriving DecidableEq

/-- Model of `*types.Const`: identity, exportedness, defining package, type
and the chain of enclosing scope ids (innermost first), used by
`surroundingFunc`. -/
structure ConstObj where
  cid : Nat
  exported : Bool
  pkg : Option Nat
  ty : GoType
  scopeChain : List Nat
  deriving DecidableEq

/-- Default named-type info for identifiers missing from an input
environment (well-formed inputs map every mentioned identifier). -/
def defaultNamedInfo : NamedInfo :=
  { underlying := .basic false, tobj := ⟨0, "", false, none⟩, methods := [] }

def namedGet (env : List (Nat × NamedInfo)) (nid : Nat) : NamedInfo :=
  (env.lookup nid).getD defaultNamedInfo

/-- Model of `Type.Underlying()`: a named type resolves through the
environment; every other type is its own underlying type. -/
def underlyingT (env : List (Nat × NamedInfo)) : GoType → GoType
  | .named n => (namedGet env n).underlying
  | t => t

/-- Modelled from the spec: the pointer-dereference helper
(`lintdsl.Dereference`, code outside this repository) used throughout the
checker; §4.E of the spec describes it as "dereferencing a pointer if
needed": if the underlying type of `t` is a pointer, the result is its
pointee, otherwise `t` itself. -/
def derefT (env : List (Nat × NamedInfo)) (t : GoType) : GoType :=
  match underlyingT env t with
  | .ptr e => e
  | _ => t

/-! ## The relevance filter `isIrrelevant` (unused.go:378-425)

The source recursion can grow through the environment at a named type whose
underlying type is a pointer, so the model takes fuel (at fuel 0 the
function reports relevant, like the default arm; the source would not
terminate on a cyclic named-pointer chain, which no claim concerns). -/

/-- The `types.Type` arm of `isIrrelevant` (unused.go:387-423): dereference
once, then switch.  The source switch has no channel case, so channels fall
through to the default arm.  Where the source feeds a tuple or signature
element (a `*types.Var`) back into `isIrrelevant`, its `*types.Var` arm
(`!obj.IsField() && isIrrelevant(obj.Type())`) is inlined here; the fuel
argument makes the recursion through the named-type environment structural
(at fuel 0 the filter reports relevant; the source would not terminate on a
cyclic named-pointer chain, which no claim concerns). -/
def isIrrelevantT (env : List (Nat × NamedInfo)) : Nat → GoType → Bool
  | 0, _ => false
  | fuel+1, T =>
    match derefT env T with
    | .array e => isIrrelevantT env fuel e
    | .slice e => isIrrelevantT env fuel e
    | .basic _ => true
    | .tuple vs => vs.all fun v => !v.1.isField && isIrrelevantT env fuel v.2
    | .sig recv params results =>
      match recv with
      | some _ => false
      | none =>
        (params.all fun v => !v.1.isField && isIrrelevantT env fuel v.2) &&
        (results.all fun v => !v.1.isField && isIrrelevantT env fuel v.2)
    | .iface ms => ms.isEmpty
    | _ => false

/-- The `*types.Var` arm of `isIrrelevant` (unused.go:381): a non-field
variable of irrelevant type is irrelevant. -/
def isIrrelevantV (env : List (Nat × NamedInfo)) (fuel : Nat) (v : GoVar) :
    Bool :=
  !v.1.isField && isIrrelevantT env fuel v.2

/-! ## Graph entities -/

/-- A graph key (`interface{}` in the source): semantic objects, lowered
functions and structural types.  `ssaFnO none` models a typed-nil
`*ssa.Function` value used as a key. -/
inductive Obj where
  | varO (v : GoVar)
  | constO (c : ConstObj)
  | typeNameO (t : TypeNameObj)
  | funcO (f : GoFuncObj)
  | ssaFnO (f : Option Nat)
  | typeO (t : GoType)
  deriving DecidableEq

/-- Does the key hold a `types.Object`, and if so what is its `Pkg()`?
`*ssa.Function` values and `types.Type` values are not `types.Object`s. -/
def objPkg : Obj → Option (Option Nat)
  | .varO v => some v.1.pkg
  | .constO c => some c.pkg
  | .typeNameO t => some t.pkg
  | .funcO f => some f.1.pkg
  | .ssaFnO _ => none
  | .typeO _ => none

/-- The `interface{}`-typed `isIrrelevant` (unused.go:378): the
`types.Object` check comes first (only variables are filtered there; all
other object kinds are relevant), then the `types.Type` check; lowered
functions are relevant. -/
def isIrrelevantO (env : List (Nat × NamedInfo)) (fuel : Nat) : Obj → Bool
  | .varO v => isIrrelevantV env fuel v
  | .typeO t => isIrrelevantT env fuel t
  | _ => false

/-- A graph node (unused.go:313): key, outgoing edges as a target-keyed map
(`map[*Node]string`, modelled as an association list with unique keys),
and the two flags.  The node id is its index in the arena. -/
structure GNode where
  obj : Option Obj
  used : List (Nat × String)
  seen : Bool
  quiet : Bool
  deriving DecidableEq

instance : Inhabited GNode := ⟨⟨none, [], false, false⟩⟩

/-- The graph (unused.go:273): a node arena (index = id), the two key maps
`Nodes` and `TypeNodes`, and the two memoization sets `seenTypes` and
`seenFns`. -/
structure GState where
  nodes : List GNode
  objIndex : List (Obj × Nat)
  typeIndex : List (GoType × Nat)
  seenTypesL : List GoType
  seenFnsL : List Nat
  deriving DecidableEq

/-- `NewGraph` (unused.go:289): a fresh graph whose only node is the
synthetic Root (key nil, index 0). -/
def newGraph : GState :=
  { nodes := [default], objIndex := [], typeIndex := [],
    seenTypesL := [], seenFnsL := [] }

/-- Read a node by id (all ids produced by the model are in range). -/
def nodeAt (nodes : List GNode) (i : Nat) : GNode :=
  nodes.getD i default

/-- Model of `Node.use` (unused.go:361): if the target is present with the
same reason, report not-new; otherwise store the reason under the target
key (a map assignment, which replaces any previous reason) and report new. -/
def nodeUse (n : GNode) (target : Nat) (reason : String) : Bool × GNode :=
  match n.used.lookup target with
  | some s =>
    if s = reason then (false, n)
    else (true, { n with used := setEdge n.used target reason })
  | none => (true, { n with used := setEdge n.used target reason })
where
  /-- Go map assignment `n.used[node] = reason`. -/
  setEdge : List (Nat × String) → Nat → String → List (Nat × String)
    | [], t, r => [(t, r)]
    | (k, v) :: rest, t, r =>
      if k = t then (t, r) :: rest else (k, v) :: setEdge rest t r

/-- `nodeMaybe` (unused.go:322): types go through `TypeNodes`, everything
else through `Nodes`; no node is created. -/
def nodeMaybe (s : GState) : Obj → Option Nat
  | .typeO t => s.typeIndex.lookup t
  | o => s.objIndex.lookup o

/-- `newNode` (unused.go:352): append a fresh node to the arena. -/
def newNode (s : GState) (o : Option Obj) : Nat × GState :=
  (s.nodes.length, { s with nodes := s.nodes ++ [⟨o, [], false, false⟩] })

/-- `node` (unused.go:335): return the existing node for the key or create
one, reporting whether it is new. -/
def nodeGet (s : GState) (o : Obj) : Nat × Bool × GState :=
  match o with
  | .typeO t =>
    match s.typeIndex.lookup t with
    | some i => (i, false, s)
    | none =>
      let (i, s1) := newNode s (some (.typeO t))
      (i, true, { s1 with typeIndex := (t, i) :: s1.typeIndex })
  | o =>
    match s.objIndex.lookup o with
    | some i => (i, false, s)
    | none =>
      let (i, s1) := newNode s (some o)
      (i, true, { s1 with objIndex := (o, i) :: s1.objIndex })

/-! ## The analysis input -/

/-- An error raised during graph construction: one constructor per assert
or panic in the source, plus the fuel-exhaustion artifact of the model. -/
inductive AErr where
  | useNewNode      -- assert(!new) in Graph.use (unused.go:469,477)
  | funcValAssert   -- assert(FuncValue(...) == nil) (unused.go:453,456)
  | numFieldsAssert -- assert(s1.NumFields() == s2.NumFields()) (unused.go:920)
  | selObjAssert    -- assert(obj != nil) on a method-set lookup (unused.go:626)
  | nilPanic        -- nil dereference or failed type assertion in the source
  | outOfFuel       -- model artifact: recursion fuel exhausted
  deriving DecidableEq

theorem exBind_ok {α β : Type} {x : Except AErr α} {f : α → Except AErr β}
    {a : α} (h : x = .ok a) : (x >>= f) = f a := by subst h; rfl

theorem exBind_err {α β : Type} {x : Except AErr α} {f : α → Except AErr β}
    {e : AErr} (h : x = .error e) : (x >>= f) = .error e := by subst h; rfl

/-! ## SSA values and instructions -/

/-- The shapes of `ssa.Value` distinguished by `useCall` and
`handleReturn`: function values, closure constructions (whose `.Fn` is the
inner value), builtins, phi merges, and everything else. -/
inductive SsaVal where
  | fnV (fid : Nat)
  | closureV (fn : SsaVal)
  | builtinV
  | phiV (edges : List SsaVal)
  | otherV

mutual

def valBeq : SsaVal → SsaVal → Bool
  | .fnV a, .fnV b => a == b
  | .closureV a, .closureV b => valBeq a b
  | .builtinV, .builtinV => true
  | .phiV as, .phiV bs => valsBeq as bs
  | .otherV, .otherV => true
  | _, _ => false
  termination_by structural a _ => a

def valsBeq : List SsaVal → List SsaVal → Bool
  | [], [] => true
  | a :: as, b :: bs => valBeq a b && valsBeq as bs
  | _, _ => false
  termination_by structural a _ => a

end

mutual

theorem valBeq_rfl : ∀ a, valBeq a a = true
  | .fnV n => beq_self_eq_true n
  | .closureV a => valBeq_rfl a
  | .builtinV => rfl
  | .phiV as => valsBeq_rfl as
  | .otherV => rfl

theorem valsBeq_rfl : ∀ a, valsBeq a a = true
  | [] => rfl
  | a :: as => by
      show (valBeq a a && valsBeq as as) = true
      rw [valBeq_rfl a, valsBeq_rfl as]
      rfl

end

mutual

theorem valBeq_sound : ∀ a b, valBeq a b = true → a = b
  | .fnV x, b, h => by
      cases b
      case fnV y =>
        have h2 : (x == y) = true := h
        exact congrArg SsaVal.fnV (by simpa using h2)
      all_goals exact absurd h Bool.false_ne_true
  | .closureV a, b, h => by
      cases b
      case closureV e => exact congrArg SsaVal.closureV (valBeq_sound a e h)
      all_goals exact absurd h Bool.false_ne_true
  | .builtinV, b, h => by
      cases b
      case builtinV => rfl
      all_goals exact absurd h Bool.false_ne_true
  | .phiV as, b, h => by
      cases b
      case phiV bs => exact congrArg SsaVal.phiV (valsBeq_sound as bs h)
      all_goals exact absurd h Bool.false_ne_true
  | .otherV, b, h => by
      cases b
      case otherV => rfl
      all_goals exact absurd h Bool.false_ne_true

theorem valsBeq_sound : ∀ a b, valsBeq a b = true → a = b
  | [], [], _ => rfl
  | a :: as, b :: bs, h => by
      have h2 : (valBeq a b && valsBeq as bs) = true := h
      rw [Bool.and_eq_true] at h2
      rw [valBeq_sound a b h2.1, valsBeq_sound as bs h2.2]
  | [], _ :: _, h => absurd h Bool.false_ne_true
  | _ :: _, [], h => absurd h Bool.false_ne_true

end

instance : DecidableEq SsaVal := fun a b =>
  if h : valBeq a b = true then isTrue (valBeq_sound a b h)
  else isFalse fun he => h (he ▸ valBeq_rfl a)

/-- The instruction kinds the IR walker (unused.go:814) distinguishes.
Value instructions carry the type of the value they produce (`v.Type()`);
the many uniform no-op kinds are collapsed into `otherVal` (value-producing
no-ops such as Alloc, UnOp, BinOp, Phi, Lookup, ...) and `otherNonVal`
(non-value no-ops such as Store, If, Jump, Send, MapUpdate, Go, Defer). -/
inductive Instr where
  | field (vty : GoType) (xTy : GoType) (idx : Nat)
  | fieldAddr (vty : GoType) (xTy : GoType) (idx : Nat)
  | staticCall (vty : GoType) (callee : SsaVal)
  | invokeCall (vty : GoType) (method : GoFuncObj)
  | ret (results : List SsaVal)
  | changeType (vty : GoType) (xTy : GoType)
  | convert (vty : GoType) (xTy : GoType)
  | typeAssert (vty : GoType) (asserted : GoType)
  | makeClosure (vty : GoType) (fnRef : Nat)
  | rangeV (vty : GoType)
  | otherVal (vty : GoType)
  | otherNonVal
  deriving DecidableEq

/-- The `instr.(ssa.Value)` test: the type of the produced value, if any. -/
def instrValueType : Instr → Option GoType
  | .field vty _ _ => some vty
  | .fieldAddr vty _ _ => some vty
  | .staticCall vty _ => some vty
  | .invokeCall vty _ => some vty
  | .ret _ => none
  | .changeType vty _ => some vty
  | .convert vty _ => some vty
  | .typeAssert vty _ => some vty
  | .makeClosure vty _ => some vty
  | .rangeV vty => some vty
  | .otherVal vty => some vty
  | .otherNonVal => none

/-- The `*ssa.Range` exception (unused.go:823). -/
def instrIsRange : Instr → Bool
  | .rangeV _ => true
  | _ => false

/-- Model of an `*ssa.Function`: short name, owning package (`fn.Pkg`),
linked semantic object (`fn.Object()`, `none` for synthetic wrappers),
signature, surface-syntax identifier references (`none` models a nil
`fn.Syntax()`), body blocks, and anonymous functions (by id). -/
structure SsaFn where
  fname : String
  pkg : Option Nat
  objO : Option GoFuncObj
  sigT : GoType
  bodyIdents : Option (List Nat)
  blocks : List (List Instr)
  anonFns : List Nat
  deriving DecidableEq

def defaultSsaFn : SsaFn :=
  { fname := "", pkg := none, objO := none, sigT := .basic false,
    bodyIdents := none, blocks := [], anonFns := [] }

/-- A package member (`ssa.Member`); named constants and globals have
placeholder handling in the source (unused.go:569-572). -/
inductive Member where
  | constM
  | globalM
  | fnM (fid : Nat)
  | typeM (obj : Option TypeNameObj) (t : GoType)
  deriving DecidableEq

/-- An entry of `tinfo.Defs`; the source switches on `*types.TypeName` and
`*types.Const` and ignores every other object kind. -/
inductive DefEntry where
  | typeNameD (t : TypeNameObj)
  | constD (c : ConstObj)
  | otherD
  deriving DecidableEq

/-- The object side of a `tinfo.Uses` entry; only constants matter. -/
inductive UObj where
  | constU (c : ConstObj)
  | otherU
  deriving DecidableEq

/-- A method-set selection (`types.Selection`): the selected object and its
embedding index path. -/
structure Sel where
  selObj : GoFuncObj
  path : List Nat
  deriving DecidableEq

/-- The per-package analysis input: the package under analysis `P`, the
type-checker output (`Defs`, `Uses`), the named-type environment, the
lowered functions, the `FuncValue` oracle, the scope index built by
`Checker.Check`, the package members, and the method-set oracles used by
the interface-satisfaction pass (`g.implements` and
`msCache.MethodSet(t).Lookup`, both outside this file's source).  `irrFuel`
is the fuel given to the relevance filter. -/
structure PkgIn where
  P : Nat
  pkgName : String
  namedEnv : List (Nat × NamedInfo)
  fnEnv : List (Nat × SsaFn)
  funcValueL : List (Nat × Nat)
  scopesL : List (Nat × Nat)
  defs : List DefEntry
  uses : List (Nat × UObj)
  initialFns : List Nat
  members : List Member
  implL : List (GoType × GoType)
  msSelL : List ((GoType × String) × Sel)
  msetL : List (GoType × List GoFuncObj)
  irrFuel : Nat

def fnGet (inp : PkgIn) (fid : Nat) : SsaFn :=
  (inp.fnEnv.lookup fid).getD defaultSsaFn

/-- `g.pkg.Prog.FuncValue` as a finite oracle: semantic function object id
to lowered function id (`none` models a nil result). -/
def funcValue (inp : PkgIn) (oid : Nat) : Option Nat :=
  inp.funcValueL.lookup oid

/-! ## see / use / seeAndUse (unused.go:427-489) -/

/-- Shorthand for the relevance filter applied to a graph key. -/
def irrO (inp : PkgIn) (o : Obj) : Bool :=
  isIrrelevantO inp.namedEnv inp.irrFuel o

/-- The cross-package filter of `see` and `use`: drop semantic objects
whose non-nil defining package differs from the package under analysis. -/
def pkgFiltered (inp : PkgIn) (o : Obj) : Bool :=
  match objPkg o with
  | some (some p) => p ≠ inp.P
  | _ => false

/-- `Graph.see` (unused.go:427): skip irrelevant and foreign entities,
otherwise ensure a node exists.  (The `assert(obj != nil)` holds by
construction: keys are total values here.) -/
def see (inp : PkgIn) (o : Obj) (s : GState) : GState :=
  if irrO inp o then s
  else if pkgFiltered inp o then s
  else (nodeGet s o).2.2

/-- The `assert(g.pkg.Prog.FuncValue(x.(*types.Func)) == nil)` checks in
`Graph.use`: a `*types.Func` may appear as an edge endpoint only when it
has no lowered form. -/
def funcValBad (inp : PkgIn) : Obj → Bool
  | .funcO f => (funcValue inp f.1.oid).isSome
  | _ => false

/-- Record an edge from node `bi` to node `ui` in the arena. -/
def updateEdge (s : GState) (bi ui : Nat) (reason : String) : GState :=
  { s with nodes := s.nodes.set bi (nodeUse (nodeAt s.nodes bi) ui reason).2 }

/-- `Graph.use` (unused.go:446): filter the used entity for relevance,
assert the `FuncValue` conditions, filter both endpoints for foreign
packages, then record the edge, asserting that neither endpoint node is
newly created.  `byO = none` models `by == nil`, an edge from Root. -/
def use (inp : PkgIn) (used : Obj) (byO : Option Obj) (reason : String)
    (s : GState) : Except AErr GState :=
  if irrO inp used then .ok s
  else if funcValBad inp used then .error .funcValAssert
  else if (match byO with | some b => funcValBad inp b | none => false) then
    .error .funcValAssert
  else if pkgFiltered inp used then .ok s
  else if (match byO with | some b => pkgFiltered inp b | none => false) then
    .ok s
  else
    let (ui, unew, s1) := nodeGet s used
    if unew then .error .useNewNode
    else match byO with
      | none => .ok (updateEdge s1 0 ui reason)
      | some b =>
        let (bi, bnew, s2) := nodeGet s1 b
        if bnew then .error .useNewNode
        else .ok (updateEdge s2 bi ui reason)

/-- `Graph.seeAndUse` (unused.go:486). -/
def seeAndUse (inp : PkgIn) (used : Obj) (byO : Option Obj) (reason : String)
    (s : GState) : Except AErr GState :=
  use inp used byO reason (see inp used s)

/-! ## isNoCopyType (unused.go:1038-1063) -/

/-- `isNoCopyType`: a type whose underlying type is a zero-field struct,
which is a named type with exactly one method, named `Lock`, whose
signature has no parameters and no results.  Method bodies are never
inspected (the model's method objects carry no body at all, mirroring the
FIXME at unused.go:1036).  The source's cast
`meth.Type().(*types.Signature)` cannot fail for go/types functions; a
non-signature method type yields `false` here. -/
def isNoCopyType (env : List (Nat × NamedInfo)) (t : GoType) : Bool :=
  match underlyingT env t with
  | .strct flds =>
    if flds.length ≠ 0 then false
    else
      match t with
      | .named nid =>
        match (namedGet env nid).methods with
        | [m] =>
          if m.1.fname ≠ "Lock" then false
          else
            match m.2 with
            | .sig _ params results => params.length = 0 && results.length = 0
            | _ => false
        | _ => false
      | _ => false
  | _ => false

/-! ## Claim C4: edge deduplication in `Node.use` -/

theorem setEdge_lookup_self (l : List (Nat × String)) (t : Nat) (r : String) :
    (nodeUse.setEdge l t r).lookup t = some r := by
  induction l with
  | nil => simp [nodeUse.setEdge, List.lookup]
  | cons kv rest ih =>
    obtain ⟨k, v⟩ := kv
    by_cases hk : k = t
    · subst hk; simp [nodeUse.setEdge, List.lookup]
    · have hbeq : (t == k) = false := by simp [Ne.symm hk]
      simpa [nodeUse.setEdge, hk, List.lookup, hbeq] using ih

theorem setEdge_keys_mem (l : List (Nat × String)) (t : Nat) (r : String) :
    ∀ x ∈ (nodeUse.setEdge l t r).map Prod.fst,
      x ∈ l.map Prod.fst ∨ x = t := by
  induction l with
  | nil => simp [nodeUse.setEdge]
  | cons kv rest ih =>
    obtain ⟨k, v⟩ := kv
    by_cases hk : k = t
    · subst hk; simp [nodeUse.setEdge]; tauto
    · intro x hx
      simp only [nodeUse.setEdge, hk, if_false, List.map_cons,
        List.mem_cons] at hx
      rcases hx with rfl | hx
      · simp
      · rcases ih x hx with h | h
        · simp [h]
        · simp [h]

theorem setEdge_keys_nodup (l : List (Nat × String)) (t : Nat) (r : String)
    (h : (l.map Prod.fst).Nodup) :
    ((nodeUse.setEdge l t r).map Prod.fst).Nodup := by
  induction l with
  | nil => simp [nodeUse.setEdge]
  | cons kv rest ih =>
    obtain ⟨k, v⟩ := kv
    simp only [List.map_cons, List.nodup_cons] at h
    by_cases hk : k = t
    · subst hk
      simpa [nodeUse.setEdge] using h
    · simp only [nodeUse.setEdge, hk, if_false, List.map_cons,
        List.nodup_cons]
      refine ⟨fun hmem => ?_, ih h.2⟩
      rcases setEdge_keys_mem rest t r k hmem with hmem2 | rfl
      · exact h.1 hmem2
      · exact hk rfl

theorem countP_key_eq_zero (l : List (Nat × String)) (t : Nat)
    (h : t ∉ l.map Prod.fst) :
    l.countP (fun e => e.1 == t) = 0 := by
  rw [List.countP_eq_zero]
  intro a ha
  simp only [beq_iff_eq, decide_eq_true_eq]
  intro hat
  exact h (List.mem_map.mpr ⟨a, ha, hat⟩)

theorem setEdge_countP (l : List (Nat × String)) (t : Nat) (r : String)
    (h : (l.map Prod.fst).Nodup) :
    (nodeUse.setEdge l t r).countP (fun e => e.1 == t) = 1 := by
  induction l with
  | nil => simp [nodeUse.setEdge, List.countP_cons]
  | cons kv rest ih =>
    obtain ⟨k, v⟩ := kv
    simp only [List.map_cons, List.nodup_cons] at h
    by_cases hk : k = t
    · subst hk
      have hz := countP_key_eq_zero rest k h.1
      simp [nodeUse.setEdge, List.countP_cons, hz]
    · simp only [nodeUse.setEdge, hk, if_false, List.countP_cons]
      rw [ih h.2]
      simp [hk]

theorem nodeUse_of_lookup_some (n : GNode) (t : Nat) (r s : String)
    (h : n.used.lookup t = some s) :
    nodeUse n t r = if s = r then (false, n)
      else (true, { n with used := nodeUse.setEdge n.used t r }) := by
  unfold nodeUse; rw [h]

theorem nodeUse_lookup_self (n : GNode) (t : Nat) (r : String) :
    ((nodeUse n t r).2).used.lookup t = some r := by
  unfold nodeUse
  cases hl : n.used.lookup t with
  | none => simpa using setEdge_lookup_self n.used t r
  | some s =>
    by_cases hs : s = r
    · subst hs; simp [hl]
    · simpa [hs] using setEdge_lookup_self n.used t r

theorem nodeUse_keys_nodup (n : GNode) (t : Nat) (r : String)
    (h : (n.used.map Prod.fst).Nodup) :
    (((nodeUse n t r).2).used.map Prod.fst).Nodup := by
  unfold nodeUse
  cases hl : n.used.lookup t with
  | none => simpa using setEdge_keys_nodup n.used t r h
  | some s =>
    by_cases hs : s = r
    · simpa [hs] using h
    · simpa [hs] using setEdge_keys_nodup n.used t r h

/-- C4 (counterexample): recording the edge `(u, v, "a")` and then
`(u, v, "b")` does not preserve both labeled edges, contrary to the claim:
the second insertion is reported as new but replaces the stored reason,
leaving the single edge `(v, "b")`. -/
theorem c4_counterexample :
    ((nodeUse (nodeUse default 5 "a").2 5 "b").2).used = [(5, "b")] ∧
    (nodeUse (nodeUse default 5 "a").2 5 "b").1 = true := by decide

/-- C4 (amended): edge deduplication is keyed on the target node alone,
with the stored reason compared on insertion: recording `(u, v, r)` twice
leaves the map unchanged and reports the second insertion as not new, while
recording `(u, v, r1)` and then `(u, v, r2)` with `r1 ≠ r2` reports the
second insertion as new but replaces the stored reason, so exactly one edge
to `v` remains, labeled `r2`. -/
theorem c4_edge_dedup (n : GNode) (t : Nat) (r1 r2 : String)
    (hnd : (n.used.map Prod.fst).Nodup) (hr : r1 ≠ r2) :
    (nodeUse (nodeUse n t r1).2 t r1).1 = false ∧
    (nodeUse (nodeUse n t r1).2 t r1).2 = (nodeUse n t r1).2 ∧
    (nodeUse (nodeUse n t r1).2 t r2).1 = true ∧
    ((nodeUse (nodeUse n t r1).2 t r2).2).used.lookup t = some r2 ∧
    ((nodeUse (nodeUse n t r1).2 t r2).2).used.countP
      (fun e => e.1 == t) = 1 := by
  have h1 := nodeUse_lookup_self n t r1
  refine ⟨?_, ?_, ?_, nodeUse_lookup_self _ t r2, ?_⟩
  · rw [nodeUse_of_lookup_some _ t r1 r1 h1]; simp
  · rw [nodeUse_of_lookup_some _ t r1 r1 h1]; simp
  · rw [nodeUse_of_lookup_some _ t r2 r1 h1]; simp [hr]
  · have hnd1 := nodeUse_keys_nodup n t r1 hnd
    rw [nodeUse_of_lookup_some _ t r2 r1 h1, if_neg hr]
    exact setEdge_countP _ t r2 hnd1

/-- C4 (witness for the amended theorem, at a concrete node and reasons). -/
theorem c4_witness :
    (nodeUse (nodeUse ⟨none, [], false, false⟩ 5 "a").2 5 "a").1 = false ∧
    (nodeUse (nodeUse ⟨none, [], false, false⟩ 5 "a").2 5 "a").2 =
      (nodeUse ⟨none, [], false, false⟩ 5 "a").2 ∧
    (nodeUse (nodeUse ⟨none, [], false, false⟩ 5 "a").2 5 "b").1 = true ∧
    ((nodeUse (nodeUse ⟨none, [], false, false⟩ 5 "a").2 5 "b").2).used.lookup
      5 = some "b" ∧
    ((nodeUse (nodeUse ⟨none, [], false, false⟩ 5 "a").2 5 "b").2).used.countP
      (fun e => e.1 == 5) = 1 :=
  c4_edge_dedup ⟨none, [], false, false⟩ 5 "a" "b" (by decide) (by decide)

/-! ## Claim C5: the relevance filter -/

/-- C5 (counterexample): a channel of irrelevant element type is *not*
irrelevant — the source switch has no channel case — refuting the claimed
equivalence "for every channel type, the channel is irrelevant if and only
if its element type is irrelevant". -/
theorem c5_counterexample :
    isIrrelevantT [] 9 (GoType.chanT (GoType.basic false)) = false ∧
    isIrrelevantT [] 9 (GoType.basic false) = true := by decide

/-- C5 (amended): `isIrrelevant` returns true exactly for non-field
variables of irrelevant type, and for types that, after a single
dereference step (replacing `T` by its pointee when `T`'s underlying type
is a pointer), are: basic types; arrays or slices with irrelevant element
type; tuples all of whose elements are irrelevant; receiver-less signatures
all of whose parameters and results are irrelevant; or interfaces with zero
methods.  Channels are never irrelevant (they are not in the filter's
switch), and a pointer is irrelevant only through the dereference step. -/
theorem c5_isIrrelevant_characterization
    (env : List (Nat × NamedInfo)) (fuel : Nat) (T : GoType) (v : GoVar) :
    (isIrrelevantV env fuel v = true ↔
      v.1.isField = false ∧ isIrrelevantT env fuel v.2 = true) ∧
    (isIrrelevantT env (fuel + 1) T = true ↔
      ((∃ u, derefT env T = GoType.basic u) ∨
       (∃ e, (derefT env T = GoType.array e ∨ derefT env T = GoType.slice e) ∧
         isIrrelevantT env fuel e = true) ∨
       (∃ vs, derefT env T = GoType.tuple vs ∧
         ∀ w ∈ vs, isIrrelevantV env fuel w = true) ∨
       (∃ ps rs, derefT env T = GoType.sig none ps rs ∧
         (∀ w ∈ ps, isIrrelevantV env fuel w = true) ∧
         (∀ w ∈ rs, isIrrelevantV env fuel w = true)) ∨
       derefT env T = GoType.iface [])) ∧
    (∀ e fuel2, isIrrelevantT env fuel2 (GoType.chanT e) = false) := by
  refine ⟨by simp [isIrrelevantV], ?_, ?_⟩
  · show (match derefT env T with
      | .array e => isIrrelevantT env fuel e
      | .slice e => isIrrelevantT env fuel e
      | .basic _ => true
      | .tuple vs => vs.all fun w => !w.1.isField && isIrrelevantT env fuel w.2
      | .sig recv params results =>
        match recv with
        | some _ => false
        | none =>
          (params.all fun w => !w.1.isField && isIrrelevantT env fuel w.2) &&
          (results.all fun w => !w.1.isField && isIrrelevantT env fuel w.2)
      | .iface ms => ms.isEmpty
      | _ => false) = true ↔ _
    cases hd : derefT env T with
    | basic u => simp
    | named n => simp
    | strct fs => simp
    | ptr e => simp
    | slice e => simp [isIrrelevantV]
    | array e => simp [isIrrelevantV]
    | chanT e => simp
    | mapT k e => simp
    | sig r ps rs =>
      cases r with
      | none =>
        simp only [List.all_eq_true, isIrrelevantV, Bool.and_eq_true,
          Bool.not_eq_true', decide_eq_true_eq]
        constructor
        · intro hh
          refine Or.inr (Or.inr (Or.inr (Or.inl ⟨ps, rs, rfl, ?_, ?_⟩)))
          · intro w hw
            exact hh.1 w hw
          · intro w hw
            exact hh.2 w hw
        · rintro (⟨u, hu⟩ | ⟨e, (he | he), _⟩ | ⟨vs, hv, _⟩ |
            ⟨ps2, rs2, heq, ha, hb⟩ | hif) <;> try simp_all
          constructor
          · intro w hw
            have := ha w hw
            simpa [isIrrelevantV] using this
          · intro w hw
            have := hb w hw
            simpa [isIrrelevantV] using this
      | some w => simp
    | iface ms => simp [List.isEmpty_iff]
    | tuple vs => simp [List.all_eq_true, isIrrelevantV]
  · intro e fuel2
    cases fuel2 with
    | zero => rfl
    | succ m =>
      show (match derefT env (GoType.chanT e) with
        | .array e2 => isIrrelevantT env m e2
        | .slice e2 => isIrrelevantT env m e2
        | .basic _ => true
        | .tuple vs => vs.all fun w => !w.1.isField && isIrrelevantT env m w.2
        | .sig recv params results =>
          match recv with
          | some _ => false
          | none =>
            (params.all fun w => !w.1.isField && isIrrelevantT env m w.2) &&
            (results.all fun w => !w.1.isField && isIrrelevantT env m w.2)
        | .iface ms => ms.isEmpty
        | _ => false) = false
      have : derefT env (GoType.chanT e) = GoType.chanT e := rfl
      rw [this]

/-! ## Claim C9: the NoCopy sentinel -/

/-- C9: `isNoCopyType` returns true if and only if the type is a named type
whose underlying type is the zero-field struct and which has exactly one
method, named `Lock`, whose signature has no parameters and no results; the
method body is never inspected (method objects in the model carry no body,
as the source never reads one). -/
theorem c9_isNoCopyType_iff (env : List (Nat × NamedInfo)) (t : GoType) :
    isNoCopyType env t = true ↔
      ∃ nid m, t = GoType.named nid ∧
        (namedGet env nid).underlying = GoType.strct [] ∧
        (namedGet env nid).methods = [m] ∧
        m.1.fname = "Lock" ∧
        ∃ recv, m.2 = GoType.sig recv [] [] := by
  cases t with
  | named nid =>
    constructor
    · intro h
      simp only [isNoCopyType, underlyingT] at h
      split at h
      · rename_i flds hu
        by_cases hlen : flds.length ≠ 0
        · rw [if_pos hlen] at h; exact absurd h (by simp)
        · rw [if_neg hlen] at h
          split at h
          · rename_i m hm
            by_cases hname : m.1.fname ≠ "Lock"
            · rw [if_pos hname] at h; exact absurd h (by simp)
            · rw [if_neg hname] at h
              split at h
              · rename_i recv ps rs hsig
                simp only [Bool.and_eq_true, decide_eq_true_eq] at h
                have hflds : flds = [] := by
                  simpa [List.length_eq_zero] using hlen
                refine ⟨nid, m, rfl, by rw [hu, hflds], hm,
                  by simpa using hname, recv, ?_⟩
                rw [hsig, List.length_eq_zero.mp h.1,
                  List.length_eq_zero.mp h.2]
              · exact absurd h (by simp)
          · exact absurd h (by simp)
      · exact absurd h (by simp)
    · rintro ⟨nid2, m, hnid, hu, hm, hname, recv, hsig⟩
      have : nid = nid2 := by injection hnid
      subst this
      simp [isNoCopyType, underlyingT, hu, hm, hname, hsig]
  | basic u => simp [isNoCopyType, underlyingT]
  | strct fs => simp [isNoCopyType, underlyingT]
  | ptr e => simp [isNoCopyType, underlyingT]
  | slice e => simp [isNoCopyType, underlyingT]
  | array e => simp [isNoCopyType, underlyingT]
  | chanT e => simp [isNoCopyType, underlyingT]
  | mapT k e => simp [isNoCopyType, underlyingT]
  | sig r p q => simp [isNoCopyType, underlyingT]
  | iface ms => simp [isNoCopyType, underlyingT]
  | tuple es => simp [isNoCopyType, underlyingT]

/-! ## Coloring (unused.go:303-311) -/

mutual

/-- `Graph.color`: depth-first traversal setting `seen` on every node
reachable over `used` edges.  The recursion is fuel-indexed (keeping it
structural, hence executable); `c1_color_reachable` shows that enough fuel
always exists, which renders the source's termination on cyclic graphs
(guaranteed there by the `seen` guard).  A node id out of range returns
the graph unchanged (the source only ever colors existing nodes). -/
def color : Nat → List GNode → Nat → Except AErr (List GNode)
  | 0, _, _ => .error .outOfFuel
  | fuel+1, nodes, i =>
    if i < nodes.length then
      if (nodeAt nodes i).seen then .ok nodes
      else
        colorList fuel (nodes.set i { nodeAt nodes i with seen := true })
          ((nodeAt nodes i).used.map Prod.fst)
    else .ok nodes

/-- The `for other := range root.used` loop of `Graph.color`. -/
def colorList : Nat → List GNode → List Nat → Except AErr (List GNode)
  | 0, _, _ => .error .outOfFuel
  | _+1, nodes, [] => .ok nodes
  | fuel+1, nodes, j :: rest => do
    let nodes2 ← color fuel nodes j
    colorList fuel nodes2 rest

end

/-- The successor ids of node `i` (targets of its `used` edges). -/
def succs (nodes : List GNode) (i : Nat) : List Nat :=
  (nodeAt nodes i).used.map Prod.fst

/-- One `used` edge step in a node arena. -/
def edgeStep (nodes : List GNode) (i j : Nat) : Prop :=
  i < nodes.length ∧ j ∈ succs nodes i

/-- What coloring preserves: length, keys, edges, quiet flags; `seen`
only grows. -/
def colorMono (a b : List GNode) : Prop :=
  b.length = a.length ∧
  (∀ v, (nodeAt b v).obj = (nodeAt a v).obj ∧
    (nodeAt b v).used = (nodeAt a v).used ∧
    (nodeAt b v).quiet = (nodeAt a v).quiet) ∧
  (∀ v, (nodeAt a v).seen = true → (nodeAt b v).seen = true)

theorem colorMono_refl (a : List GNode) : colorMono a a :=
  ⟨rfl, fun _ => ⟨rfl, rfl, rfl⟩, fun _ h => h⟩

theorem colorMono_trans {a b c : List GNode} (h1 : colorMono a b)
    (h2 : colorMono b c) : colorMono a c := by
  refine ⟨h2.1.trans h1.1, fun v => ?_, fun v h => h2.2.2 v (h1.2.2 v h)⟩
  obtain ⟨x1, x2, x3⟩ := h1.2.1 v
  obtain ⟨y1, y2, y3⟩ := h2.2.1 v
  exact ⟨y1.trans x1, y2.trans x2, y3.trans x3⟩

theorem nodeAt_set_self (l : List GNode) (i : Nat) (x : GNode)
    (h : i < l.length) : nodeAt (l.set i x) i = x := by
  simp [nodeAt, List.getD, List.getElem?_set_self', h]

theorem nodeAt_set_ne (l : List GNode) (i v : Nat) (x : GNode)
    (h : v ≠ i) : nodeAt (l.set i x) v = nodeAt l v := by
  simp [nodeAt, List.getD, List.getElem?_set_ne (Ne.symm h)]

theorem colorMono_mark (nodes : List GNode) (i : Nat) (h : i < nodes.length) :
    colorMono nodes
      (nodes.set i { nodeAt nodes i with seen := true }) := by
  refine ⟨by simp, fun v => ?_, fun v hv => ?_⟩
  · by_cases hvi : v = i
    · subst hvi; rw [nodeAt_set_self _ _ _ h]; exact ⟨rfl, rfl, rfl⟩
    · rw [nodeAt_set_ne _ _ _ _ hvi]; exact ⟨rfl, rfl, rfl⟩
  · by_cases hvi : v = i
    · subst hvi; rw [nodeAt_set_self _ _ _ h]
    · rw [nodeAt_set_ne _ _ _ _ hvi]; exact hv

/-- Coloring preserves structure and only grows `seen` (both walkers). -/
theorem color_shape : ∀ fuel,
    (∀ nodes i r, color fuel nodes i = .ok r → colorMono nodes r) ∧
    (∀ nodes l r, colorList fuel nodes l = .ok r → colorMono nodes r) := by
  intro fuel
  induction fuel with
  | zero => exact ⟨fun _ _ _ h => (nomatch h), fun _ _ _ h => (nomatch h)⟩
  | succ fuel ih =>
    constructor
    · intro nodes i r h
      simp only [color] at h
      by_cases hlen : i < nodes.length
      · rw [if_pos hlen] at h
        by_cases hseen : (nodeAt nodes i).seen
        · rw [if_pos hseen] at h
          cases h
          exact colorMono_refl _
        · rw [if_neg hseen] at h
          exact colorMono_trans (colorMono_mark nodes i hlen) (ih.2 _ _ _ h)
      · rw [if_neg hlen] at h
        cases h
        exact colorMono_refl _
    · intro nodes l r h
      match l with
      | [] =>
        simp only [colorList] at h
        cases h
        exact colorMono_refl _
      | j :: rest =>
        simp only [colorList] at h
        cases hc : color fuel nodes j with
        | error e => rw [exBind_err hc] at h; exact (nomatch h)
        | ok nodes2 =>
          rw [exBind_ok hc] at h
          exact colorMono_trans (ih.1 _ _ _ hc) (ih.2 _ _ _ h)

/-- Soundness: every node newly seen by a color run is reachable from the
start node (or from one of the listed start nodes). -/
theorem color_sound : ∀ fuel,
    (∀ nodes i r, color fuel nodes i = .ok r →
      ∀ v, (nodeAt r v).seen = true → (nodeAt nodes v).seen = true ∨
        Relation.ReflTransGen (edgeStep nodes) i v) ∧
    (∀ nodes l r, colorList fuel nodes l = .ok r →
      ∀ v, (nodeAt r v).seen = true → (nodeAt nodes v).seen = true ∨
        ∃ j ∈ l, Relation.ReflTransGen (edgeStep nodes) j v) := by
  intro fuel
  induction fuel with
  | zero => exact ⟨fun _ _ _ h => (nomatch h), fun _ _ _ h => (nomatch h)⟩
  | succ fuel ih =>
    have hedge : ∀ (nodes : List GNode) i (h : i < nodes.length),
        edgeStep (nodes.set i { nodeAt nodes i with seen := true }) =
          edgeStep nodes := by
      intro nodes i h
      funext a b
      have hmono := colorMono_mark nodes i h
      simp only [edgeStep, succs, eq_iff_iff]
      rw [(hmono.2.1 a).2.1, hmono.1]
    constructor
    · intro nodes i r h v hv
      simp only [color] at h
      by_cases hlen : i < nodes.length
      · rw [if_pos hlen] at h
        by_cases hseen : (nodeAt nodes i).seen
        · rw [if_pos hseen] at h; cases h; exact Or.inl hv
        · rw [if_neg hseen] at h
          rcases ih.2 _ _ _ h v hv with h2 | ⟨j, hj, hreach⟩
          · by_cases hvi : v = i
            · subst hvi; exact Or.inr Relation.ReflTransGen.refl
            · rw [nodeAt_set_ne _ _ _ _ hvi] at h2; exact Or.inl h2
          · rw [hedge nodes i hlen] at hreach
            exact Or.inr (Relation.ReflTransGen.head ⟨hlen, hj⟩ hreach)
      · rw [if_neg hlen] at h; cases h; exact Or.inl hv
    · intro nodes l r h v hv
      match l with
      | [] =>
        simp only [colorList] at h; cases h; exact Or.inl hv
      | j :: rest =>
        simp only [colorList] at h
        cases hc : color fuel nodes j with
        | error e => rw [exBind_err hc] at h; exact (nomatch h)
        | ok nodes2 =>
          rw [exBind_ok hc] at h
          rcases ih.2 _ _ _ h v hv with h2 | ⟨j2, hj2, hreach⟩
          · rcases ih.1 _ _ _ hc v h2 with h3 | hreach
            · exact Or.inl h3
            · exact Or.inr ⟨j, List.mem_cons_self j rest, hreach⟩
          · -- a path in nodes2 is a path in nodes: edges are preserved
            have hmono := (color_shape fuel).1 _ _ _ hc
            have : Relation.ReflTransGen (edgeStep nodes) j2 v := by
              refine Relation.ReflTransGen.mono ?_ hreach
              intro a b hab
              refine ⟨by rw [← hmono.1]; exact hab.1, ?_⟩
              have := (hmono.2.1 a).2.1
              simpa [succs, this] using hab.2
            exact Or.inr ⟨j2, List.mem_cons_of_mem j hj2, this⟩

/-- Completeness scaffolding: the start node ends seen, and every node the
run marks has all its successors marked. -/
theorem color_post : ∀ fuel,
    (∀ nodes i r, color fuel nodes i = .ok r →
      (i < nodes.length → (nodeAt r i).seen = true) ∧
      (∀ u, (nodeAt r u).seen = true → (nodeAt nodes u).seen = true ∨
        ∀ j ∈ succs nodes u, j < nodes.length → (nodeAt r j).seen = true)) ∧
    (∀ nodes l r, colorList fuel nodes l = .ok r →
      (∀ j ∈ l, j < nodes.length → (nodeAt r j).seen = true) ∧
      (∀ u, (nodeAt r u).seen = true → (nodeAt nodes u).seen = true ∨
        ∀ j ∈ succs nodes u, j < nodes.length → (nodeAt r j).seen = true)) := by
  intro fuel
  induction fuel with
  | zero => exact ⟨fun _ _ _ h => (nomatch h), fun _ _ _ h => (nomatch h)⟩
  | succ fuel ih =>
    constructor
    · intro nodes i r h
      simp only [color] at h
      by_cases hlen : i < nodes.length
      · rw [if_pos hlen] at h
        by_cases hseen : (nodeAt nodes i).seen
        · rw [if_pos hseen] at h
          cases h
          exact ⟨fun _ => hseen, fun u hu => Or.inl hu⟩
        · rw [if_neg hseen] at h
          set nodes1 := nodes.set i { nodeAt nodes i with seen := true }
            with hn1
          have hmark := colorMono_mark nodes i hlen
          have hlist := ih.2 _ _ _ h
          have hmono := (color_shape fuel).2 _ _ _ h
          have hsucc1 : succs nodes1 i = succs nodes i := by
            simp [succs, (hmark.2.1 i).2.1]
          constructor
          · intro _
            refine hmono.2.2 i ?_
            rw [hn1, nodeAt_set_self _ _ _ hlen]
          · intro u hu
            rcases hlist.2 u hu with h2 | h2
            · by_cases hui : u = i
              · subst hui
                refine Or.inr fun j hj hjlen => ?_
                exact hlist.1 j (by simpa [succs] using hj)
                  (by rwa [hmark.1])
              · rw [nodeAt_set_ne _ _ _ _ hui] at h2
                exact Or.inl h2
            · refine Or.inr fun j hj hjlen => ?_
              refine h2 j ?_ ?_
              · rwa [succs, (hmark.2.1 u).2.1]
              · rwa [hmark.1]
      · rw [if_neg hlen] at h
        cases h
        exact ⟨fun hc => absurd hc hlen, fun u hu => Or.inl hu⟩
    · intro nodes l r h
      match l with
      | [] =>
        simp only [colorList] at h
        cases h
        exact ⟨fun j hj => by simp at hj, fun u hu => Or.inl hu⟩
      | j :: rest =>
        simp only [colorList] at h
        cases hc : color fuel nodes j with
        | error e => rw [exBind_err hc] at h; exact (nomatch h)
        | ok nodes2 =>
          rw [exBind_ok hc] at h
          have hm1 := (color_shape fuel).1 _ _ _ hc
          have hm2 := (color_shape fuel).2 _ _ _ h
          have hc1 := ih.1 _ _ _ hc
          have hl2 := ih.2 _ _ _ h
          constructor
          · intro j2 hj2 hj2len
            rcases List.mem_cons.mp hj2 with rfl | hj2
            · exact hm2.2.2 j2 (hc1.1 hj2len)
            · exact hl2.1 j2 hj2 (by rwa [hm1.1])
          · intro u hu
            rcases hl2.2 u hu with h2 | h2
            · rcases hc1.2 u h2 with h3 | h3
              · exact Or.inl h3
              · refine Or.inr fun j3 hj3 hj3len => ?_
                exact hm2.2.2 j3 (h3 j3 hj3 hj3len)
            · refine Or.inr fun j3 hj3 hj3len => ?_
              refine h2 j3 ?_ ?_
              · rwa [succs, (hm1.2.1 u).2.1]
              · rwa [hm1.1]

/-- Fuel monotonicity for the coloring walkers. -/
theorem color_fuel_succ : ∀ fuel,
    (∀ nodes i r, color fuel nodes i = .ok r →
      color (fuel + 1) nodes i = .ok r) ∧
    (∀ nodes l r, colorList fuel nodes l = .ok r →
      colorList (fuel + 1) nodes l = .ok r) := by
  intro fuel
  induction fuel with
  | zero => exact ⟨fun _ _ _ h => (nomatch h), fun _ _ _ h => (nomatch h)⟩
  | succ fuel ih =>
    constructor
    · intro nodes i r h
      simp only [color] at h ⊢
      by_cases hlen : i < nodes.length
      · rw [if_pos hlen] at h ⊢
        by_cases hseen : (nodeAt nodes i).seen
        · rwa [if_pos hseen] at h ⊢
        · rw [if_neg hseen] at h ⊢
          exact ih.2 _ _ _ h
      · rwa [if_neg hlen] at h ⊢
    · intro nodes l r h
      match l with
      | [] => simpa [colorList] using h
      | j :: rest =>
        simp only [colorList] at h ⊢
        cases hc : color fuel nodes j with
        | error e => rw [exBind_err hc] at h; exact (nomatch h)
        | ok nodes2 =>
          rw [exBind_ok hc] at h
          rw [exBind_ok (ih.1 _ _ _ hc)]
          exact ih.2 _ _ _ h

theorem color_fuel_le {fuel fuel2 : Nat} (hle : fuel ≤ fuel2) :
    (∀ nodes i r, color fuel nodes i = .ok r →
      color fuel2 nodes i = .ok r) ∧
    (∀ nodes l r, colorList fuel nodes l = .ok r →
      colorList fuel2 nodes l = .ok r) := by
  induction hle with
  | refl => exact ⟨fun _ _ _ h => h, fun _ _ _ h => h⟩
  | step h2 ih =>
    exact ⟨fun nodes i r h => (color_fuel_succ _).1 _ _ _ (ih.1 nodes i r h),
      fun nodes l r h => (color_fuel_succ _).2 _ _ _ (ih.2 nodes l r h)⟩

/-- The count of unseen nodes, the termination measure of the DFS. -/
def unseenCount (nodes : List GNode) : Nat :=
  nodes.countP fun n => !n.seen

theorem unseenCount_le_of_mono {a b : List GNode} (h : colorMono a b) :
    unseenCount b ≤ unseenCount a := by
  have hlen := h.1
  have hseen := h.2.2
  clear h
  unfold unseenCount
  induction a generalizing b with
  | nil =>
    cases b with
    | nil => exact le_rfl
    | cons x xs => simp at hlen
  | cons x xs ih =>
    cases b with
    | nil => simp at hlen
    | cons y ys =>
      simp only [List.length_cons, Nat.succ.injEq] at hlen
      have hhead : x.seen = true → y.seen = true := by
        have := hseen 0
        simpa [nodeAt] using this
      have htail : ∀ v, (nodeAt xs v).seen = true →
          (nodeAt ys v).seen = true := by
        intro v
        have := hseen (v + 1)
        simpa [nodeAt] using this
      have hle := ih hlen htail
      simp only [List.countP_cons]
      by_cases hx : x.seen = true
      · rw [hx, hhead hx]
        simpa using hle
      · have hx2 : x.seen = false := by simpa using hx
        rw [hx2]
        have h1 : ((if (!false) = true then 1 else 0) : Nat) = 1 := by simp
        rw [h1]
        by_cases hy : y.seen = true
        · rw [hy]
          have h0 : ((if (!true) = true then 1 else 0) : Nat) = 0 := by simp
          rw [h0]
          omega
        · have hy2 : y.seen = false := by simpa using hy
          rw [hy2, h1]
          omega

theorem unseenCount_set_lt (l : List GNode) (i : Nat) (M : GNode)
    (hlen : i < l.length) (hseen : (nodeAt l i).seen = false)
    (hM : M.seen = true) :
    unseenCount (l.set i M) < unseenCount l := by
  unfold unseenCount
  induction l generalizing i with
  | nil => simp at hlen
  | cons x xs ih =>
    cases i with
    | zero =>
      have h0 : nodeAt (x :: xs) 0 = x := by simp [nodeAt]
      rw [h0] at hseen
      have e0 : ((if (!M.seen) = true then 1 else 0) : Nat) = 0 := by
        simp [hM]
      have e1 : ((if (!x.seen) = true then 1 else 0) : Nat) = 1 := by
        simp [hseen]
      simp only [List.set, List.countP_cons, e0, e1]
      omega
    | succ i2 =>
      simp only [List.length_cons, Nat.succ_lt_succ_iff] at hlen
      have hrw : nodeAt (x :: xs) (i2 + 1) = nodeAt xs i2 := by
        simp [nodeAt]
      rw [hrw] at hseen
      have hlt := ih i2 hlen
      simp only [List.set, List.countP_cons]
      have := hlt hseen
      omega

/-- Enough fuel always exists for the DFS to finish. -/
theorem color_exists (U : Nat) : ∀ nodes, unseenCount nodes ≤ U →
    (∀ i, ∃ fuel r, color fuel nodes i = .ok r) := by
  induction U using Nat.strong_induction_on with
  | _ U ihU =>
    intro nodes hU i
    by_cases hlen : i < nodes.length
    · by_cases hseen : (nodeAt nodes i).seen
      · exact ⟨1, nodes, by simp [color, hlen, hseen]⟩
      · set nodes1 := nodes.set i { nodeAt nodes i with seen := true }
          with hn1
        have huc1 : unseenCount nodes1 < unseenCount nodes :=
          unseenCount_set_lt nodes i _ hlen (by simpa using hseen) rfl
        have hlist : ∀ l (m : List GNode), unseenCount m ≤ unseenCount nodes1 →
            ∃ fuel r, colorList fuel m l = .ok r ∧
              unseenCount r ≤ unseenCount m := by
          intro l
          induction l with
          | nil => exact fun m _ => ⟨1, m, by simp [colorList], le_rfl⟩
          | cons j rest ihl =>
            intro m hm
            have hUm : unseenCount m < U := lt_of_le_of_lt hm
              (lt_of_lt_of_le huc1 hU)
            obtain ⟨f1, r1, hr1⟩ :=
              ihU (unseenCount m) hUm m le_rfl j
            have hr1uc : unseenCount r1 ≤ unseenCount m :=
              unseenCount_le_of_mono ((color_shape f1).1 _ _ _ hr1)
            obtain ⟨f2, r2, hr2, hr2uc⟩ := ihl r1 (le_trans hr1uc hm)
            refine ⟨max f1 f2 + 1, r2, ?_, le_trans hr2uc hr1uc⟩
            simp only [colorList]
            rw [exBind_ok ((color_fuel_le (le_max_left f1 f2)).1 _ _ _ hr1)]
            exact (color_fuel_le (le_max_right f1 f2)).2 _ _ _ hr2
        obtain ⟨f, r, hok, _⟩ := hlist ((nodeAt nodes i).used.map Prod.fst)
          nodes1 le_rfl
        exact ⟨f + 1, r, by simp only [color]; rw [if_pos hlen,
          if_neg hseen, ← hn1]; exact hok⟩
    · exact ⟨1, nodes, by simp [color, hlen]⟩

/-- C1: with all `seen` flags initially false, coloring from `Root`
terminates (enough fuel always exists, the model's rendering of the
source's termination on cyclic graphs) and marks exactly the nodes
reachable from the start node along `used` edges. -/
theorem c1_color_reachable :
    (∀ nodes i, ∃ fuel r, color fuel nodes i = .ok r) ∧
    (∀ nodes root fuel r, color fuel nodes root = .ok r →
      (∀ v, (nodeAt nodes v).seen = false) →
      ∀ v, v < nodes.length →
        ((nodeAt r v).seen = true ↔
          Relation.ReflTransGen (edgeStep nodes) root v)) := by
  constructor
  · exact fun nodes i => color_exists (unseenCount nodes) nodes le_rfl i
  · intro nodes root fuel r hok hfresh v hv
    have hmono := (color_shape fuel).1 _ _ _ hok
    have hpost := (color_post fuel).1 _ _ _ hok
    constructor
    · intro hseen
      rcases (color_sound fuel).1 _ _ _ hok v hseen with h | h
      · rw [hfresh v] at h; cases h
      · exact h
    · intro hreach
      have key : ∀ w, Relation.ReflTransGen (edgeStep nodes) root w →
          w < nodes.length → (nodeAt r w).seen = true := by
        intro w hw
        induction hw with
        | refl => exact fun hroot => hpost.1 hroot
        | tail hsteps hstep ihw =>
          rename_i u w2
          intro hw2
          have hu : (nodeAt r u).seen = true := ihw hstep.1
          rcases hpost.2 u hu with h2 | h2
          · rw [hfresh u] at h2; cases h2
          · exact h2 w2 hstep.2 hw2
      exact key v hreach hv

/-- C1 (witness): a concrete cyclic three-node graph (Root 0 and node 1
point at each other; node 2 is isolated); the theorem is applied at it. -/
def c1nodes : List GNode :=
  [⟨none, [(1, "r")], false, false⟩,
   ⟨some (.ssaFnO (some 7)), [(0, "s")], false, false⟩,
   ⟨some (.ssaFnO (some 8)), [], false, false⟩]

theorem c1_witness :
    ((nodeAt ((color 9 c1nodes 0).toOption.getD []) 1).seen = true ↔
      Relation.ReflTransGen (edgeStep c1nodes) 0 1) ∧
    ((nodeAt ((color 9 c1nodes 0).toOption.getD []) 2).seen = true ↔
      Relation.ReflTransGen (edgeStep c1nodes) 0 2) := by
  have hfresh : ∀ v, (nodeAt c1nodes v).seen = false := fun v =>
    match v with
    | 0 => rfl
    | 1 => rfl
    | 2 => rfl
    | _+3 => rfl
  exact ⟨c1_color_reachable.2 c1nodes 0 9 _ (by rfl) hfresh 1 (by decide),
    c1_color_reachable.2 c1nodes 0 9 _ (by rfl) hfresh 2 (by decide)⟩

/-! ## Reporting (unused.go:221-268) -/

/-- The semantic object a node's diagnostic would carry: a `types.Object`
key is its own semantic object; a lowered-function key contributes its
linked `fn.Object()` when present; type keys, the typed-nil function and
object-less synthetic functions have none. -/
def nodeSem (inp : PkgIn) : Option Obj → Option Obj
  | some o =>
    match objPkg o with
    | some _ => some o
    | none =>
      match o with
      | .ssaFnO (some fid) => (fnGet inp fid).objO.map Obj.funcO
      | _ => none
  | none => none

/-- The `report` closure (unused.go:221): a node yields a diagnostic iff it
is unseen, not quieted, and holds either a `types.Object` whose defining
package is the package under analysis, or a non-nil `*ssa.Function` whose
linked semantic object exists and belongs to that package (the diagnostic
then carries that semantic object).  Every other node kind is silently
skipped (the debug-only prints are omitted); the source also records a
position from the `Fset` oracle, outside this model. -/
def reportNode (inp : PkgIn) (n : GNode) : Option Obj :=
  if n.seen then none
  else if n.quiet then none
  else
    match n.obj with
    | some o =>
      match objPkg o with
      | some p => if p = some inp.P then some o else none
      | none =>
        match o with
        | .ssaFnO none => none
        | .ssaFnO (some fid) =>
          match (fnGet inp fid).objO with
          | some fo =>
            if fo.1.pkg = some inp.P then some (.funcO fo) else none
          | none => none
        | _ => none
    | none => none

/-- The report loop over the whole arena (`graph.Nodes` then
`graph.TypeNodes` in the source; every arena node is in exactly one of the
two maps, apart from Root, whose nil key reports nothing). -/
def reportAll (inp : PkgIn) (s : GState) : List Obj :=
  s.nodes.filterMap (reportNode inp)

theorem reportNode_isSome_iff (inp : PkgIn) (n : GNode) :
    (reportNode inp n).isSome = true ↔
      n.seen = false ∧ n.quiet = false ∧
        ∃ o, nodeSem inp n.obj = some o ∧ objPkg o = some (some inp.P) := by
  by_cases hs : n.seen
  · simp [reportNode, hs]
  · by_cases hq : n.quiet
    · simp [reportNode, hs, hq]
    · cases ho : n.obj with
      | none => simp [reportNode, nodeSem, hs, hq, ho]
      | some o =>
        cases o with
        | varO v =>
          by_cases hp : v.1.pkg = some inp.P <;>
            simp [reportNode, nodeSem, hs, hq, ho, objPkg, hp]
        | constO c =>
          by_cases hp : c.pkg = some inp.P <;>
            simp [reportNode, nodeSem, hs, hq, ho, objPkg, hp]
        | typeNameO t =>
          by_cases hp : t.pkg = some inp.P <;>
            simp [reportNode, nodeSem, hs, hq, ho, objPkg, hp]
        | funcO f =>
          by_cases hp : f.1.pkg = some inp.P <;>
            simp [reportNode, nodeSem, hs, hq, ho, objPkg, hp]
        | ssaFnO f =>
          cases f with
          | none => simp [reportNode, nodeSem, hs, hq, ho, objPkg]
          | some fid =>
            cases hfo : (fnGet inp fid).objO with
            | none => simp [reportNode, nodeSem, hs, hq, ho, objPkg, hfo]
            | some fo =>
              by_cases hp : fo.1.pkg = some inp.P <;>
                simp [reportNode, nodeSem, hs, hq, ho, objPkg, hfo, hp]
        | typeO t => simp [reportNode, nodeSem, hs, hq, ho, objPkg]

theorem reportNode_sem (inp : PkgIn) (n : GNode) (u : Obj)
    (h : reportNode inp n = some u) :
    nodeSem inp n.obj = some u ∧ objPkg u = some (some inp.P) := by
  by_cases hs : n.seen
  · simp [reportNode, hs] at h
  · by_cases hq : n.quiet
    · simp [reportNode, hs, hq] at h
    · cases ho : n.obj with
      | none => simp [reportNode, hs, hq, ho] at h
      | some o =>
        cases o with
        | varO v =>
          by_cases hp : v.1.pkg = some inp.P <;>
            simp [reportNode, nodeSem, hs, hq, ho, objPkg, hp] at h ⊢ <;>
            simp [← h, objPkg, hp]
        | constO c =>
          by_cases hp : c.pkg = some inp.P <;>
            simp [reportNode, nodeSem, hs, hq, ho, objPkg, hp] at h ⊢ <;>
            simp [← h, objPkg, hp]
        | typeNameO t =>
          by_cases hp : t.pkg = some inp.P <;>
            simp [reportNode, nodeSem, hs, hq, ho, objPkg, hp] at h ⊢ <;>
            simp [← h, objPkg, hp]
        | funcO f =>
          by_cases hp : f.1.pkg = some inp.P <;>
            simp [reportNode, nodeSem, hs, hq, ho, objPkg, hp] at h ⊢ <;>
            simp [← h, objPkg, hp]
        | ssaFnO f =>
          cases f with
          | none => simp [reportNode, hs, hq, ho, objPkg] at h
          | some fid =>
            cases hfo : (fnGet inp fid).objO with
            | none => simp [reportNode, hs, hq, ho, objPkg, hfo] at h
            | some fo =>
              by_cases hp : fo.1.pkg = some inp.P <;>
                simp [reportNode, nodeSem, hs, hq, ho, objPkg, hfo, hp]
                  at h ⊢ <;> simp [← h, objPkg, hp]
        | typeO t => simp [reportNode, hs, hq, ho, objPkg] at h

/-- C2: the reporter emits one diagnostic per node exactly when the node is
unseen, not quieted, and its semantic object exists with defining package
equal to the package under analysis; the emitted record carries that
semantic object (for a lowered-function node, the linked `fn.Object()`);
and every object in the returned list has defining package equal to the
package under analysis. -/
theorem c2_report_spec (inp : PkgIn) :
    (∀ n : GNode, (reportNode inp n).isSome = true ↔
      n.seen = false ∧ n.quiet = false ∧
        ∃ o, nodeSem inp n.obj = some o ∧ objPkg o = some (some inp.P)) ∧
    (∀ n u, reportNode inp n = some u → nodeSem inp n.obj = some u) ∧
    (∀ s u, u ∈ reportAll inp s → objPkg u = some (some inp.P)) := by
  refine ⟨reportNode_isSome_iff inp, fun n u h => (reportNode_sem inp n u h).1,
    fun s u hu => ?_⟩
  rw [reportAll, List.mem_filterMap] at hu
  obtain ⟨n, _, hrep⟩ := hu
  exact (reportNode_sem inp n u hrep).2

/-- C2 (witness): the reporter applied at a one-node graph holding a
non-field variable of the package under analysis. -/
def c2inp : PkgIn :=
  { P := 1, pkgName := "p", namedEnv := [], fnEnv := [],
    funcValueL := [], scopesL := [], defs := [], uses := [],
    initialFns := [], members := [], implL := [], msSelL := [],
    msetL := [], irrFuel := 9 }

def c2v : GoVar := (⟨21, "x", false, false, false, some 1⟩, .basic false)

def c2state : GState :=
  { nodes := [⟨some (.varO c2v), [], false, false⟩],
    objIndex := [(.varO c2v, 0)], typeIndex := [],
    seenTypesL := [], seenFnsL := [] }

theorem c2_witness : objPkg (.varO c2v) = some (some c2inp.P) :=
  (c2_report_spec c2inp).2.2 c2state (.varO c2v) (by decide)

/-- C10: a node whose key is a structural type (struct, interface,
signature, ...), the nil key (Root), a typed-nil lowered function, a
synthetic lowered function with no semantic object, or a lowered function
whose object belongs to a foreign package never produces a record, even
when unseen and unquieted; diagnostics arise only from nodes with a
semantic object of the package under analysis. -/
theorem c10_structural_skipped (inp : PkgIn) :
    (∀ (t : GoType) (used : List (Nat × String)) (q : Bool),
      reportNode inp ⟨some (.typeO t), used, false, q⟩ = none) ∧
    (∀ used q, reportNode inp (⟨none, used, false, q⟩ : GNode) = none) ∧
    (∀ used q, reportNode inp ⟨some (.ssaFnO none), used, false, q⟩ = none) ∧
    (∀ fid used q, (fnGet inp fid).objO = none →
      reportNode inp ⟨some (.ssaFnO (some fid)), used, false, q⟩ = none) ∧
    (∀ fid fo used q, (fnGet inp fid).objO = some fo →
      fo.1.pkg ≠ some inp.P →
      reportNode inp ⟨some (.ssaFnO (some fid)), used, false, q⟩ = none) ∧
    (∀ n u, reportNode inp n = some u →
      ∃ o, nodeSem inp n.obj = some o ∧ objPkg o = some (some inp.P)) := by
  refine ⟨fun t used q => ?_, fun used q => ?_, fun used q => ?_,
    fun fid used q h => ?_, fun fid fo used q h hp => ?_,
    fun n u h => ?_⟩
  · by_cases hq : q <;> simp [reportNode, objPkg, hq]
  · by_cases hq : q <;> simp [reportNode, hq]
  · by_cases hq : q <;> simp [reportNode, objPkg, hq]
  · by_cases hq : q <;> simp [reportNode, objPkg, hq, h]
  · by_cases hq : q <;> simp [reportNode, objPkg, hq, h, hp]
  · obtain ⟨h1, h2⟩ := reportNode_sem inp n u h
    exact ⟨u, h1, h2⟩

/-- C10 (witness): the conditional conjuncts applied at a concrete input
with an empty function environment. -/
def c10inp : PkgIn :=
  { P := 1, pkgName := "p", namedEnv := [], fnEnv := [],
    funcValueL := [], scopesL := [], defs := [], uses := [],
    initialFns := [], members := [], implL := [], msSelL := [],
    msetL := [], irrFuel := 9 }

theorem c10_witness :
    reportNode c10inp ⟨some (.typeO (.strct [])), [], false, false⟩ = none ∧
    reportNode c10inp ⟨some (.ssaFnO (some 3)), [], false, false⟩ = none :=
  ⟨(c10_structural_skipped c10inp).1 (.strct []) [] false,
   (c10_structural_skipped c10inp).2.2.2.1 3 [] false (by rfl)⟩

/-! ## Quieting (unused.go:187-219) -/

/-- Mark node `i` quiet. -/
def setQuiet (s : GState) (i : Nat) : GState :=
  { s with nodes := s.nodes.set i { nodeAt s.nodes i with quiet := true } }

/-- The body of the method loop in `quieten` (unused.go:200-205): look up
the node of the method's lowered function and mark it quiet. -/
def quietMeth (inp : PkgIn) (s3 : GState) (m : GoFuncObj) : GState :=
  match nodeMaybe s3 (.ssaFnO (funcValue inp m.1.oid)) with
  | some j => setQuiet s3 j
  | none => s3

/-- The body of the field loop in `quieten` (unused.go:207-211). -/
def quietField (s3 : GState) (f : GoVar) : GState :=
  match nodeMaybe s3 (.varO f) with
  | some j => setQuiet s3 j
  | none => s3

/-- The `quieten` closure: a seen node is skipped; an unseen non-field
variable quiets itself; an unseen named type quiets the nodes of its
methods' lowered functions; an unseen struct quiets the nodes of its
fields.  The child nodes' own `seen` flags are not consulted. -/
def quietenNode (inp : PkgIn) (s : GState) (i : Nat) : GState :=
  let n := nodeAt s.nodes i
  if n.seen then s
  else
    match n.obj with
    | some (.varO v) => if !v.1.isField then setQuiet s i else s
    | some (.typeO (.named nid)) =>
      (namedGet inp.namedEnv nid).methods.foldl (quietMeth inp) s
    | some (.typeO (.strct flds)) =>
      flds.foldl quietField s
    | _ => s

/-- The quieting pass: `quieten` applied to every node (the source iterates
`graph.Nodes` then `graph.TypeNodes`; every arena node is in exactly one of
the two maps, apart from Root, whose nil key matches no case). -/
def quietPass (inp : PkgIn) (s : GState) : GState :=
  (List.range s.nodes.length).foldl (quietenNode inp) s

/-- Everything the quieting pass leaves untouched: arena length, keys,
edges, `seen` flags and the two key maps (only `quiet` flags change). -/
def quietStable (a b : GState) : Prop :=
  b.nodes.length = a.nodes.length ∧
  (∀ i, (nodeAt b.nodes i).obj = (nodeAt a.nodes i).obj ∧
    (nodeAt b.nodes i).used = (nodeAt a.nodes i).used ∧
    (nodeAt b.nodes i).seen = (nodeAt a.nodes i).seen) ∧
  b.objIndex = a.objIndex ∧ b.typeIndex = a.typeIndex ∧
  (∀ i, (nodeAt a.nodes i).quiet = true → (nodeAt b.nodes i).quiet = true)

theorem quietStable_refl (a : GState) : quietStable a a :=
  ⟨rfl, fun _ => ⟨rfl, rfl, rfl⟩, rfl, rfl, fun _ h => h⟩

theorem quietStable_trans {a b c : GState} (h1 : quietStable a b)
    (h2 : quietStable b c) : quietStable a c := by
  obtain ⟨l1, n1, o1, t1, q1⟩ := h1
  obtain ⟨l2, n2, o2, t2, q2⟩ := h2
  refine ⟨l2.trans l1, fun i => ?_, o2.trans o1, t2.trans t1,
    fun i h => q2 i (q1 i h)⟩
  obtain ⟨a1, a2, a3⟩ := n1 i
  obtain ⟨b1, b2, b3⟩ := n2 i
  exact ⟨b1.trans a1, b2.trans a2, b3.trans a3⟩

theorem setQuiet_stable (s : GState) (i : Nat) :
    quietStable s (setQuiet s i) := by
  refine ⟨by simp [setQuiet], fun v => ?_, rfl, rfl, fun v h => ?_⟩
  · by_cases hv : v = i
    · subst hv
      by_cases hlen : v < s.nodes.length
      · rw [setQuiet, nodeAt_set_self _ _ _ hlen]
        exact ⟨rfl, rfl, rfl⟩
      · have : s.nodes.set v { nodeAt s.nodes v with quiet := true } =
            s.nodes := List.set_eq_of_length_le (by omega)
        simp [setQuiet, this]
    · rw [setQuiet, nodeAt_set_ne _ _ _ _ hv]
      exact ⟨rfl, rfl, rfl⟩
  · by_cases hv : v = i
    · subst hv
      by_cases hlen : v < s.nodes.length
      · rw [setQuiet, nodeAt_set_self _ _ _ hlen]
      · have : s.nodes.set v { nodeAt s.nodes v with quiet := true } =
            s.nodes := List.set_eq_of_length_le (by omega)
        simp [setQuiet, this, h]
    · rw [setQuiet, nodeAt_set_ne _ _ _ _ hv]
      exact h

/-- Which nodes a quieting step may legitimately mark: the amended C3
characterization.  Node `i` is an unseen non-field variable, or the
lowered-function node of some method of an unseen named-type node, or the
node of some field of an unseen struct node (the latter two regardless of
node `i`'s own `seen` flag). -/
def quietJustified (inp : PkgIn) (s : GState) (i : Nat) : Prop :=
  ((nodeAt s.nodes i).seen = false ∧
    ∃ v, (nodeAt s.nodes i).obj = some (.varO v) ∧ v.1.isField = false) ∨
  (∃ j nid m, (nodeAt s.nodes j).obj = some (.typeO (.named nid)) ∧
    (nodeAt s.nodes j).seen = false ∧
    m ∈ (namedGet inp.namedEnv nid).methods ∧
    nodeMaybe s (.ssaFnO (funcValue inp m.1.oid)) = some i) ∨
  (∃ j flds f, (nodeAt s.nodes j).obj = some (.typeO (.strct flds)) ∧
    (nodeAt s.nodes j).seen = false ∧ f ∈ flds ∧
    nodeMaybe s (.varO f) = some i)

theorem quietJustified_transport {inp : PkgIn} {a b : GState} {i : Nat}
    (hst : quietStable a b) (h : quietJustified inp a i) :
    quietJustified inp b i := by
  rcases h with ⟨hseen, v, hobj, hfield⟩ | ⟨j, nid, m, hobj, hseen, hm, hnm⟩ |
    ⟨j, flds, f, hobj, hseen, hf, hnm⟩
  · exact Or.inl ⟨((hst.2.1 i).2.2).trans hseen,
      v, ((hst.2.1 i).1).trans hobj, hfield⟩
  · refine Or.inr (Or.inl ⟨j, nid, m, ((hst.2.1 j).1).trans hobj,
      ((hst.2.1 j).2.2).trans hseen, hm, ?_⟩)
    cases hkey : Obj.ssaFnO (funcValue inp m.1.oid) with
    | _ f0 =>
      rw [← hkey]
      rw [← hnm]
      show nodeMaybe b _ = nodeMaybe a _
      unfold nodeMaybe
      rw [hst.2.2.1]
  · refine Or.inr (Or.inr ⟨j, flds, f, ((hst.2.1 j).1).trans hobj,
      ((hst.2.1 j).2.2).trans hseen, hf, ?_⟩)
    rw [← hnm]
    show nodeMaybe b _ = nodeMaybe a _
    unfold nodeMaybe
    rw [hst.2.2.1]

/-- One quieten step preserves stability and only adds justified quiets. -/
theorem quietenNode_spec (inp : PkgIn) (s : GState) (k : Nat) :
    quietStable s (quietenNode inp s k) ∧
    ∀ i, (nodeAt (quietenNode inp s k).nodes i).quiet = true →
      (nodeAt s.nodes i).quiet = true ∨
        quietJustified inp (quietenNode inp s k) i := by
  unfold quietenNode
  by_cases hseen : (nodeAt s.nodes k).seen
  · simp only [hseen, if_pos rfl]
    exact ⟨quietStable_refl s, fun i h => Or.inl h⟩
  · simp only [hseen]
    rw [if_neg (by simp [hseen])]
    cases hobj : (nodeAt s.nodes k).obj with
    | none => exact ⟨quietStable_refl s, fun i h => Or.inl h⟩
    | some o =>
      match o with
      | .varO v =>
        by_cases hfield : v.1.isField = true
        · simp only [hfield]
          rw [if_neg (by simp)]
          exact ⟨quietStable_refl s, fun i h => Or.inl h⟩
        · have hf2 : v.1.isField = false := by simpa using hfield
          simp only [hf2]
          rw [if_pos (by simp)]
          refine ⟨setQuiet_stable s k, fun i h => ?_⟩
          by_cases hik : i = k
          · subst hik
            refine Or.inr (Or.inl ⟨?_, v, ?_, hf2⟩)
            · rw [((setQuiet_stable s i).2.1 i).2.2]
              simpa using hseen
            · rw [((setQuiet_stable s i).2.1 i).1, hobj]
          · rw [setQuiet, nodeAt_set_ne _ _ _ _ hik] at h
            exact Or.inl h
      | .constO c => exact ⟨quietStable_refl s, fun i h => Or.inl h⟩
      | .typeNameO t => exact ⟨quietStable_refl s, fun i h => Or.inl h⟩
      | .funcO f => exact ⟨quietStable_refl s, fun i h => Or.inl h⟩
      | .ssaFnO f => exact ⟨quietStable_refl s, fun i h => Or.inl h⟩
      | .typeO t =>
        match t with
        | .named nid =>
          -- fold over the methods of the unseen named type
          have main : ∀ (ms : List GoFuncObj) (s2 : GState),
              quietStable s s2 →
              (∀ m ∈ ms, m ∈ (namedGet inp.namedEnv nid).methods) →
              quietStable s (ms.foldl (quietMeth inp) s2) ∧
              ∀ i, (nodeAt (ms.foldl (quietMeth inp) s2).nodes i).quiet =
                  true →
                (nodeAt s2.nodes i).quiet = true ∨
                  ∃ m ∈ (namedGet inp.namedEnv nid).methods,
                    nodeMaybe s2 (.ssaFnO (funcValue inp m.1.oid)) =
                      some i := by
            intro ms
            induction ms with
            | nil => exact fun s2 hst _ => ⟨hst, fun i h => Or.inl h⟩
            | cons m rest ih =>
              intro s2 hst hsub
              simp only [List.foldl_cons]
              cases hnm : nodeMaybe s2 (.ssaFnO (funcValue inp m.1.oid)) with
              | none =>
                rw [show quietMeth inp s2 m = s2 from by
                  unfold quietMeth; rw [hnm]]
                exact ih s2 hst (fun m2 hm2 =>
                  hsub m2 (List.mem_cons_of_mem m hm2))
              | some j =>
                rw [show quietMeth inp s2 m = setQuiet s2 j from by
                  unfold quietMeth; rw [hnm]]
                have hst2 := quietStable_trans hst (setQuiet_stable s2 j)
                obtain ⟨hstf, hq⟩ := ih (setQuiet s2 j) hst2
                  (fun m2 hm2 => hsub m2 (List.mem_cons_of_mem m hm2))
                refine ⟨hstf, fun i h => ?_⟩
                rcases hq i h with h2 | ⟨m2, hm2, hnm2⟩
                · by_cases hij : i = j
                  · subst hij
                    exact Or.inr ⟨m, hsub m (List.mem_cons_self m rest), hnm⟩
                  · rw [setQuiet, nodeAt_set_ne _ _ _ _ hij] at h2
                    exact Or.inl h2
                · refine Or.inr ⟨m2, hm2, ?_⟩
                  rw [← hnm2]
                  show nodeMaybe s2 _ = nodeMaybe (setQuiet s2 j) _
                  unfold nodeMaybe setQuiet
                  rfl
          obtain ⟨hstf, hq⟩ := main (namedGet inp.namedEnv nid).methods s
            (quietStable_refl s) (fun _ h => h)
          refine ⟨hstf, fun i h => ?_⟩
          rcases hq i h with h2 | ⟨m, hm, hnm⟩
          · exact Or.inl h2
          · exact Or.inr (quietJustified_transport hstf
              (Or.inr (Or.inl ⟨k, nid, m, hobj, by simpa using hseen,
                hm, hnm⟩)))
        | .strct flds =>
          have main : ∀ (fs : List GoVar) (s2 : GState),
              quietStable s s2 →
              (∀ f ∈ fs, f ∈ flds) →
              quietStable s (fs.foldl quietField s2) ∧
              ∀ i, (nodeAt (fs.foldl quietField s2).nodes i).quiet = true →
                (nodeAt s2.nodes i).quiet = true ∨
                  ∃ f ∈ flds, nodeMaybe s2 (.varO f) = some i := by
            intro fs
            induction fs with
            | nil => exact fun s2 hst _ => ⟨hst, fun i h => Or.inl h⟩
            | cons f rest ih =>
              intro s2 hst hsub
              simp only [List.foldl_cons]
              cases hnm : nodeMaybe s2 (.varO f) with
              | none =>
                rw [show quietField s2 f = s2 from by
                  unfold quietField; rw [hnm]]
                exact ih s2 hst (fun f2 hf2 =>
                  hsub f2 (List.mem_cons_of_mem f hf2))
              | some j =>
                rw [show quietField s2 f = setQuiet s2 j from by
                  unfold quietField; rw [hnm]]
                have hst2 := quietStable_trans hst (setQuiet_stable s2 j)
                obtain ⟨hstf, hq⟩ := ih (setQuiet s2 j) hst2
                  (fun f2 hf2 => hsub f2 (List.mem_cons_of_mem f hf2))
                refine ⟨hstf, fun i h => ?_⟩
                rcases hq i h with h2 | ⟨f2, hf2, hnm2⟩
                · by_cases hij : i = j
                  · subst hij
                    exact Or.inr ⟨f, hsub f (List.mem_cons_self f rest), hnm⟩
                  · rw [setQuiet, nodeAt_set_ne _ _ _ _ hij] at h2
                    exact Or.inl h2
                · refine Or.inr ⟨f2, hf2, ?_⟩
                  rw [← hnm2]
                  show nodeMaybe s2 _ = nodeMaybe (setQuiet s2 j) _
                  unfold nodeMaybe setQuiet
                  rfl
          obtain ⟨hstf, hq⟩ := main flds s (quietStable_refl s)
            (fun _ h => h)
          refine ⟨hstf, fun i h => ?_⟩
          rcases hq i h with h2 | ⟨f, hf, hnm⟩
          · exact Or.inl h2
          · exact Or.inr (quietJustified_transport hstf
              (Or.inr (Or.inr ⟨k, flds, f, hobj, by simpa using hseen,
                hf, hnm⟩)))
        | .basic u => exact ⟨quietStable_refl s, fun i h => Or.inl h⟩
        | .ptr e => exact ⟨quietStable_refl s, fun i h => Or.inl h⟩
        | .slice e => exact ⟨quietStable_refl s, fun i h => Or.inl h⟩
        | .array e => exact ⟨quietStable_refl s, fun i h => Or.inl h⟩
        | .chanT e => exact ⟨quietStable_refl s, fun i h => Or.inl h⟩
        | .mapT a b => exact ⟨quietStable_refl s, fun i h => Or.inl h⟩
        | .sig a b c => exact ⟨quietStable_refl s, fun i h => Or.inl h⟩
        | .iface ms => exact ⟨quietStable_refl s, fun i h => Or.inl h⟩
        | .tuple es => exact ⟨quietStable_refl s, fun i h => Or.inl h⟩

theorem quietFold_stable (inp : PkgIn) : ∀ (l : List Nat) (s : GState),
    quietStable s (l.foldl (quietenNode inp) s) := by
  intro l
  induction l with
  | nil => exact fun s => quietStable_refl s
  | cons k rest ih =>
    intro s
    simp only [List.foldl_cons]
    exact quietStable_trans (quietenNode_spec inp s k).1 (ih _)

/-- C3 (amended): after the quieting pass on a graph with all `quiet` flags
initially false, every quieted node is an unseen non-field variable, the
lowered-function node of a method of an unseen named-type node, or the node
of a field of an unseen struct node; a self-quieted variable node is
necessarily unseen, but a method or field node is quieted based only on its
parent's `seen` flag, so a seen method or field node of an unseen parent
may be quieted (harmless for reporting: the reporter checks `seen`
first). -/
theorem c3_quiet_characterization (inp : PkgIn) (s0 : GState)
    (hq0 : ∀ i, (nodeAt s0.nodes i).quiet = false) :
    ∀ i, (nodeAt (quietPass inp s0).nodes i).quiet = true →
      quietJustified inp (quietPass inp s0) i := by
  have main : ∀ (l : List Nat) (s : GState), quietStable s0 s →
      quietStable s0 (l.foldl (quietenNode inp) s) ∧
      ∀ i, (nodeAt (l.foldl (quietenNode inp) s).nodes i).quiet = true →
        (nodeAt s.nodes i).quiet = true ∨
          quietJustified inp (l.foldl (quietenNode inp) s) i := by
    intro l
    induction l with
    | nil => exact fun s hst => ⟨hst, fun i h => Or.inl h⟩
    | cons k rest ih =>
      intro s hst
      simp only [List.foldl_cons]
      obtain ⟨hstep, hstepq⟩ := quietenNode_spec inp s k
      obtain ⟨hstf, hq⟩ := ih (quietenNode inp s k)
        (quietStable_trans hst hstep)
      refine ⟨hstf, fun i h => ?_⟩
      rcases hq i h with h2 | h2
      · rcases hstepq i h2 with h3 | h3
        · exact Or.inl h3
        · -- transport the justification to the final state
          have hst2 := quietFold_stable inp rest (quietenNode inp s k)
          exact Or.inr (quietJustified_transport hst2 h3)
      · exact Or.inr h2
  intro i h
  obtain ⟨hstf, hq⟩ := main (List.range s0.nodes.length) s0
    (quietStable_refl s0)
  rcases hq i h with h2 | h2
  · rw [hq0 i] at h2; cases h2
  · exact h2

/-- Input for the C3 counterexample: one named type (id 7) with one method
whose lowered function has id 3. -/
def c3named : NamedInfo :=
  { underlying := .strct [],
    tobj := ⟨7, "T", false, some 1⟩,
    methods := [(⟨12, "M", false, some 1⟩, .sig none [] [])] }

def c3inp : PkgIn :=
  { P := 1, pkgName := "p",
    namedEnv := [(7, c3named)],
    fnEnv := [], funcValueL := [(12, 3)], scopesL := [], defs := [],
    uses := [], initialFns := [], members := [], implL := [], msSelL := [],
    msetL := [], irrFuel := 9 }

/-- A graph state as the checker has it just before quieting: the named
type's node (index 1) is unreached, while its method's lowered-function
node (index 2) has a Root edge and is colored seen. -/
def c3state : GState :=
  let s := see c3inp (.typeO (.named 7)) newGraph
  let s2 := see c3inp (.ssaFnO (some 3)) s
  (use c3inp (.ssaFnO (some 3)) none "init function" s2).toOption.getD s2

def c3colored : GState :=
  { c3state with nodes := (color 9 c3state.nodes 0).toOption.getD [] }

def c3final : GState := quietPass c3inp c3colored

/-- C3 (counterexample): after the quieting pass, the method node is both
seen and quiet — the pass quiets the methods of an unseen named type
without consulting the method node's own `seen` flag — refuting "every node
with quiet=true has seen=false" and "no node with seen=true ever has
quiet=true". -/
theorem c3_counterexample :
    (nodeAt c3final.nodes 2).seen = true ∧
    (nodeAt c3final.nodes 2).quiet = true := by decide

/-- C3 (witness for the amended characterization, applied at the concrete
pre-quieting state of the counterexample). -/
theorem c3_witness : quietJustified c3inp (quietPass c3inp c3colored) 2 := by
  have hq0 : ∀ i, (nodeAt c3colored.nodes i).quiet = false := fun i =>
    match i with
    | 0 => rfl
    | 1 => rfl
    | 2 => rfl
    | _+3 => rfl
  exact c3_quiet_characterization c3inp c3colored hq0 2 (by decide)

/-! ## The graph builder: standalone helpers -/

/-- The method set of a type, `g.msCache.MethodSet(t)`, as a finite
oracle. -/
def msetOf (inp : PkgIn) (t : GoType) : List GoFuncObj :=
  (inp.msetL.lookup t).getD []

/-- The recursive `hasExportedField` closure (unused.go:698-718): does the
struct underlying (a dereference of) `T` contain, recursively through
embedded fields, an exported field?  The source guards the recursion with a
seen-set of structs; the model keeps the seen-set and adds fuel (`false`
when exhausted; the seen-set makes real runs finish). -/
def hasExpField (inp : PkgIn) : Nat → List (List GoVar) → GoType → Bool
  | 0, _, _ => false
  | fuel+1, seenL, T =>
    match underlyingT inp.namedEnv (derefT inp.namedEnv T) with
    | .strct flds =>
      if flds ∈ seenL then false
      else
        flds.any fun f =>
          f.1.exported ||
          (f.1.anonymous && hasExpField inp fuel (flds :: seenL) f.2)
    | _ => false

/-- The field loop of the struct-conversion rule 6885 (unused.go:921-930):
symmetric "struct conversion" edges between fields at equal indexes. -/
def convFieldsFold (inp : PkgIn) :
    List GoVar → List GoVar → GState → Except AErr GState
  | [], _, s => .ok s
  | _ :: _, [], s => .ok s
  | f1 :: r1, f2 :: r2, s => do
    let s := see inp (.varO f1) s
    let s := see inp (.varO f2) s
    let s ← seeAndUse inp (.varO f1) (some (.varO f2)) "struct conversion" s
    let s ← seeAndUse inp (.varO f2) (some (.varO f1)) "struct conversion" s
    convFieldsFold inp r1 r2 s

/-- The field loop of the unsafe-pointer rule 4029 (unused.go:941-944). -/
def unsafeFold (inp : PkgIn) (fid : Nat) :
    List GoVar → GState → Except AErr GState
  | [], s => .ok s
  | f :: rest, s => do
    let s ← seeAndUse inp (.varO f) (some (.ssaFnO (some fid)))
      "unsafe conversion" s
    unsafeFold inp fid rest s

mutual

/-- The `handleReturn` closure (unused.go:886-903): a returned function
value gets a "returning function" edge (rule 8103); closures are skipped
(covered by 2521); phi edges are followed with a local seen-set. -/
def handleReturn (inp : PkgIn) (fid : Nat) :
    Nat → List SsaVal → SsaVal → GState → Except AErr (List SsaVal × GState)
  | 0, _, _, _ => .error .outOfFuel
  | fuel+1, seenL, v, s =>
    if v ∈ seenL then .ok (seenL, s)
    else
      let seenL := v :: seenL
      match v with
      | .fnV f => do
        let s ← seeAndUse inp (.ssaFnO (some f)) (some (.ssaFnO (some fid)))
          "returning function" s
        .ok (seenL, s)
      | .closureV _ => .ok (seenL, s)
      | .builtinV => .ok (seenL, s)
      | .phiV edges => handleReturnFold inp fid fuel seenL edges s
      | .otherV => .ok (seenL, s)

  termination_by structural fuel _ _ _ => fuel
def handleReturnFold (inp : PkgIn) (fid : Nat) :
    Nat → List SsaVal → List SsaVal → GState →
      Except AErr (List SsaVal × GState)
  | 0, _, _, _ => .error .outOfFuel
  | _+1, seenL, [], s => .ok (seenL, s)
  | fuel+1, seenL, v :: rest, s => do
    let (seenL, s) ← handleReturn inp fid fuel seenL v s
    handleReturnFold inp fid fuel seenL rest s

  termination_by structural fuel _ _ _ => fuel
end

/-! ## The graph builder: the mutually recursive walkers
(unused.go:491-1030).  Every function takes fuel and decrements it on every
recursive call; `0` is the fuel-exhaustion artifact (the source terminates
through the `seenTypes` and `seenFns` memoization, kept by the model). -/

/-- The foreign-named-type check of `typ` (unused.go:664-668). -/
def foreignNamed (inp : PkgIn) : GoType → Bool
  | .named nid =>
    match (namedGet inp.namedEnv nid).tobj.pkg with
    | some p => p != inp.P
    | none => false
  | _ => false

set_option maxHeartbeats 2000000 in
mutual

/-- `Graph.typ` (unused.go:660): memoized on the type; foreign named types
are skipped before memoization; irrelevant types are memoized but get no
node; otherwise the type is seen and its kind-specific edges recorded. -/
def typ (inp : PkgIn) : Nat → GoType → GState → Except AErr GState
  | 0, _, _ => .error .outOfFuel
  | fuel+1, t, s =>
    if s.seenTypesL.contains t then .ok s
    else if foreignNamed inp t then .ok s
    else
      let s := { s with seenTypesL := t :: s.seenTypesL }
      if isIrrelevantT inp.namedEnv inp.irrFuel t then .ok s
      else
        let s := see inp (.typeO t) s
        match t with
        | .strct flds => typStructFold inp fuel t flds s
        | .basic _ => .ok s
        | .named nid => do
          let info := namedGet inp.namedEnv nid
          let s ← seeAndUse inp (.typeO info.underlying) (some (.typeO t))
            "underlying type" s
          let s ← seeAndUse inp (.typeNameO info.tobj) (some (.typeO t))
            "type name" s
          let s ← seeAndUse inp (.typeO t) (some (.typeNameO info.tobj))
            "named type" s
          let s ← typMethodsFold inp fuel t info.methods s
          typ inp fuel info.underlying s
        | .slice e => do
          let s ← seeAndUse inp (.typeO e) (some (.typeO t)) "element type" s
          typ inp fuel e s
        | .mapT k e => do
          let s ← seeAndUse inp (.typeO e) (some (.typeO t)) "element type" s
          let s ← seeAndUse inp (.typeO k) (some (.typeO t)) "key type" s
          let s ← typ inp fuel e s
          typ inp fuel k s
        | .sig r p q => signatureM inp fuel (.sig r p q) s
        | .iface ms => typIfaceFold inp fuel t ms s
        | .array e => do
          let s ← seeAndUse inp (.typeO e) (some (.typeO t)) "element type" s
          typ inp fuel e s
        | .ptr e => do
          let s ← seeAndUse inp (.typeO e) (some (.typeO t)) "element type" s
          typ inp fuel e s
        | .chanT e => do
          let s ← seeAndUse inp (.typeO e) (some (.typeO t)) "element type" s
          typ inp fuel e s
        | .tuple es => typTupleFold inp fuel t es s

  termination_by structural fuel _ _ => fuel
/-- The struct-field loop of `typ` (unused.go:677-727). -/
def typStructFold (inp : PkgIn) :
    Nat → GoType → List GoVar → GState → Except AErr GState
  | 0, _, _, _ => .error .outOfFuel
  | _+1, _, [], s => .ok s
  | fuel+1, t, f :: rest, s => do
    let s := see inp (.varO f) s
    let s ← (if f.1.exported then
        use inp (.varO f) (some (.typeO t)) "exported struct field" s
      else if isNoCopyType inp.namedEnv f.2 then
        use inp (.varO f) (some (.typeO t)) "NoCopy sentinel" s
      else .ok s)
    let s ← (if f.1.anonymous then do
        let s ← (if (msetOf inp f.2).any (fun m => m.1.exported) then
            use inp (.varO f) (some (.typeO t)) "extends exported method set"
              s
          else .ok s)
        if hasExpField inp fuel [] f.2 then
          use inp (.varO f) (some (.typeO t)) "extends exported fields" s
        else .ok s
      else .ok s)
    let s ← variableW inp fuel f s
    typStructFold inp fuel t rest s

  termination_by structural fuel _ _ _ => fuel
/-- The method loop of `typ`'s named case (unused.go:736-744).  When
`FuncValue` is nil the source creates a node for the typed-nil function and
then panics dereferencing it; the model reports the panic directly. -/
def typMethodsFold (inp : PkgIn) :
    Nat → GoType → List GoFuncObj → GState → Except AErr GState
  | 0, _, _, _ => .error .outOfFuel
  | _+1, _, [], s => .ok s
  | fuel+1, t, m :: rest, s =>
    match funcValue inp m.1.oid with
    | none => .error .nilPanic
    | some fid => do
      let s := see inp (.ssaFnO (some fid)) s
      let s ← (match (fnGet inp fid).objO with
        | some fo =>
          if fo.1.exported then
            use inp (.ssaFnO (some fid)) (some (.typeO t)) "exported method" s
          else .ok s
        | none => .ok s)
      let s ← functionM inp fuel fid s
      typMethodsFold inp fuel t rest s

  termination_by structural fuel _ _ _ => fuel
/-- The method loop of `typ`'s interface case (unused.go:761-767).  The
cast `m.Type().(*types.Signature)` cannot fail for go/types functions;
`signatureM` is a no-op on a non-signature type. -/
def typIfaceFold (inp : PkgIn) :
    Nat → GoType → List GoFuncObj → GState → Except AErr GState
  | 0, _, _, _ => .error .outOfFuel
  | _+1, _, [], s => .ok s
  | fuel+1, t, m :: rest, s => do
    let s ← seeAndUse inp (.funcO m) (some (.typeO t)) "interface method" s
    let s ← seeAndUse inp (.typeO m.2) (some (.funcO m)) "signature" s
    let s ← signatureM inp fuel m.2 s
    typIfaceFold inp fuel t rest s

  termination_by structural fuel _ _ _ => fuel
/-- The element loop of `typ`'s tuple case (unused.go:781-785). -/
def typTupleFold (inp : PkgIn) :
    Nat → GoType → List GoVar → GState → Except AErr GState
  | 0, _, _, _ => .error .outOfFuel
  | _+1, _, [], s => .ok s
  | fuel+1, t, f :: rest, s => do
    let s ← seeAndUse inp (.varO f) (some (.typeO t)) "tuple element" s
    let s ← variableW inp fuel f s
    typTupleFold inp fuel t rest s

  termination_by structural fuel _ _ _ => fuel
/-- `Graph.variable` (unused.go:791). -/
def variableW (inp : PkgIn) : Nat → GoVar → GState → Except AErr GState
  | 0, _, _ => .error .outOfFuel
  | fuel+1, v, s => do
    let s ← seeAndUse inp (.typeO v.2) (some (.varO v)) "variable type" s
    typ inp fuel v.2 s

  termination_by structural fuel _ _ => fuel
/-- `Graph.signature` (unused.go:797); a no-op on a non-signature type. -/
def signatureM (inp : PkgIn) : Nat → GoType → GState → Except AErr GState
  | 0, _, _ => .error .outOfFuel
  | fuel+1, sigT, s =>
    match sigT with
    | .sig recv params results => do
      let s ← (match recv with
        | some rv => do
          let s ← seeAndUse inp (.varO rv) (some (.typeO sigT)) "receiver" s
          variableW inp fuel rv s
        | none => .ok s)
      let s ← sigVarsFold inp fuel sigT "function argument" params s
      sigVarsFold inp fuel sigT "function result" results s
    | _ => .ok s

  termination_by structural fuel _ _ => fuel
/-- The parameter/result loops of `signature` (unused.go:802-811). -/
def sigVarsFold (inp : PkgIn) :
    Nat → GoType → String → List GoVar → GState → Except AErr GState
  | 0, _, _, _, _ => .error .outOfFuel
  | _+1, _, _, [], s => .ok s
  | fuel+1, sigT, reason, f :: rest, s => do
    let s ← seeAndUse inp (.varO f) (some (.typeO sigT)) reason s
    let s ← variableW inp fuel f s
    sigVarsFold inp fuel sigT reason rest s

  termination_by structural fuel _ _ _ _ => fuel
/-- `Graph.function` (unused.go:648). -/
def functionM (inp : PkgIn) : Nat → Nat → GState → Except AErr GState
  | 0, _, _ => .error .outOfFuel
  | fuel+1, fid, s => do
    let fn := fnGet inp fid
    let s ← seeAndUse inp (.typeO fn.sigT) (some (.ssaFnO (some fid)))
      "function signature" s
    let s ← signatureM inp fuel fn.sigT s
    let s ← instructionsM inp fuel fid s
    anonFold inp fuel fid fn.anonFns s

  termination_by structural fuel _ _ => fuel
/-- The anonymous-function loop of `function` (unused.go:653-657). -/
def anonFold (inp : PkgIn) :
    Nat → Nat → List Nat → GState → Except AErr GState
  | 0, _, _, _ => .error .outOfFuel
  | _+1, _, [], s => .ok s
  | fuel+1, fid, a :: rest, s => do
    let s ← seeAndUse inp (.ssaFnO (some a)) (some (.ssaFnO (some fid)))
      "anonymous function" s
    let s ← functionM inp fuel a s
    anonFold inp fuel fid rest s

  termination_by structural fuel _ _ _ => fuel
/-- `Graph.instructions` (unused.go:814), memoized on the function. -/
def instructionsM (inp : PkgIn) : Nat → Nat → GState → Except AErr GState
  | 0, _, _ => .error .outOfFuel
  | fuel+1, fid, s =>
    if s.seenFnsL.contains fid then .ok s
    else
      let s := { s with seenFnsL := fid :: s.seenFnsL }
      blocksFold inp fuel fid (fnGet inp fid).blocks s

  termination_by structural fuel _ _ => fuel
def blocksFold (inp : PkgIn) :
    Nat → Nat → List (List Instr) → GState → Except AErr GState
  | 0, _, _, _ => .error .outOfFuel
  | _+1, _, [], s => .ok s
  | fuel+1, fid, b :: rest, s => do
    let s ← instrFold inp fuel fid b s
    blocksFold inp fuel fid rest s

  termination_by structural fuel _ _ _ => fuel
def instrFold (inp : PkgIn) :
    Nat → Nat → List Instr → GState → Except AErr GState
  | 0, _, _, _ => .error .outOfFuel
  | _+1, _, [], s => .ok s
  | fuel+1, fid, ins :: rest, s => do
    let s ← instrW inp fuel fid ins s
    instrFold inp fuel fid rest s

  termination_by structural fuel _ _ _ => fuel
/-- One instruction of the IR walk (unused.go:821-1027): the rule-254
value-type edge (with the Range exception), then the kind-specific
rules. -/
def instrW (inp : PkgIn) :
    Nat → Nat → Instr → GState → Except AErr GState
  | 0, _, _, _ => .error .outOfFuel
  | fuel+1, fid, ins, s => do
    let byFn := Obj.ssaFnO (some fid)
    let s ← (match instrValueType ins with
      | some vty =>
        if instrIsRange ins then .ok s
        else do
          let s ← seeAndUse inp (.typeO vty) (some byFn) "instruction" s
          typ inp fuel vty s
      | none => .ok s)
    match ins with
    | .field _ xTy idx =>
      (match underlyingT inp.namedEnv xTy with
      | .strct flds =>
        match flds.get? idx with
        | some f => seeAndUse inp (.varO f) (some byFn) "field access" s
        | none => .error .nilPanic
      | _ => .error .nilPanic)
    | .fieldAddr _ xTy idx =>
      (match underlyingT inp.namedEnv (derefT inp.namedEnv xTy) with
      | .strct flds =>
        match flds.get? idx with
        | some f => seeAndUse inp (.varO f) (some byFn) "field access" s
        | none => .error .nilPanic
      | _ => .error .nilPanic)
    | .staticCall _ callee => do
      let (_, s) ← useCall inp fuel fid [] callee s
      .ok s
    | .invokeCall _ m => seeAndUse inp (.funcO m) (some byFn) "interface call" s
    | .ret results => do
      let (_, s) ← handleReturnFold inp fid fuel [] results s
      .ok s
    | .changeType vty xTy => do
      let s ← seeAndUse inp (.typeO vty) (some byFn) "conversion" s
      let s ← typ inp fuel vty s
      (match underlyingT inp.namedEnv (derefT inp.namedEnv vty),
            underlyingT inp.namedEnv (derefT inp.namedEnv xTy) with
      | .strct flds1, .strct flds2 =>
        if flds1.length ≠ flds2.length then .error .numFieldsAssert
        else convFieldsFold inp flds1 flds2 s
      | _, _ => .ok s)
    | .convert vty xTy => do
      let s ← (match vty, underlyingT inp.namedEnv xTy with
        | .basic true, .ptr pe =>
          (match underlyingT inp.namedEnv pe with
          | .strct flds => unsafeFold inp fid flds s
          | _ => .ok s)
        | _, _ => .ok s)
      (match xTy, underlyingT inp.namedEnv vty with
        | .basic true, .ptr pe =>
          (match underlyingT inp.namedEnv pe with
          | .strct flds => unsafeFold inp fid flds s
          | _ => .ok s)
        | _, _ => .ok s)
    | .typeAssert _ asserted => do
      let s ← seeAndUse inp (.typeO asserted) (some byFn) "type assert" s
      typ inp fuel asserted s
    | .makeClosure _ fnRef => do
      let s ← seeAndUse inp (.ssaFnO (some fnRef)) (some byFn)
        "make closure" s
      (match (fnGet inp fnRef).objO with
      | some fo =>
        if funcValue inp fo.1.oid ≠ some fnRef then
          instructionsM inp fuel fnRef s
        else .ok s
      | none => .ok s)
    | .rangeV _ => .ok s
    | .otherVal _ => .ok s
    | .otherNonVal => .ok s

  termination_by structural fuel _ _ _ => fuel
/-- The `useCall` closure (unused.go:848-877): resolve a static callee
through closures and phi merges with a local seen-set; a function value
gets a "function call" edge, and a thunk (whose semantic object's canonical
lowered form differs) has its instructions re-walked. -/
def useCall (inp : PkgIn) :
    Nat → Nat → List SsaVal → SsaVal → GState →
      Except AErr (List SsaVal × GState)
  | 0, _, _, _, _ => .error .outOfFuel
  | fuel+1, fid, seenL, v, s =>
    if v ∈ seenL then .ok (seenL, s)
    else
      let seenL := v :: seenL
      match v with
      | .fnV f => do
        let s ← seeAndUse inp (.ssaFnO (some f)) (some (.ssaFnO (some fid)))
          "function call" s
        (match (fnGet inp f).objO with
        | some fo =>
          if funcValue inp fo.1.oid ≠ some f then do
            let s ← instructionsM inp fuel f s
            .ok (seenL, s)
          else .ok (seenL, s)
        | none => .ok (seenL, s))
      | .closureV inner => useCall inp fuel fid seenL inner s
      | .builtinV => .ok (seenL, s)
      | .phiV edges => useCallFold inp fuel fid seenL edges s
      | .otherV => .ok (seenL, s)

  termination_by structural fuel _ _ _ _ => fuel
def useCallFold (inp : PkgIn) :
    Nat → Nat → List SsaVal → List SsaVal → GState →
      Except AErr (List SsaVal × GState)
  | 0, _, _, _, _ => .error .outOfFuel
  | _+1, _, seenL, [], s => .ok (seenL, s)
  | fuel+1, fid, seenL, v :: rest, s => do
    let (seenL, s) ← useCall inp fuel fid seenL v s
    useCallFold inp fuel fid seenL rest s

  termination_by structural fuel _ _ _ _ => fuel
end

/-! ## The entry seeder (unused.go:491-646) and checker pipeline -/

/-- `surroundingFunc` (unused.go:494-503): walk the scope chain outward
until a scope owned by some lowered function is found. -/
def surroundingFunc (inp : PkgIn) : List Nat → Option Nat
  | [] => none
  | sc :: rest =>
    match inp.scopesL.lookup sc with
    | some fid => some fid
    | none => surroundingFunc inp rest

/-- The `Defs` loop of `entry` (unused.go:510-525): named types are walked;
constants are seen, rooted when top-level and exported, and linked to their
types. -/
def defsFold (inp : PkgIn) (fuel : Nat) :
    List DefEntry → GState → Except AErr GState
  | [], s => .ok s
  | d :: rest, s => do
    let s ← (match d with
      | .typeNameD tn => do
        let s := see inp (.typeNameO tn) s
        typ inp fuel (.named tn.tnid) s
      | .constD c => do
        let s := see inp (.constO c) s
        let s ← (match surroundingFunc inp c.scopeChain with
          | none =>
            if c.exported then
              use inp (.constO c) none "exported constant" s
            else .ok s
          | some _ => .ok s)
        let s ← typ inp fuel c.ty s
        seeAndUse inp (.typeO c.ty) (some (.constO c)) "constant type" s
      | .otherD => .ok s)
    defsFold inp fuel rest s

/-- The identifier scan inside one function's syntax (unused.go:538-553):
each identifier whose `Uses` entry is a constant yields a "used constant"
edge from the function. -/
def identScan (inp : PkgIn) (fid : Nat) :
    List Nat → GState → Except AErr GState
  | [], s => .ok s
  | ident :: rest, s => do
    let s ← (match inp.uses.lookup ident with
      | some (.constU c) =>
        seeAndUse inp (.constO c) (some (.ssaFnO (some fid)))
          "used constant" s
      | _ => .ok s)
    identScan inp fid rest s

/-- The function loop of the constant scan (unused.go:529-554): functions
of other packages are skipped; a nil `Syntax()` skips the body scan. -/
def fnConstFold (inp : PkgIn) :
    List Nat → GState → Except AErr GState
  | [], s => .ok s
  | fid :: rest, s =>
    let fn := fnGet inp fid
    if fn.pkg ≠ some inp.P then fnConstFold inp rest s
    else
      let s := see inp (.ssaFnO (some fid)) s
      match fn.bodyIdents with
      | none => fnConstFold inp rest s
      | some idents => do
        let s ← identScan inp fid idents s
        fnConstFold inp rest s

/-- The `handledConsts` map (unused.go:528): it is created empty before the
function loop and, in this revision of the source, never written to, so the
skip below never fires; every constant use gets a Root edge.  (The comment
at unused.go:555 says the loop is meant to cover only non-function
contexts.) -/
def handledConsts : List Nat := []

/-- The `Uses` loop of `entry` (unused.go:556-565): every constant
reference not in `handledConsts` gets a "used constant" edge from Root. -/
def usesFold (inp : PkgIn) :
    List (Nat × UObj) → GState → Except AErr GState
  | [], s => .ok s
  | (ident, uo) :: rest, s => do
    let s ← (match uo with
      | .constU c =>
        if handledConsts.contains ident then .ok s
        else seeAndUse inp (.constO c) none "used constant" s
      | .otherU => .ok s)
    usesFold inp rest s

/-- The members loop of `entry` (unused.go:567-601): named constants and
globals have placeholder handling; functions are seen, rooted when init /
exported / main-in-main, and walked; types are seen, rooted when exported,
and walked. -/
def membersFold (inp : PkgIn) (fuel : Nat) :
    List Member → GState → Except AErr GState
  | [], s => .ok s
  | m :: rest, s => do
    let s ← (match m with
      | .constM => .ok s
      | .globalM => .ok s
      | .fnM fid => do
        let s := see inp (.ssaFnO (some fid)) s
        let fn := fnGet inp fid
        let s ← (if fn.fname = "init" then
            use inp (.ssaFnO (some fid)) none "init function" s
          else .ok s)
        let s ← (match fn.objO with
          | some fo =>
            if fo.1.exported then
              use inp (.ssaFnO (some fid)) none "exported top-level function"
                s
            else .ok s
          | none => .ok s)
        let s ← (if fn.fname = "main" ∧ inp.pkgName = "main" then
            use inp (.ssaFnO (some fid)) none "main function" s
          else .ok s)
        functionM inp fuel fid s
      | .typeM obj t => do
        let s ← (match obj with
          | some tn => do
            let s := see inp (.typeNameO tn) s
            if tn.exported then
              use inp (.typeNameO tn) none "exported top-level type" s
            else .ok s
          | none => .ok s)
        typ inp fuel t s)
    membersFold inp fuel rest s

/-- The embedding-path walk of the interface-satisfaction pass
(unused.go:627-634): each intermediate field gets a "helps implement" edge
from its enclosing struct; the next base is the struct underlying the
field's (dereferenced) type, or nothing (`base, _ = ...`), in which case a
further step would dereference a nil struct in the source. -/
def pathFold (inp : PkgIn) :
    Option (List GoVar) → List Nat → GState → Except AErr GState
  | _, [], s => .ok s
  | none, _ :: _, _ => .error .nilPanic
  | some flds, idx :: rest, s =>
    match flds.get? idx with
    | none => .error .nilPanic
    | some nxt => do
      let s ← seeAndUse inp (.varO nxt) (some (.typeO (.strct flds)))
        "helps implement" s
      let newBase :=
        match underlyingT inp.namedEnv (derefT inp.namedEnv nxt.2) with
        | .strct flds2 => some flds2
        | _ => none
      pathFold inp newBase rest s

/-- The method loop for one (type, interface) pair that implements
(unused.go:620-642): resolve the selection from the method-set oracle
(`assert(obj != nil)` on a missing selection), walk the embedding path when
it has length greater than one, then record the "implements" edge to the
lowered function, or to the semantic method when no lowered form exists. -/
def implMethods (inp : PkgIn) (t ifc : GoType) :
    List GoFuncObj → GState → Except AErr GState
  | [], s => .ok s
  | m :: rest, s => do
    let s ← (match inp.msSelL.lookup (t, m.1.fname) with
      | none => .error .selObjAssert
      | some sel => do
        let s ← (if sel.path.length > 1 then
            match underlyingT inp.namedEnv (derefT inp.namedEnv t) with
            | .strct flds => pathFold inp (some flds) sel.path.dropLast s
            | _ => .error .nilPanic
          else .ok s)
        (match funcValue inp sel.selObj.1.oid with
        | some fid =>
          seeAndUse inp (.ssaFnO (some fid)) (some (.typeO ifc))
            "implements" s
        | none =>
          seeAndUse inp (.funcO sel.selObj) (some (.typeO ifc))
            "implements" s))
    implMethods inp t ifc rest s

/-- The inner loop over non-interface types (unused.go:618-644). -/
def ifaceOne (inp : PkgIn) (ifc : GoType) :
    List GoType → GState → Except AErr GState
  | [], s => .ok s
  | t :: rest, s => do
    let s ← (if (t, ifc) ∈ inp.implL then
        match ifc with
        | .iface ms => implMethods inp t ifc ms s
        | _ => .ok s
      else .ok s)
    ifaceOne inp ifc rest s

/-- The outer loop over interfaces (unused.go:617). -/
def ifacePairs (inp : PkgIn) :
    List GoType → List GoType → GState → Except AErr GState
  | [], _, s => .ok s
  | ifc :: rest, notIfs, s => do
    let s ← ifaceOne inp ifc notIfs s
    ifacePairs inp rest notIfs s

/-- The interface-satisfaction pass of `entry` (unused.go:603-645): the
seen types are partitioned into interfaces and types whose underlying type
is not an interface, then every implementing pair is processed. -/
def ifaceSat (inp : PkgIn) (s : GState) : Except AErr GState :=
  let ifaces := s.seenTypesL.filter fun t =>
    match t with
    | .iface _ => true
    | _ => false
  let notIfaces := s.seenTypesL.filter fun t =>
    match t with
    | .iface _ => false
    | t2 =>
      match underlyingT inp.namedEnv t2 with
      | .iface _ => false
      | _ => true
  ifacePairs inp ifaces notIfaces s

/-- `Graph.entry` (unused.go:491): the four seeding passes followed by the
interface-satisfaction pass. -/
def entry (inp : PkgIn) (fuel : Nat) (s : GState) : Except AErr GState := do
  let s ← defsFold inp fuel inp.defs s
  let s ← fnConstFold inp inp.initialFns s
  let s ← usesFold inp inp.uses s
  let s ← membersFold inp fuel inp.members s
  ifaceSat inp s

/-- `Checker.Check` for one package (unused.go:170-269): build the graph,
seed it, color from Root, quieten, report.  (The scope index the source
builds first is the `scopesL` input.) -/
def checkPkg (inp : PkgIn) (fuel : Nat) : Except AErr (List Obj) := do
  let s ← entry inp fuel newGraph
  let nodes2 ← color fuel s.nodes 0
  let s := quietPass inp { s with nodes := nodes2 }
  .ok (reportAll inp s)

/-! ## Claim C7 lemmas -/

theorem lookup_cons_self {g : Type} [DecidableEq g] (idx : List (g × Nat))
    (o : g) (i : Nat) : ((o, i) :: idx).lookup o = some i := by
  simp [List.lookup]

theorem lookup_cons_preserve {g : Type} [DecidableEq g] (idx : List (g × Nat))
    (o o2 : g) (i n : Nat) (h : idx.lookup o2 = some n)
    (hnone : idx.lookup o = none) : ((o, i) :: idx).lookup o2 = some n := by
  have hne : (o2 == o) = false := by
    simp only [beq_eq_false_iff_ne]
    rintro rfl
    rw [h] at hnone
    cases hnone
  simp [List.lookup, hne, h]

theorem lookup_mem_idx {g : Type} [DecidableEq g] (idx : List (g × Nat))
    (o : g) (n : Nat) (h : idx.lookup o = some n) : (o, n) ∈ idx := by
  induction idx with
  | nil => cases h
  | cons kv rest ih =>
    obtain ⟨k, v⟩ := kv
    by_cases hk : o = k
    · subst hk
      simp [List.lookup] at h
      simp [h]
    · have hne : (o == k) = false := by simp [hk]
      simp only [List.lookup, hne] at h
      simp [ih h]

theorem lookup_mem_fst (l : List (Nat × String)) (k : Nat) (v : String)
    (h : l.lookup k = some v) : k ∈ l.map Prod.fst := by
  induction l with
  | nil => cases h
  | cons kv rest ih =>
    obtain ⟨a, b⟩ := kv
    by_cases hk : k = a
    · subst hk; simp
    · have hne : (k == a) = false := by simp [hk]
      simp only [List.lookup, hne] at h
      simp [ih h]

theorem setEdge_lookup_ne (l : List (Nat × String)) (t k : Nat) (r : String)
    (h : k ≠ t) : (nodeUse.setEdge l t r).lookup k = l.lookup k := by
  induction l with
  | nil =>
    have hne : (k == t) = false := by simp [h]
    simp [nodeUse.setEdge, List.lookup, hne]
  | cons kv rest ih =>
    obtain ⟨a, b⟩ := kv
    by_cases ha : a = t
    · subst ha
      have hne : (k == a) = false := by simp [h]
      simp [nodeUse.setEdge, List.lookup, hne]
    · simp only [nodeUse.setEdge, ha, if_false, List.lookup]
      cases hk : (k == a) <;> simp [hk, ih]

theorem nodeUse_lookup_preserve (n : GNode) (t k : Nat) (r : String)
    (h : n.used.lookup k = some r) :
    ((nodeUse n t r).2).used.lookup k = some r := by
  by_cases hk : k = t
  · subst hk; exact nodeUse_lookup_self n k r
  · unfold nodeUse
    cases hl : n.used.lookup t with
    | none => simpa [setEdge_lookup_ne _ _ _ _ hk] using h
    | some s =>
      by_cases hs : s = r
      · simpa [hs] using h
      · simpa [hs, setEdge_lookup_ne _ _ _ _ hk] using h

theorem lookup_used_lt (l : List GNode) (i k : Nat) (v : String)
    (h : (nodeAt l i).used.lookup k = some v) : i < l.length := by
  by_contra hge
  push_neg at hge
  rw [nodeAt, List.getD_eq_default _ _ hge] at h
  cases h

theorem nodeGet_varO_some (s : GState) (v : GoVar) (n : Nat)
    (h : s.objIndex.lookup (.varO v) = some n) :
    nodeGet s (.varO v) = (n, false, s) := by
  simp [nodeGet, h]

theorem nodeGet_varO_none (s : GState) (v : GoVar)
    (h : s.objIndex.lookup (.varO v) = none) :
    nodeGet s (.varO v) =
      (s.nodes.length, true,
        { s with nodes := s.nodes ++ [⟨some (.varO v), [], false, false⟩],
                 objIndex := (Obj.varO v, s.nodes.length) :: s.objIndex }) := by
  simp [nodeGet, h, newNode]


theorem objLookup_nodeGet_varO (s : GState) (v : GoVar) (o2 : Obj) (n : Nat)
    (h : s.objIndex.lookup o2 = some n) :
    ((nodeGet s (.varO v)).2.2).objIndex.lookup o2 = some n := by
  cases hl : s.objIndex.lookup (.varO v) with
  | some i => rw [nodeGet_varO_some s v i hl]; exact h
  | none =>
    rw [nodeGet_varO_none s v hl]
    exact lookup_cons_preserve _ _ _ _ _ h hl

theorem nodeAt_nodeGet_varO (s : GState) (v : GoVar) (i : Nat)
    (hi : i < s.nodes.length) :
    nodeAt ((nodeGet s (.varO v)).2.2).nodes i = nodeAt s.nodes i := by
  cases hl : s.objIndex.lookup (.varO v) with
  | some j => rw [nodeGet_varO_some s v j hl]
  | none =>
    rw [nodeGet_varO_none s v hl]
    exact List.getD_append _ _ _ _ hi

theorem len_nodeGet_varO (s : GState) (v : GoVar) :
    s.nodes.length ≤ ((nodeGet s (.varO v)).2.2).nodes.length := by
  cases hl : s.objIndex.lookup (.varO v) with
  | some j => rw [nodeGet_varO_some s v j hl]
  | none =>
    rw [nodeGet_varO_none s v hl]
    simp

theorem see_cases (inp : PkgIn) (o : Obj) (s : GState) :
    see inp o s = s ∨ see inp o s = (nodeGet s o).2.2 := by
  unfold see
  split
  · exact Or.inl rfl
  split
  · exact Or.inl rfl
  · exact Or.inr rfl

theorem see_varO_of_ok (inp : PkgIn) (v : GoVar) (s : GState)
    (hirr : irrO inp (.varO v) = false)
    (hpkg : pkgFiltered inp (.varO v) = false) :
    see inp (.varO v) s = (nodeGet s (.varO v)).2.2 := by
  unfold see
  rw [if_neg, if_neg]
  · rw [hpkg]; exact Bool.false_ne_true
  · rw [hirr]; exact Bool.false_ne_true

theorem objLookup_see (inp : PkgIn) (v : GoVar) (s : GState) (o2 : Obj)
    (n : Nat) (h : s.objIndex.lookup o2 = some n) :
    (see inp (.varO v) s).objIndex.lookup o2 = some n := by
  rcases see_cases inp (.varO v) s with hc | hc <;> rw [hc]
  · exact h
  · exact objLookup_nodeGet_varO s v o2 n h

theorem nodeAt_see (inp : PkgIn) (v : GoVar) (s : GState) (i : Nat)
    (hi : i < s.nodes.length) :
    nodeAt (see inp (.varO v) s).nodes i = nodeAt s.nodes i := by
  rcases see_cases inp (.varO v) s with hc | hc <;> rw [hc]
  · exact nodeAt_nodeGet_varO s v i hi

theorem len_see (inp : PkgIn) (v : GoVar) (s : GState) :
    s.nodes.length ≤ (see inp (.varO v) s).nodes.length := by
  rcases see_cases inp (.varO v) s with hc | hc <;> rw [hc]
  · exact len_nodeGet_varO s v

theorem see_varO_creates (inp : PkgIn) (v : GoVar) (s : GState)
    (hirr : irrO inp (.varO v) = false)
    (hpkg : pkgFiltered inp (.varO v) = false) :
    ∃ n, (see inp (.varO v) s).objIndex.lookup (.varO v) = some n := by
  rw [see_varO_of_ok inp v s hirr hpkg]
  cases hl : s.objIndex.lookup (.varO v) with
  | some i => rw [nodeGet_varO_some s v i hl]; exact ⟨i, hl⟩
  | none =>
    rw [nodeGet_varO_none s v hl]
    exact ⟨s.nodes.length, lookup_cons_self _ _ _⟩

/-- Arena indexes stored in the two key maps are in range. -/
def idxOk (s : GState) : Bool :=
  s.objIndex.all (fun p => p.2 < s.nodes.length) &&
  s.typeIndex.all (fun p => p.2 < s.nodes.length)

theorem idxOk_lt (s : GState) (o : Obj) (n : Nat) (hwf : idxOk s = true)
    (h : s.objIndex.lookup o = some n) : n < s.nodes.length := by
  rw [idxOk, Bool.and_eq_true, List.all_eq_true, List.all_eq_true] at hwf
  simpa using hwf.1 _ (lookup_mem_idx _ _ _ h)

theorem idxOk_nodeGet_varO (s : GState) (v : GoVar) (hwf : idxOk s = true) :
    idxOk ((nodeGet s (.varO v)).2.2) = true := by
  cases hl : s.objIndex.lookup (.varO v) with
  | some j => rw [nodeGet_varO_some s v j hl]; exact hwf
  | none =>
    rw [idxOk, Bool.and_eq_true, List.all_eq_true, List.all_eq_true] at hwf
    rw [nodeGet_varO_none s v hl]
    rw [idxOk, Bool.and_eq_true, List.all_eq_true, List.all_eq_true]
    constructor
    · intro p hp
      simp only [List.mem_cons] at hp
      rcases hp with rfl | hp
      · simp
      · have := hwf.1 p hp
        simp only [decide_eq_true_eq] at this ⊢
        simp only [List.length_append, List.length_cons, List.length_nil]
        omega
    · intro p hp
      have := hwf.2 p hp
      simp only [decide_eq_true_eq] at this ⊢
      simp only [List.length_append, List.length_cons, List.length_nil]
      omega

theorem idxOk_see (inp : PkgIn) (v : GoVar) (s : GState)
    (hwf : idxOk s = true) : idxOk (see inp (.varO v) s) = true := by
  rcases see_cases inp (.varO v) s with hc | hc <;> rw [hc]
  · exact hwf
  · exact idxOk_nodeGet_varO s v hwf

theorem updateEdge_objIndex (s : GState) (bi ui : Nat) (r : String) :
    (updateEdge s bi ui r).objIndex = s.objIndex := rfl

theorem updateEdge_len (s : GState) (bi ui : Nat) (r : String) :
    (updateEdge s bi ui r).nodes.length = s.nodes.length := by
  simp [updateEdge]

theorem idxOk_updateEdge (s : GState) (bi ui : Nat) (r : String)
    (hwf : idxOk s = true) : idxOk (updateEdge s bi ui r) = true := by
  rw [idxOk] at hwf ⊢
  rw [updateEdge_objIndex, updateEdge_len]
  exact hwf

theorem nodeAt_updateEdge_self (s : GState) (bi ui : Nat) (r : String)
    (h : bi < s.nodes.length) :
    nodeAt (updateEdge s bi ui r).nodes bi =
      (nodeUse (nodeAt s.nodes bi) ui r).2 := by
  simp [updateEdge, nodeAt, List.getD, List.getElem?_set, h]

theorem nodeAt_updateEdge_ne (s : GState) (bi ui : Nat) (r : String)
    (i : Nat) (h : i ≠ bi) :
    nodeAt (updateEdge s bi ui r).nodes i = nodeAt s.nodes i := by
  simp [updateEdge, nodeAt, List.getD, List.getElem?_set, Ne.symm h]

theorem updateEdge_lookup_preserve (s : GState) (bi ui : Nat) (r : String)
    (i k : Nat) (h : (nodeAt s.nodes i).used.lookup k = some r) :
    (nodeAt (updateEdge s bi ui r).nodes i).used.lookup k = some r := by
  by_cases hib : i = bi
  · subst hib
    rw [nodeAt_updateEdge_self s i ui r (lookup_used_lt _ _ _ _ h)]
    exact nodeUse_lookup_preserve _ _ _ _ h
  · rw [nodeAt_updateEdge_ne s bi ui r i hib]
    exact h

theorem updateEdge_lookup_self (s : GState) (bi ui : Nat) (r : String)
    (h : bi < s.nodes.length) :
    (nodeAt (updateEdge s bi ui r).nodes bi).used.lookup ui = some r := by
  rw [nodeAt_updateEdge_self s bi ui r h]
  exact nodeUse_lookup_self _ _ _


theorem use_ok_inv_varO (inp : PkgIn) (v1 v2 : GoVar) (r : String)
    (s s' : GState)
    (h : use inp (.varO v1) (some (.varO v2)) r s = .ok s') :
    s' = s ∨ ∃ ui bi, s.objIndex.lookup (.varO v1) = some ui ∧
      s.objIndex.lookup (.varO v2) = some bi ∧
      s' = updateEdge s bi ui r := by
  unfold use at h
  rw [show funcValBad inp (.varO v1) = false from rfl] at h
  simp only [Bool.false_eq_true, if_false] at h
  split at h
  · cases h; exact Or.inl rfl
  split at h
  · cases h
  split at h
  · cases h; exact Or.inl rfl
  split at h
  · cases h; exact Or.inl rfl
  cases hl1 : s.objIndex.lookup (.varO v1) with
  | none =>
    rw [show nodeGet s (.varO v1) = _ from nodeGet_varO_none s v1 hl1] at h
    simp at h
  | some n1 =>
    rw [show nodeGet s (.varO v1) = _ from nodeGet_varO_some s v1 n1 hl1] at h
    simp only at h
    cases hl2 : s.objIndex.lookup (.varO v2) with
    | none =>
      rw [show nodeGet s (.varO v2) = _ from nodeGet_varO_none s v2 hl2] at h
      simp at h
    | some n2 =>
      rw [show nodeGet s (.varO v2) = _ from nodeGet_varO_some s v2 n2 hl2]
        at h
      simp only at h
      cases h
      exact Or.inr ⟨n1, n2, rfl, rfl, rfl⟩

theorem use_varO_ok (inp : PkgIn) (v1 v2 : GoVar) (r : String) (s : GState)
    (n1 n2 : Nat)
    (hirr : irrO inp (.varO v1) = false)
    (hpkg1 : pkgFiltered inp (.varO v1) = false)
    (hpkg2 : pkgFiltered inp (.varO v2) = false)
    (h1 : s.objIndex.lookup (.varO v1) = some n1)
    (h2 : s.objIndex.lookup (.varO v2) = some n2) :
    use inp (.varO v1) (some (.varO v2)) r s =
      .ok (updateEdge s n2 n1 r) := by
  unfold use
  rw [if_neg (show ¬(irrO inp (Obj.varO v1) = true) from by
    rw [hirr]; exact Bool.false_ne_true)]
  rw [show funcValBad inp (.varO v1) = false from rfl]
  simp only [Bool.false_eq_true, if_false]
  rw [if_neg (show ¬(funcValBad inp (Obj.varO v2) = true) from
    Bool.false_ne_true)]
  rw [if_neg (show ¬(pkgFiltered inp (Obj.varO v1) = true) from by
    rw [hpkg1]; exact Bool.false_ne_true)]
  rw [if_neg (show ¬(pkgFiltered inp (Obj.varO v2) = true) from by
    rw [hpkg2]; exact Bool.false_ne_true)]
  rw [show nodeGet s (.varO v1) = _ from nodeGet_varO_some s v1 n1 h1]
  rw [show nodeGet s (.varO v2) = _ from nodeGet_varO_some s v2 n2 h2]
  rfl

/-- The two symmetric "struct conversion" edges between the nodes of two
fields, as present in a graph state. -/
def convEdges (s : GState) (f1 f2 : GoVar) : Prop :=
  ∃ n1 n2, nodeMaybe s (.varO f1) = some n1 ∧
    nodeMaybe s (.varO f2) = some n2 ∧
    (nodeAt s.nodes n1).used.lookup n2 = some "struct conversion" ∧
    (nodeAt s.nodes n2).used.lookup n1 = some "struct conversion"

theorem nodeMaybe_varO (s : GState) (v : GoVar) :
    nodeMaybe s (.varO v) = s.objIndex.lookup (.varO v) := rfl

theorem convEdges_see (inp : PkgIn) (v : GoVar) (s : GState) (f1 f2 : GoVar)
    (h : convEdges s f1 f2) : convEdges (see inp (.varO v) s) f1 f2 := by
  obtain ⟨n1, n2, hm1, hm2, e12, e21⟩ := h
  refine ⟨n1, n2, objLookup_see inp v s _ n1 hm1,
    objLookup_see inp v s _ n2 hm2, ?_, ?_⟩
  · rw [nodeAt_see inp v s n1 (lookup_used_lt _ _ _ _ e12)]; exact e12
  · rw [nodeAt_see inp v s n2 (lookup_used_lt _ _ _ _ e21)]; exact e21

theorem convEdges_use (inp : PkgIn) (v1 v2 : GoVar) (s s' : GState)
    (f1 f2 : GoVar)
    (hok : use inp (.varO v1) (some (.varO v2)) "struct conversion" s =
      .ok s')
    (h : convEdges s f1 f2) : convEdges s' f1 f2 := by
  rcases use_ok_inv_varO inp v1 v2 _ s s' hok with rfl | ⟨ui, bi, _, _, rfl⟩
  · exact h
  · obtain ⟨n1, n2, hm1, hm2, e12, e21⟩ := h
    exact ⟨n1, n2, hm1, hm2,
      updateEdge_lookup_preserve s bi ui _ n1 n2 e12,
      updateEdge_lookup_preserve s bi ui _ n2 n1 e21⟩

theorem convEdges_seeAndUse (inp : PkgIn) (v1 v2 : GoVar) (s s' : GState)
    (f1 f2 : GoVar)
    (hok : seeAndUse inp (.varO v1) (some (.varO v2)) "struct conversion" s
      = .ok s')
    (h : convEdges s f1 f2) : convEdges s' f1 f2 := by
  unfold seeAndUse at hok
  exact convEdges_use inp v1 v2 _ s' f1 f2 hok
    (convEdges_see inp v1 s f1 f2 h)

theorem idxOk_use (inp : PkgIn) (v1 v2 : GoVar) (r : String) (s s' : GState)
    (hok : use inp (.varO v1) (some (.varO v2)) r s = .ok s')
    (hwf : idxOk s = true) : idxOk s' = true := by
  rcases use_ok_inv_varO inp v1 v2 r s s' hok with rfl | ⟨ui, bi, _, _, rfl⟩
  · exact hwf
  · exact idxOk_updateEdge s bi ui r hwf

theorem idxOk_seeAndUse (inp : PkgIn) (v1 v2 : GoVar) (r : String)
    (s s' : GState)
    (hok : seeAndUse inp (.varO v1) (some (.varO v2)) r s = .ok s')
    (hwf : idxOk s = true) : idxOk s' = true := by
  unfold seeAndUse at hok
  exact idxOk_use inp v1 v2 r _ s' hok (idxOk_see inp v1 s hwf)

theorem convFieldsFold_preserve (inp : PkgIn) :
    ∀ (l1 l2 : List GoVar) (s s' : GState),
      convFieldsFold inp l1 l2 s = .ok s' →
      ∀ f1 f2, convEdges s f1 f2 → convEdges s' f1 f2 := by
  intro l1
  induction l1 with
  | nil => intro l2 s s' h f1 f2 hc; cases h; exact hc
  | cons g1 r1 ih =>
    intro l2 s s' h f1 f2 hc
    cases l2 with
    | nil => cases h; exact hc
    | cons g2 r2 =>
      simp only [convFieldsFold] at h
      cases h3 : seeAndUse inp (.varO g1) (some (.varO g2))
          "struct conversion" (see inp (.varO g2) (see inp (.varO g1) s))
        with
      | error e => rw [exBind_err h3] at h; cases h
      | ok s3 =>
        rw [exBind_ok h3] at h
        cases h4 : seeAndUse inp (.varO g2) (some (.varO g1))
            "struct conversion" s3 with
        | error e => rw [exBind_err h4] at h; cases h
        | ok s4 =>
          rw [exBind_ok h4] at h
          have hc2 := convEdges_see inp g2 _ f1 f2
            (convEdges_see inp g1 s f1 f2 hc)
          have hc3 := convEdges_seeAndUse inp g1 g2 _ s3 f1 f2 h3 hc2
          have hc4 := convEdges_seeAndUse inp g2 g1 s3 s4 f1 f2 h4 hc3
          exact ih r2 s4 s' h f1 f2 hc4


theorem convFieldsFold_edges (inp : PkgIn) :
    ∀ (l1 l2 : List GoVar) (s s' : GState),
      idxOk s = true →
      convFieldsFold inp l1 l2 s = .ok s' →
      ∀ i f1 f2, l1.get? i = some f1 → l2.get? i = some f2 →
        irrO inp (.varO f1) = false → irrO inp (.varO f2) = false →
        pkgFiltered inp (.varO f1) = false →
        pkgFiltered inp (.varO f2) = false →
        convEdges s' f1 f2 := by
  intro l1
  induction l1 with
  | nil =>
    intro l2 s s' hwf h i f1 f2 hg1
    cases hg1
  | cons g1 r1 ih =>
    intro l2 s s' hwf h i f1 f2 hg1 hg2 hi1 hi2 hp1 hp2
    cases l2 with
    | nil => cases hg2
    | cons g2 r2 =>
      simp only [convFieldsFold] at h
      cases h3 : seeAndUse inp (.varO g1) (some (.varO g2))
          "struct conversion" (see inp (.varO g2) (see inp (.varO g1) s))
        with
      | error e => rw [exBind_err h3] at h; cases h
      | ok s3 =>
        rw [exBind_ok h3] at h
        cases h4 : seeAndUse inp (.varO g2) (some (.varO g1))
            "struct conversion" s3 with
        | error e => rw [exBind_err h4] at h; cases h
        | ok s4 =>
          rw [exBind_ok h4] at h
          have hwf1 := idxOk_see inp g1 s hwf
          have hwf2 := idxOk_see inp g2 _ hwf1
          have hwf3 := idxOk_seeAndUse inp g1 g2 _ _ s3 h3 hwf2
          have hwf4 := idxOk_seeAndUse inp g2 g1 _ s3 s4 h4 hwf3
          cases i with
          | succ j =>
            exact ih r2 s4 s' hwf4 h j f1 f2 (by simpa using hg1)
              (by simpa using hg2) hi1 hi2 hp1 hp2
          | zero =>
            obtain rfl : g1 = f1 := by simpa using hg1
            obtain rfl : g2 = f2 := by simpa using hg2
            obtain ⟨m1, hL1a⟩ := see_varO_creates inp g1 s hi1 hp1
            have hL1b := objLookup_see inp g2 _ _ m1 hL1a
            obtain ⟨m2, hL2b⟩ :=
              see_varO_creates inp g2 (see inp (.varO g1) s) hi2 hp2
            unfold seeAndUse at h3 h4
            have hL1c := objLookup_see inp g1 _ _ m1 hL1b
            have hL2c := objLookup_see inp g1 _ _ m2 hL2b
            have hwf2b := idxOk_see inp g1 _ hwf2
            have huse1 := use_varO_ok inp g1 g2 "struct conversion" _
              m1 m2 hi1 hp1 hp2 hL1c hL2c
            rw [huse1] at h3
            cases h3
            have hE1 := updateEdge_lookup_self _ m2 m1 "struct conversion"
              (idxOk_lt _ _ _ hwf2b hL2c)
            have hL1e := objLookup_see inp g2
              (updateEdge (see inp (.varO g1) (see inp (.varO g2)
                (see inp (.varO g1) s))) m2 m1 "struct conversion")
              (Obj.varO g1) m1 hL1c
            have hL2e := objLookup_see inp g2
              (updateEdge (see inp (.varO g1) (see inp (.varO g2)
                (see inp (.varO g1) s))) m2 m1 "struct conversion")
              (Obj.varO g2) m2 hL2c
            have hwf3b := idxOk_see inp g2 _ hwf3
            have huse2 := use_varO_ok inp g2 g1 "struct conversion" _
              m2 m1 hi2 hp2 hp1 hL2e hL1e
            rw [huse2] at h4
            cases h4
            have hE2 := updateEdge_lookup_self _ m1 m2 "struct conversion"
              (idxOk_lt _ _ _ hwf3b hL1e)
            have hE1b : (nodeAt (see inp (.varO g2)
                (updateEdge (see inp (.varO g1) (see inp (.varO g2)
                  (see inp (.varO g1) s))) m2 m1
                  "struct conversion")).nodes m2).used.lookup m1 =
                some "struct conversion" := by
              rw [nodeAt_see inp g2 _ m2 (lookup_used_lt _ _ _ _ hE1)]
              exact hE1
            have hE1c := updateEdge_lookup_preserve _
              m1 m2 "struct conversion" m2 m1 hE1b
            have hEdges : convEdges (updateEdge (see inp (.varO g2)
                (updateEdge (see inp (.varO g1) (see inp (.varO g2)
                  (see inp (.varO g1) s))) m2 m1 "struct conversion"))
                m1 m2 "struct conversion") g1 g2 :=
              ⟨m1, m2, hL1e, hL2e, hE2, hE1c⟩
            exact convFieldsFold_preserve inp r1 r2 _ s' h g1 g2 hEdges

/-- The content of the DFS-correctness bullet, shared: after a successful
`color` from `root` on a fresh arena, `seen` is exactly reachability. -/
theorem color_reach_iff (nodes : List GNode) (root fuel : Nat)
    (r : List GNode) (hok : color fuel nodes root = .ok r)
    (hfresh : ∀ v, (nodeAt nodes v).seen = false)
    (v : Nat) (hv : v < nodes.length) :
    (nodeAt r v).seen = true ↔
      Relation.ReflTransGen (edgeStep nodes) root v := by
  have hpost := (color_post fuel).1 _ _ _ hok
  constructor
  · intro hseen
    rcases (color_sound fuel).1 _ _ _ hok v hseen with h | h
    · rw [hfresh v] at h; cases h
    · exact h
  · intro hreach
    have key : ∀ w, Relation.ReflTransGen (edgeStep nodes) root w →
        w < nodes.length → (nodeAt r w).seen = true := by
      intro w hw
      induction hw with
      | refl => exact fun hroot => hpost.1 hroot
      | tail hsteps hstep ihw =>
        rename_i u w2
        intro hw2
        have hu : (nodeAt r u).seen = true := ihw hstep.1
        rcases hpost.2 u hu with h2 | h2
        · rw [hfresh u] at h2; cases h2
        · exact h2 w2 hstep.2 hw2
    exact key v hreach hv

theorem conv_seen_iff (nodes : List GNode) (fuel : Nat) (r : List GNode)
    (n1 n2 : Nat) (e1 e2 : String)
    (hok : color fuel nodes 0 = .ok r)
    (hfresh : ∀ v, (nodeAt nodes v).seen = false)
    (h1 : n1 < nodes.length) (h2 : n2 < nodes.length)
    (he12 : (nodeAt nodes n1).used.lookup n2 = some e1)
    (he21 : (nodeAt nodes n2).used.lookup n1 = some e2) :
    ((nodeAt r n1).seen = true ↔ (nodeAt r n2).seen = true) := by
  have i1 := color_reach_iff nodes 0 fuel r hok hfresh n1 h1
  have i2 := color_reach_iff nodes 0 fuel r hok hfresh n2 h2
  have st12 : edgeStep nodes n1 n2 :=
    ⟨h1, by simpa [succs] using lookup_mem_fst _ _ _ he12⟩
  have st21 : edgeStep nodes n2 n1 :=
    ⟨h2, by simpa [succs] using lookup_mem_fst _ _ _ he21⟩
  rw [i1, i2]
  exact ⟨fun h => h.tail st12, fun h => h.tail st21⟩


theorem instrW_changeType_inv (inp : PkgIn) (fuel fid : Nat)
    (vty xTy : GoType) (flds1 flds2 : List GoVar) (s s' : GState)
    (h1 : underlyingT inp.namedEnv (derefT inp.namedEnv vty) = .strct flds1)
    (h2 : underlyingT inp.namedEnv (derefT inp.namedEnv xTy) = .strct flds2)
    (hok : instrW inp (fuel+1) fid (.changeType vty xTy) s = .ok s') :
    flds1.length = flds2.length ∧
    ∃ s0, convFieldsFold inp flds1 flds2 s0 = .ok s' := by
  simp only [instrW, instrValueType, instrIsRange] at hok
  simp only [Bool.false_eq_true, if_false] at hok
  cases ha : seeAndUse inp (.typeO vty) (some (.ssaFnO (some fid)))
      "instruction" s with
  | error e => rw [exBind_err ha] at hok; cases hok
  | ok sa =>
    rw [exBind_ok ha] at hok
    cases hb : typ inp fuel vty sa with
    | error e => rw [exBind_err hb] at hok; cases hok
    | ok sb =>
      rw [exBind_ok hb] at hok
      cases hc : seeAndUse inp (.typeO vty) (some (.ssaFnO (some fid)))
          "conversion" sb with
      | error e => rw [exBind_err hc] at hok; cases hok
      | ok sc =>
        rw [exBind_ok hc] at hok
        cases hd : typ inp fuel vty sc with
        | error e => rw [exBind_err hd] at hok; cases hok
        | ok sd =>
          rw [exBind_ok hd] at hok
          rw [h1, h2] at hok
          simp only at hok
          split at hok
          · cases hok
          · rename_i hlen
            push_neg at hlen
            exact ⟨hlen, sd, hok⟩


def c7f1 : GoVar :=
  ({ vid := 11, vname := "A", isField := true, exported := true,
     anonymous := false, pkg := some 1 }, .basic false)

def c7f2 : GoVar :=
  ({ vid := 12, vname := "B", isField := true, exported := true,
     anonymous := false, pkg := some 2 }, .basic false)

def c7s1 : NamedInfo :=
  { underlying := .strct [c7f1],
    tobj := { tnid := 1, tname := "S1", exported := true, pkg := some 1 },
    methods := [] }

def c7s2 : NamedInfo :=
  { underlying := .strct [c7f2],
    tobj := { tnid := 2, tname := "S2", exported := true, pkg := some 2 },
    methods := [] }

def c7fo : FuncMeta :=
  { oid := 5, fname := "F", exported := true, pkg := some 1 }

def c7fn : SsaFn :=
  { fname := "F", pkg := some 1,
    objO := some (c7fo, .sig none [] []),
    sigT := .sig none [] [], bodyIdents := none,
    blocks := [[.changeType (.named 1) (.named 2)]], anonFns := [] }

def c7inp : PkgIn :=
  { P := 1, pkgName := "p", namedEnv := [(1, c7s1), (2, c7s2)],
    fnEnv := [(5, c7fn)], funcValueL := [], scopesL := [],
    defs := [], uses := [], initialFns := [5], members := [.fnM 5],
    implL := [], msSelL := [], msetL := [], irrFuel := 8 }


/-- A start state in which the enclosing lowered function is already
seen. -/
def c7wstart : GState := see c7inp (.ssaFnO (some 5)) newGraph

def c7wf2 : GoVar :=
  ({ vid := 13, vname := "C", isField := true, exported := false,
     anonymous := false, pkg := some 1 }, .basic false)

def c7wnodes : List GNode :=
  [⟨none, [(1, "r")], false, false⟩,
   ⟨some (.varO c7f1), [(2, "struct conversion")], false, false⟩,
   ⟨some (.varO c7wf2), [(1, "struct conversion")], false, false⟩]

set_option maxHeartbeats 2000000 in
/-- C7 (counterexample): the claimed unconditional field-seen equivalence
fails when one of the two structs belongs to another package.  In `c7inp`
the exported function `F` converts the local struct `S1` to the foreign
struct `S2` (a change-of-type instruction between two struct-underlying
types of equal field count), yet after the full entry pass and coloring
the field of `S1` is seen while the field of `S2` has no node at all: the
package filter inside `use` drops both symmetric "struct conversion"
edges, because each has the foreign field as one endpoint. -/
theorem c7_counterexample :
    underlyingT c7inp.namedEnv (derefT c7inp.namedEnv (.named 1)) =
      .strct [c7f1] ∧
    underlyingT c7inp.namedEnv (derefT c7inp.namedEnv (.named 2)) =
      .strct [c7f2] ∧
    (fnGet c7inp 5).blocks = [[.changeType (.named 1) (.named 2)]] ∧
    ∃ s, entry c7inp 32 newGraph = .ok s ∧
      ∃ nodes2, color 32 s.nodes 0 = .ok nodes2 ∧
        nodeMaybe s (.varO c7f1) = some 5 ∧
        (nodeAt nodes2 5).seen = true ∧
        nodeMaybe s (.varO c7f2) = none := by
  refine ⟨rfl, rfl, rfl, _, rfl, _, rfl, rfl, ?_, rfl⟩
  decide

/-- C7 (amended): the struct-conversion rule 6885, with the package and
relevance filters made explicit.  (1) A successful walk of a
change-of-type instruction between two types whose dereferenced
underlying types are structs asserts equal field counts and runs the
symmetric field loop to completion.  (2) The field loop records both
symmetric "struct conversion" edges between the i-th fields for every
index i at which both fields pass the relevance filter and belong to the
package under analysis.  (3) Whatever the enclosing function's fate, a
pair of nodes carrying edges to each other is seen-equivalent after
coloring a fresh graph from Root. -/
theorem c7_struct_conversion :
    (∀ inp fuel fid vty xTy flds1 flds2 s s',
      underlyingT inp.namedEnv (derefT inp.namedEnv vty) = .strct flds1 →
      underlyingT inp.namedEnv (derefT inp.namedEnv xTy) = .strct flds2 →
      instrW inp (fuel+1) fid (.changeType vty xTy) s = .ok s' →
      flds1.length = flds2.length ∧
      ∃ s0, convFieldsFold inp flds1 flds2 s0 = .ok s') ∧
    (∀ inp l1 l2 s s', idxOk s = true →
      convFieldsFold inp l1 l2 s = .ok s' →
      ∀ i f1 f2, l1.get? i = some f1 → l2.get? i = some f2 →
        irrO inp (.varO f1) = false → irrO inp (.varO f2) = false →
        pkgFiltered inp (.varO f1) = false →
        pkgFiltered inp (.varO f2) = false →
        convEdges s' f1 f2) ∧
    (∀ nodes fuel r n1 n2 e1 e2, color fuel nodes 0 = .ok r →
      (∀ v, (nodeAt nodes v).seen = false) →
      n1 < nodes.length → n2 < nodes.length →
      (nodeAt nodes n1).used.lookup n2 = some e1 →
      (nodeAt nodes n2).used.lookup n1 = some e2 →
      ((nodeAt r n1).seen = true ↔ (nodeAt r n2).seen = true)) := by
  refine ⟨?_, ?_, ?_⟩
  · intro inp fuel fid vty xTy flds1 flds2 s s' h1 h2 hok
    exact instrW_changeType_inv inp fuel fid vty xTy flds1 flds2 s s' h1 h2
      hok
  · intro inp l1 l2 s s' hwf hok
    exact convFieldsFold_edges inp l1 l2 s s' hwf hok
  · intro nodes fuel r n1 n2 e1 e2 hok hfresh h1 h2 he12 he21
    exact conv_seen_iff nodes fuel r n1 n2 e1 e2 hok hfresh h1 h2 he12 he21

set_option maxHeartbeats 2000000 in
/-- C7 (witness): the three parts of the theorem applied at concrete
inputs: the conversion instruction of `c7inp` run at fuel 32, the field
loop on two in-package fields from the fresh graph, and a concrete
three-node arena with symmetric edges. -/
theorem c7_witness :
    ([c7f1].length = [c7f2].length ∧
      ∃ s0, convFieldsFold c7inp [c7f1] [c7f2] s0 =
        .ok ((instrW c7inp 32 5 (.changeType (.named 1) (.named 2))
          c7wstart).toOption.getD newGraph)) ∧
    convEdges ((convFieldsFold c7inp [c7f1] [c7wf2]
      newGraph).toOption.getD newGraph) c7f1 c7wf2 ∧
    ((nodeAt ((color 9 c7wnodes 0).toOption.getD []) 1).seen = true ↔
      (nodeAt ((color 9 c7wnodes 0).toOption.getD []) 2).seen = true) := by
  have hfresh : ∀ v, (nodeAt c7wnodes v).seen = false := fun v =>
    match v with
    | 0 => rfl
    | 1 => rfl
    | 2 => rfl
    | _+3 => rfl
  refine ⟨c7_struct_conversion.1 c7inp 31 5 (.named 1) (.named 2) [c7f1]
      [c7f2] c7wstart _ rfl rfl (by rfl),
    c7_struct_conversion.2.1 c7inp [c7f1] [c7wf2] newGraph _ (by decide)
      (by rfl) 0 c7f1 c7wf2 rfl rfl (by decide) (by decide) (by decide)
      (by decide),
    c7_struct_conversion.2.2 c7wnodes 9 _ 1 2 "struct conversion"
      "struct conversion" (by rfl) hfresh (by decide) (by decide) (by rfl)
      (by rfl)⟩

/-! ## C6: constants used only inside functions (unused.go:527-565) -/

/-- An unexported constant defined inside a function scope. -/
def c6k : ConstObj :=
  { cid := 100, exported := false, pkg := some 1, ty := .basic false,
    scopeChain := [50] }

/-- An unexported function (never called, not init/main) whose body syntax
references the constant through identifier 9. -/
def c6fn : SsaFn :=
  { fname := "g", pkg := some 1, objO := none, sigT := .sig none [] [],
    bodyIdents := some [9], blocks := [], anonFns := [] }

/-- A package whose only constant reference sits inside the unexported,
unreachable function `g` (the scope chain of the constant resolves to `g`
through scope 50). -/
def c6inp : PkgIn :=
  { P := 1, pkgName := "p", namedEnv := [], fnEnv := [(7, c6fn)],
    funcValueL := [], scopesL := [(50, 7)], defs := [.constD c6k],
    uses := [(9, .constU c6k)], initialFns := [7], members := [.fnM 7],
    implL := [], msSelL := [], msetL := [], irrFuel := 8 }

/-- C6: evaluation of the divergence.  The constant is referenced only
inside the body of the unexported, unreachable function `g`
(`surroundingFunc` resolves its scope to `g`), and the function-body scan
does record the intended "used constant" edge from `g` (node 2) to the
constant (node 1).  But because `handledConsts` (unused.go:528) is never
written to, the `Uses` loop at unused.go:556-565 — intended, per the
comment, for constant references in non-function contexts only — also
records a "used constant" edge from Root to the constant, and after
coloring the constant is seen even though `g` itself is unseen.  The
claim's conclusion ("an unexported constant used solely inside unreachable
functions remains unseen after coloring") therefore fails on the code as
written. -/
theorem c6_bug_eval :
    surroundingFunc c6inp c6k.scopeChain = some 7 ∧
    handledConsts = [] ∧
    ∃ s, entry c6inp 32 newGraph = .ok s ∧
      nodeMaybe s (.constO c6k) = some 1 ∧
      nodeMaybe s (.ssaFnO (some 7)) = some 2 ∧
      (nodeAt s.nodes 2).used.lookup 1 = some "used constant" ∧
      (nodeAt s.nodes 0).used.lookup 1 = some "used constant" ∧
      ∃ nodes2, color 32 s.nodes 0 = .ok nodes2 ∧
        (nodeAt nodes2 2).seen = false ∧
        (nodeAt nodes2 1).seen = true := by
  refine ⟨rfl, rfl, _, rfl, ?_, ?_, ?_, ?_, _, rfl, ?_, ?_⟩ <;> decide

/-! ## Claim C8: the no-new-node assertions in `use` -/

/-- Node presence only ever grows during graph construction. -/
def nodesPersist (s s2 : GState) : Prop :=
  ∀ o, (nodeMaybe s o).isSome = true → (nodeMaybe s2 o).isSome = true

/-- The memoized type set only ever grows. -/
def seenPersist (s s2 : GState) : Prop :=
  ∀ t, t ∈ s.seenTypesL → t ∈ s2.seenTypesL

/-- Every memoized struct type has a node: `typ` creates the node in the
same pure region that memoizes the struct, and structs are never
irrelevant. -/
def strNode (s : GState) : Prop :=
  ∀ flds, (.strct flds) ∈ s.seenTypesL →
    (nodeMaybe s (.typeO (.strct flds))).isSome = true

/-- What a completed walk guarantees about every type it newly memoized:
it is not foreign, it has a node when relevant, its dereferenced
underlying struct (when there is one) has a node and is memoized — unless
that struct is reachable from a type that was already memoized before the
walk, or the dereferenced type is foreign — and the fields of a memoized
struct have memoized or foreign types. -/
def newSeen (inp : PkgIn) (s s2 : GState) : Prop :=
  ∀ t, t ∈ s2.seenTypesL → t ∉ s.seenTypesL →
    foreignNamed inp t = false ∧
    (isIrrelevantT inp.namedEnv inp.irrFuel t = false →
      (nodeMaybe s2 (.typeO t)).isSome = true) ∧
    (∀ flds,
      underlyingT inp.namedEnv (derefT inp.namedEnv t) = .strct flds →
      ((nodeMaybe s2 (.typeO (.strct flds))).isSome = true ∧
        (.strct flds) ∈ s2.seenTypesL) ∨
      foreignNamed inp (derefT inp.namedEnv t) = true ∨
      derefT inp.namedEnv t ∈ s.seenTypesL ∨
      underlyingT inp.namedEnv t ∈ s.seenTypesL) ∧
    (∀ flds, t = .strct flds →
      ∀ f ∈ flds, foreignNamed inp f.2 = true ∨ f.2 ∈ s2.seenTypesL)

/-- The state evolution contract of every graph-walking step. -/
def walkPost (inp : PkgIn) (s s2 : GState) : Prop :=
  nodesPersist s s2 ∧ seenPersist s s2 ∧
    (strNode s → strNode s2) ∧ (strNode s → newSeen inp s s2)

theorem nodesPersist_refl (s : GState) : nodesPersist s s := fun _ h => h

theorem nodesPersist_trans {a b c : GState} (h1 : nodesPersist a b)
    (h2 : nodesPersist b c) : nodesPersist a c := fun o h => h2 o (h1 o h)

theorem seenPersist_refl (s : GState) : seenPersist s s := fun _ h => h

theorem seenPersist_trans {a b c : GState} (h1 : seenPersist a b)
    (h2 : seenPersist b c) : seenPersist a c := fun t h => h2 t (h1 t h)

theorem walkPost_refl (inp : PkgIn) (s : GState) : walkPost inp s s :=
  ⟨nodesPersist_refl s, seenPersist_refl s, fun h => h,
    fun _ _ h1 h2 => absurd h1 h2⟩

/-- A dereferenced type whose underlying type is a struct is a fixed point
of dereferencing. -/
theorem derefT_fix (env : List (Nat × NamedInfo)) (t : GoType)
    (flds : List GoVar)
    (h : underlyingT env (derefT env t) = .strct flds) :
    derefT env (derefT env t) = derefT env t := by
  rw [derefT, h]

/-- The struct clause of `newSeen` for a type that is itself a
dereferencing fixed point with struct underlying, chased through an
earlier walk step. -/
theorem newSeen_chase {inp : PkgIn} {a b c : GState}
    (hSA : strNode a) (hab : walkPost inp a b)
    (nbc : nodesPersist b c) (sbc : seenPersist b c)
    (w : GoType) (flds : List GoVar)
    (hwb : w ∈ b.seenTypesL)
    (hdw : derefT inp.namedEnv w = w)
    (huw : underlyingT inp.namedEnv w = .strct flds) :
    ((nodeMaybe c (.typeO (.strct flds))).isSome = true ∧
      (.strct flds) ∈ c.seenTypesL) ∨
    foreignNamed inp w = true ∨ w ∈ a.seenTypesL := by
  obtain ⟨nab, sab, strab, wab⟩ := hab
  by_cases hwa : w ∈ a.seenTypesL
  · exact Or.inr (Or.inr hwa)
  obtain ⟨_, _, hu, _⟩ := wab hSA w hwb hwa
  have huw2 : underlyingT inp.namedEnv (derefT inp.namedEnv w) =
      .strct flds := by rw [hdw]; exact huw
  rcases hu flds huw2 with ⟨h1, h2⟩ | h1 | h1 | h1
  · exact Or.inl ⟨nbc _ h1, sbc _ h2⟩
  · rw [hdw] at h1
    exact Or.inr (Or.inl h1)
  · rw [hdw] at h1
    exact Or.inr (Or.inr h1)
  · rw [huw] at h1
    have hn := hSA flds h1
    exact Or.inl ⟨nbc _ (nab _ hn), sbc _ (sab _ h1)⟩

theorem newSeen_trans {inp : PkgIn} {a b c : GState} (hSA : strNode a)
    (hab : walkPost inp a b) (hbc : walkPost inp b c) : newSeen inp a c := by
  have hSB : strNode b := hab.2.2.1 hSA
  obtain ⟨nab, sab, strab, wab⟩ := hab
  obtain ⟨nbc, sbc, strbc, wbc⟩ := hbc
  intro t htc hta
  by_cases htb : t ∈ b.seenTypesL
  · obtain ⟨hf, hn, hu, hs⟩ := wab hSA t htb hta
    refine ⟨hf, fun hr => nbc _ (hn hr), ?_, ?_⟩
    · intro flds hflds
      rcases hu flds hflds with ⟨h1, h2⟩ | h1 | h1 | h1
      · exact Or.inl ⟨nbc _ h1, sbc _ h2⟩
      · exact Or.inr (Or.inl h1)
      · exact Or.inr (Or.inr (Or.inl h1))
      · exact Or.inr (Or.inr (Or.inr h1))
    · intro flds hflds f hf2
      rcases hs flds hflds f hf2 with h1 | h1
      · exact Or.inl h1
      · exact Or.inr (sbc _ h1)
  · obtain ⟨hf, hn, hu, hs⟩ := wbc hSB t htc htb
    refine ⟨hf, hn, ?_, hs⟩
    intro flds hflds
    rcases hu flds hflds with h1 | h1 | h1 | h1
    · exact Or.inl h1
    · exact Or.inr (Or.inl h1)
    · -- `derefT t` was memoized by the first step; chase its clause.
      set w := derefT inp.namedEnv t with hwdef
      have hdw : derefT inp.namedEnv w = w :=
        derefT_fix inp.namedEnv t flds hflds
      rcases newSeen_chase hSA ⟨nab, sab, strab, wab⟩ nbc sbc w flds h1
          hdw hflds with h2 | h2 | h2
      · exact Or.inl h2
      · exact Or.inr (Or.inl h2)
      · exact Or.inr (Or.inr (Or.inl h2))
    · -- `underlyingT t` was memoized by the first step.
      by_cases hua : underlyingT inp.namedEnv t ∈ a.seenTypesL
      · exact Or.inr (Or.inr (Or.inr hua))
      cases hcu : underlyingT inp.namedEnv t with
      | ptr e =>
        have hde : derefT inp.namedEnv t = e := by rw [derefT, hcu]
        have hdpe : derefT inp.namedEnv (.ptr e) = e := by
          have : underlyingT inp.namedEnv (.ptr e) = .ptr e := rfl
          rw [derefT, this]
        have hupe : underlyingT inp.namedEnv (.ptr e) = .ptr e := rfl
        rw [hcu] at h1
        obtain ⟨_, _, hu2, _⟩ := wab hSA (.ptr e) h1 (hcu ▸ hua)
        have huee : underlyingT inp.namedEnv
            (derefT inp.namedEnv (.ptr e)) = .strct flds := by
          rw [hdpe, ← hde]; exact hflds
        rcases hu2 flds huee with ⟨h2, h3⟩ | h2 | h2 | h2
        · exact Or.inl ⟨nbc _ h2, sbc _ h3⟩
        · rw [hdpe, ← hde] at h2
          exact Or.inr (Or.inl h2)
        · rw [hdpe, ← hde] at h2
          exact Or.inr (Or.inr (Or.inl h2))
        · rw [hupe, ← hcu] at h2
          exact absurd h2 hua
      | strct flds2 =>
        -- the underlying struct itself was memoized by the first step:
        -- structs are relevant, so it got a node there.
        have hdt : derefT inp.namedEnv t = t := by
          rw [derefT, hcu]
        rw [hdt, hcu] at hflds
        cases hflds
        rw [hcu] at h1
        by_cases hsa2 : (GoType.strct flds) ∈ a.seenTypesL
        · have hn2 := hSA flds hsa2
          exact Or.inl ⟨nbc _ (nab _ hn2), sbc _ h1⟩
        · obtain ⟨_, hn2, _, _⟩ := wab hSA (.strct flds) h1 hsa2
          have hrel : isIrrelevantT inp.namedEnv inp.irrFuel
              (.strct flds) = false := by
            cases hfl : inp.irrFuel with
            | zero => rfl
            | succ m => rfl
          exact Or.inl ⟨nbc _ (hn2 hrel), sbc _ h1⟩
      | _ =>
        -- a non-pointer, non-struct underlying type: then `derefT t = t`
        -- and `underlyingT (derefT t)` is that same type, not a struct.
        rename_i hcu0
        have hdt : derefT inp.namedEnv t = t := by
          rw [derefT, hcu]
        rw [hdt, hcu] at hflds
        cases hflds

theorem walkPost_trans {inp : PkgIn} {a b c : GState}
    (hab : walkPost inp a b) (hbc : walkPost inp b c) : walkPost inp a c :=
  ⟨nodesPersist_trans hab.1 hbc.1, seenPersist_trans hab.2.1 hbc.2.1,
    fun hSA => hbc.2.2.1 (hab.2.2.1 hSA),
    fun hSA => newSeen_trans hSA hab hbc⟩

theorem lookup_isSome_cons {g : Type} [DecidableEq g] (idx : List (g × Nat))
    (o o2 : g) (i : Nat) (h : (idx.lookup o2).isSome = true) :
    (((o, i) :: idx).lookup o2).isSome = true := by
  by_cases ho : o2 = o
  · subst ho; simp [List.lookup]
  · have hne : (o2 == o) = false := by simp [ho]
    simpa [List.lookup, hne] using h

theorem nodeGet_seen (s : GState) (o : Obj) :
    ((nodeGet s o).2.2).seenTypesL = s.seenTypesL := by
  cases o <;> simp only [nodeGet, newNode] <;> split <;> rfl

theorem nodeGet_self (s : GState) (o : Obj) :
    (nodeMaybe ((nodeGet s o).2.2) o).isSome = true := by
  cases o <;>
    · simp only [nodeGet, newNode]
      split
      · rename_i i hl
        simp [nodeMaybe, hl]
      · simp [nodeMaybe, List.lookup]

theorem nodeGet_persist (s : GState) (o o2 : Obj)
    (h : (nodeMaybe s o2).isSome = true) :
    (nodeMaybe ((nodeGet s o).2.2) o2).isSome = true := by
  cases o2 <;> cases o <;>
    · simp only [nodeGet, newNode]
      split
      · exact h
      · first
        | exact lookup_isSome_cons _ _ _ _ h
        | exact h

theorem nodeGet_false (s : GState) (o : Obj)
    (h : (nodeGet s o).2.1 = false) : (nodeGet s o).2.2 = s := by
  cases o <;>
    · simp only [nodeGet, newNode] at h ⊢
      split at h
      · rename_i i hl
        simp [hl]
      · cases h


theorem nodeGet_false_of_isSome (s : GState) (o : Obj)
    (h : (nodeMaybe s o).isSome = true) : (nodeGet s o).2.1 = false := by
  cases o <;>
    · simp only [nodeMaybe] at h
      rw [Option.isSome_iff_exists] at h
      obtain ⟨i, hl⟩ := h
      simp [nodeGet, hl]

theorem see_seen (inp : PkgIn) (o : Obj) (s : GState) :
    (see inp o s).seenTypesL = s.seenTypesL := by
  rcases see_cases inp o s with hc | hc <;> rw [hc]
  exact nodeGet_seen s o

theorem see_persist (inp : PkgIn) (o : Obj) (s : GState) :
    nodesPersist s (see inp o s) := by
  intro o2 h
  rcases see_cases inp o s with hc | hc <;> rw [hc]
  · exact h
  · exact nodeGet_persist s o o2 h

theorem walkPost_of_seen_eq {inp : PkgIn} {s s2 : GState}
    (hn : nodesPersist s s2) (he : s2.seenTypesL = s.seenTypesL) :
    walkPost inp s s2 := by
  refine ⟨hn, fun t ht => ?_, fun hS flds hf => ?_, fun _ t ht2 ht1 => ?_⟩
  · rw [he]; exact ht
  · rw [he] at hf
    exact hn _ (hS flds hf)
  · rw [he] at ht2; exact absurd ht2 ht1

theorem see_walkPost (inp : PkgIn) (o : Obj) (s : GState) :
    walkPost inp s (see inp o s) :=
  walkPost_of_seen_eq (see_persist inp o s) (see_seen inp o s)

theorem see_creates_gen (inp : PkgIn) (o : Obj) (s : GState)
    (hirr : irrO inp o = false) (hpkg : pkgFiltered inp o = false) :
    (nodeMaybe (see inp o s) o).isSome = true := by
  unfold see
  rw [if_neg (show ¬(irrO inp o = true) from by
    rw [hirr]; exact Bool.false_ne_true)]
  rw [if_neg (show ¬(pkgFiltered inp o = true) from by
    rw [hpkg]; exact Bool.false_ne_true)]
  exact nodeGet_self s o

/-- On a successful path, `use` changes only node payloads: the key maps
and the memoized type set are untouched. -/
theorem use_ok_state (inp : PkgIn) (u : Obj) (byO : Option Obj) (r : String)
    (s s2 : GState) (h : use inp u byO r s = .ok s2) :
    s2.objIndex = s.objIndex ∧ s2.typeIndex = s.typeIndex ∧
      s2.seenTypesL = s.seenTypesL := by
  unfold use at h
  split at h
  · cases h; exact ⟨rfl, rfl, rfl⟩
  split at h
  · cases h
  split at h
  · cases h
  split at h
  · cases h; exact ⟨rfl, rfl, rfl⟩
  split at h
  · cases h; exact ⟨rfl, rfl, rfl⟩
  cases hnew : (nodeGet s u).2.1 with
  | true =>
    rw [show nodeGet s u = ((nodeGet s u).1, (nodeGet s u).2.1,
      (nodeGet s u).2.2) from rfl, hnew] at h
    simp at h
  | false =>
    have hu := nodeGet_false s u hnew
    rw [show nodeGet s u = ((nodeGet s u).1, (nodeGet s u).2.1,
      (nodeGet s u).2.2) from rfl, hnew, hu] at h
    simp only at h
    cases byO with
    | none =>
      simp only at h
      cases h
      exact ⟨rfl, rfl, rfl⟩
    | some b =>
      simp only at h
      cases hbn : (nodeGet s b).2.1 with
      | true =>
        rw [show nodeGet s b = ((nodeGet s b).1, (nodeGet s b).2.1,
          (nodeGet s b).2.2) from rfl, hbn] at h
        simp at h
      | false =>
        have hb := nodeGet_false s b hbn
        rw [show nodeGet s b = ((nodeGet s b).1, (nodeGet s b).2.1,
          (nodeGet s b).2.2) from rfl, hbn, hb] at h
        simp only at h
        cases h
        exact ⟨rfl, rfl, rfl⟩

theorem nodeMaybe_eq_of_idx {s s2 : GState}
    (ho : s2.objIndex = s.objIndex) (ht : s2.typeIndex = s.typeIndex)
    (o : Obj) : nodeMaybe s2 o = nodeMaybe s o := by
  cases o <;> simp [nodeMaybe, ho, ht]

theorem use_walkPost (inp : PkgIn) (u : Obj) (byO : Option Obj) (r : String)
    (s s2 : GState) (h : use inp u byO r s = .ok s2) :
    walkPost inp s s2 := by
  obtain ⟨ho, ht, he⟩ := use_ok_state inp u byO r s s2 h
  refine walkPost_of_seen_eq ?_ he
  intro o2 hs
  rw [nodeMaybe_eq_of_idx ho ht]
  exact hs

theorem seeAndUse_walkPost (inp : PkgIn) (u : Obj) (byO : Option Obj)
    (r : String) (s s2 : GState)
    (h : seeAndUse inp u byO r s = .ok s2) : walkPost inp s s2 := by
  unfold seeAndUse at h
  exact walkPost_trans (see_walkPost inp u s) (use_walkPost inp u byO r _ s2 h)


/-- Safety of one graph-construction step from state `s`: the result is
not the failed no-new-node assertion, and a successful result satisfies
the state-evolution contract. -/
def SAFE (inp : PkgIn) (s : GState) (r : Except AErr GState) : Prop :=
  r ≠ .error .useNewNode ∧ ∀ s2, r = .ok s2 → walkPost inp s s2

/-- `SAFE` for the walkers returning a value-set alongside the state. -/
def SAFEP (inp : PkgIn) (s : GState)
    (r : Except AErr (List SsaVal × GState)) : Prop :=
  r ≠ .error .useNewNode ∧ ∀ p, r = .ok p → walkPost inp s p.2

theorem safe_ok {inp : PkgIn} {s s2 : GState} (h : walkPost inp s s2) :
    SAFE inp s (.ok s2) := by
  refine ⟨fun hc => (nomatch hc), fun s3 h3 => ?_⟩
  cases h3
  exact h

theorem safe_ok_self (inp : PkgIn) (s : GState) : SAFE inp s (.ok s) :=
  safe_ok (walkPost_refl inp s)

theorem safe_err {inp : PkgIn} {s : GState} {e : AErr}
    (he : e ≠ .useNewNode) : SAFE inp s (.error e) := by
  refine ⟨fun hc => he (Except.error.inj hc), fun s3 h3 => ?_⟩
  cases h3

theorem safe_pre {inp : PkgIn} {s s1 : GState} {r : Except AErr GState}
    (hw : walkPost inp s s1) (h : SAFE inp s1 r) : SAFE inp s r := by
  refine ⟨h.1, fun s2 h2 => walkPost_trans hw (h.2 s2 h2)⟩

theorem safe_bind {inp : PkgIn} {s : GState} {x : Except AErr GState}
    {f : GState → Except AErr GState} (hx : SAFE inp s x)
    (hf : ∀ s2, x = .ok s2 → SAFE inp s2 (f s2)) :
    SAFE inp s (x >>= f) := by
  cases hc : x with
  | error e =>
    rw [hc] at hx
    show SAFE inp s (Except.error e)
    exact ⟨hx.1, fun s3 h3 => (nomatch h3)⟩
  | ok s2 =>
    show SAFE inp s (f s2)
    exact safe_pre (hx.2 s2 hc) (hf s2 hc)

theorem safep_pre {inp : PkgIn} {s s1 : GState}
    {r : Except AErr (List SsaVal × GState)}
    (hw : walkPost inp s s1) (h : SAFEP inp s1 r) : SAFEP inp s r := by
  refine ⟨h.1, fun p h2 => walkPost_trans hw (h.2 p h2)⟩

theorem safep_ok {inp : PkgIn} {s : GState} {p : List SsaVal × GState}
    (h : walkPost inp s p.2) : SAFEP inp s (.ok p) := by
  refine ⟨fun hc => (nomatch hc), fun p2 h2 => ?_⟩
  cases h2
  exact h

theorem safep_err {inp : PkgIn} {s : GState} {e : AErr}
    (he : e ≠ .useNewNode) : SAFEP inp s (.error e) := by
  refine ⟨fun hc => he (Except.error.inj hc), fun p h3 => ?_⟩
  cases h3

theorem safep_bind_safe {inp : PkgIn} {s : GState}
    {x : Except AErr (List SsaVal × GState)}
    {f : List SsaVal × GState → Except AErr GState} (hx : SAFEP inp s x)
    (hf : ∀ p, x = .ok p → SAFE inp p.2 (f p)) :
    SAFE inp s (x >>= f) := by
  cases hc : x with
  | error e =>
    rw [hc] at hx
    show SAFE inp s (Except.error e)
    have he : e ≠ .useNewNode := fun h2 => hx.1 (by rw [h2])
    exact safe_err he
  | ok p =>
    show SAFE inp s (f p)
    exact safe_pre (hx.2 p hc) (hf p hc)

theorem safep_bind {inp : PkgIn} {s : GState}
    {x : Except AErr (List SsaVal × GState)}
    {f : List SsaVal × GState → Except AErr (List SsaVal × GState)}
    (hx : SAFEP inp s x)
    (hf : ∀ p, x = .ok p → SAFEP inp p.2 (f p)) :
    SAFEP inp s (x >>= f) := by
  cases hc : x with
  | error e =>
    rw [hc] at hx
    show SAFEP inp s (Except.error e)
    exact ⟨hx.1, fun p h3 => (nomatch h3)⟩
  | ok p =>
    show SAFEP inp s (f p)
    exact safep_pre (hx.2 p hc) (hf p hc)

/-- The state of the by-endpoint that makes an edge recording safe. -/
def byOK (inp : PkgIn) (byO : Option Obj) (s : GState) : Prop :=
  match byO with
  | none => True
  | some b => pkgFiltered inp b = true ∨ (nodeMaybe s b).isSome = true

theorem byOK_persist {inp : PkgIn} {byO : Option Obj} {s s2 : GState}
    (hn : nodesPersist s s2) (h : byOK inp byO s) : byOK inp byO s2 := by
  cases byO with
  | none => trivial
  | some b =>
    rcases h with h | h
    · exact Or.inl h
    · exact Or.inr (hn b h)

theorem updateEdge_walkPost (inp : PkgIn) (s : GState) (bi ui : Nat)
    (r : String) : walkPost inp s (updateEdge s bi ui r) := by
  refine walkPost_of_seen_eq ?_ rfl
  intro o2 h
  rw [nodeMaybe_eq_of_idx rfl rfl]
  exact h

theorem use_safe (inp : PkgIn) (u : Obj) (byO : Option Obj) (r : String)
    (s : GState)
    (hu : irrO inp u = true ∨ pkgFiltered inp u = true ∨
      (nodeMaybe s u).isSome = true)
    (hby : byOK inp byO s) : SAFE inp s (use inp u byO r s) := by
  unfold use
  split
  · exact safe_ok_self inp s
  split
  · exact safe_err (by decide)
  split
  · exact safe_err (by decide)
  split
  · exact safe_ok_self inp s
  split
  · exact safe_ok_self inp s
  rename_i hirr hfv1 hfv2 hpk1 hpk2
  have husome : (nodeMaybe s u).isSome = true := by
    rcases hu with h | h | h
    · exact absurd h hirr
    · exact absurd h hpk1
    · exact h
  have hufalse := nodeGet_false_of_isSome s u husome
  have hustate := nodeGet_false s u hufalse
  rw [show nodeGet s u = ((nodeGet s u).1, (nodeGet s u).2.1,
    (nodeGet s u).2.2) from rfl, hufalse, hustate]
  simp only [Bool.false_eq_true, if_false]
  cases byO with
  | none => exact safe_ok (updateEdge_walkPost inp s 0 _ r)
  | some b =>
    simp only
    have hbsome : (nodeMaybe s b).isSome = true := by
      rcases hby with h | h
      · exact absurd h hpk2
      · exact h
    have hbfalse := nodeGet_false_of_isSome s b hbsome
    have hbstate := nodeGet_false s b hbfalse
    rw [show nodeGet s b = ((nodeGet s b).1, (nodeGet s b).2.1,
      (nodeGet s b).2.2) from rfl, hbfalse, hbstate]
    simp only [Bool.false_eq_true, if_false]
    exact safe_ok (updateEdge_walkPost inp s _ _ r)

theorem seeAndUse_safe (inp : PkgIn) (u : Obj) (byO : Option Obj)
    (r : String) (s : GState) (hby : byOK inp byO s) :
    SAFE inp s (seeAndUse inp u byO r s) := by
  unfold seeAndUse
  refine safe_pre (see_walkPost inp u s) ?_
  refine use_safe inp u byO r _ ?_
    (byOK_persist (see_persist inp u s) hby)
  by_cases hirr : irrO inp u = true
  · exact Or.inl hirr
  by_cases hpkg : pkgFiltered inp u = true
  · exact Or.inr (Or.inl hpkg)
  · exact Or.inr (Or.inr (see_creates_gen inp u s
      (Bool.not_eq_true _ ▸ hirr) (Bool.not_eq_true _ ▸ hpkg)))


/-- The relevance filter is monotone in its fuel: once a type is found
irrelevant, more fuel keeps it irrelevant. -/
theorem isIrrelevantT_mono (env : List (Nat × NamedInfo)) :
    ∀ f g, f ≤ g → ∀ t, isIrrelevantT env f t = true →
      isIrrelevantT env g t = true := by
  intro f
  induction f with
  | zero => intro g hle t h; cases h
  | succ f ih =>
    intro g hle t h
    cases g with
    | zero => omega
    | succ g =>
      have hg : f ≤ g := by omega
      rw [isIrrelevantT] at h ⊢
      cases hd : derefT env t with
      | array e =>
        rw [hd] at h
        exact ih g hg e h
      | slice e =>
        rw [hd] at h
        exact ih g hg e h
      | basic b => exact rfl
      | tuple vs =>
        rw [hd] at h
        have h2 : (vs.all fun v => !v.1.isField &&
            isIrrelevantT env f v.2) = true := h
        show (vs.all fun v => !v.1.isField &&
          isIrrelevantT env g v.2) = true
        simp only [List.all_eq_true] at h2 ⊢
        intro v hv
        have h3 := h2 v hv
        rw [Bool.and_eq_true] at h3 ⊢
        exact ⟨h3.1, ih g hg v.2 h3.2⟩
      | sig recv params results =>
        rw [hd] at h
        cases recv with
        | some rv => exact h
        | none =>
          have h2 : ((params.all fun v => !v.1.isField &&
              isIrrelevantT env f v.2) &&
              (results.all fun v => !v.1.isField &&
                isIrrelevantT env f v.2)) = true := h
          show ((params.all fun v => !v.1.isField &&
            isIrrelevantT env g v.2) &&
            (results.all fun v => !v.1.isField &&
              isIrrelevantT env g v.2)) = true
          rw [Bool.and_eq_true] at h2 ⊢
          simp only [List.all_eq_true] at h2 ⊢
          refine ⟨fun v hv => ?_, fun v hv => ?_⟩
          · have h3 := h2.1 v hv
            rw [Bool.and_eq_true] at h3 ⊢
            exact ⟨h3.1, ih g hg v.2 h3.2⟩
          · have h3 := h2.2 v hv
            rw [Bool.and_eq_true] at h3 ⊢
            exact ⟨h3.1, ih g hg v.2 h3.2⟩
      | iface ms => rw [hd] at h; exact h
      | named n => rw [hd] at h; exact (nomatch h)
      | strct flds => rw [hd] at h; exact (nomatch h)
      | ptr e => rw [hd] at h; exact (nomatch h)
      | chanT e => rw [hd] at h; exact (nomatch h)
      | mapT k e => rw [hd] at h; exact (nomatch h)


/-- A signature found irrelevant by the filter has only irrelevant
parameters and results (at the same fuel, by monotonicity). -/
theorem sig_irr_vars (env : List (Nat × NamedInfo)) (fl : Nat)
    (recv : Option GoVar) (ps rs : List GoVar)
    (h : isIrrelevantT env fl (.sig recv ps rs) = true) :
    ∀ f, f ∈ ps ∨ f ∈ rs → isIrrelevantV env fl f = true := by
  cases fl with
  | zero => cases h
  | succ m =>
    cases recv with
    | some rv => exact (nomatch h)
    | none =>
      have h2 : ((ps.all fun v => !v.1.isField &&
          isIrrelevantT env m v.2) &&
        (rs.all fun v => !v.1.isField && isIrrelevantT env m v.2)) = true :=
        h
      rw [Bool.and_eq_true] at h2
      simp only [List.all_eq_true] at h2
      intro f hf
      have h3 : (!f.1.isField && isIrrelevantT env m f.2) = true := by
        rcases hf with hf | hf
        · exact h2.1 f hf
        · exact h2.2 f hf
      rw [Bool.and_eq_true] at h3
      rw [isIrrelevantV, Bool.and_eq_true]
      exact ⟨h3.1, isIrrelevantT_mono env m (m+1) (by omega) f.2 h3.2⟩

theorem safe_bind_safep {inp : PkgIn} {s : GState} {x : Except AErr GState}
    {f : GState → Except AErr (List SsaVal × GState)} (hx : SAFE inp s x)
    (hf : ∀ s2, x = .ok s2 → SAFEP inp s2 (f s2)) :
    SAFEP inp s (x >>= f) := by
  cases hc : x with
  | error e =>
    rw [hc] at hx
    show SAFEP inp s (Except.error e)
    have he : e ≠ .useNewNode := fun h2 => hx.1 (by rw [h2])
    exact safep_err he
  | ok s2 =>
    show SAFEP inp s (f s2)
    exact safep_pre (hx.2 s2 hc) (hf s2 hc)

/-- The lowered-function node required before walking a function body. -/
def fnNode (fid : Nat) (s : GState) : Prop :=
  (nodeMaybe s (.ssaFnO (some fid))).isSome = true

theorem byOK_fn {inp : PkgIn} {fid : Nat} {s : GState} (h : fnNode fid s) :
    byOK inp (some (.ssaFnO (some fid))) s := Or.inr h

theorem handleReturn_safe (inp : PkgIn) (fid : Nat) : ∀ fuel,
    (∀ seenL v s, fnNode fid s →
      SAFEP inp s (handleReturn inp fid fuel seenL v s)) ∧
    (∀ seenL vs s, fnNode fid s →
      SAFEP inp s (handleReturnFold inp fid fuel seenL vs s)) := by
  intro fuel
  induction fuel with
  | zero =>
    exact ⟨fun seenL v s hf => safep_err (by decide),
      fun seenL vs s hf => safep_err (by decide)⟩
  | succ fuel ih =>
    constructor
    · intro seenL v s hf
      rw [handleReturn]
      split
      · exact safep_ok (walkPost_refl inp s)
      cases v with
      | fnV f =>
        refine safe_bind_safep (seeAndUse_safe inp _ _ _ s (byOK_fn hf)) ?_
        intro s2 h2
        exact safep_ok (walkPost_refl inp s2)
      | closureV inner => exact safep_ok (walkPost_refl inp s)
      | builtinV => exact safep_ok (walkPost_refl inp s)
      | phiV edges => exact ih.2 _ edges s hf
      | otherV => exact safep_ok (walkPost_refl inp s)
    · intro seenL vs s hf
      cases vs with
      | nil => exact safep_ok (walkPost_refl inp s)
      | cons v rest =>
        rw [handleReturnFold]
        refine safep_bind (ih.1 seenL v s hf) ?_
        intro p hp
        exact ih.2 p.1 rest p.2
          (((ih.1 seenL v s hf).2 p hp).1 _ hf)


/-- The type-node precondition of the `typ` sub-loops. -/
def tyNode (t : GoType) (s : GState) : Prop :=
  (nodeMaybe s (.typeO t)).isSome = true

/-- The variable-node precondition of `variableW`. -/
def varNode (inp : PkgIn) (v : GoVar) (s : GState) : Prop :=
  irrO inp (.varO v) = false → pkgFiltered inp (.varO v) = false →
    (nodeMaybe s (.varO v)).isSome = true

/-- The signature-node precondition of `signatureM`. -/
def sigNode (inp : PkgIn) (sigT : GoType) (s : GState) : Prop :=
  isIrrelevantT inp.namedEnv inp.irrFuel sigT = false →
    (nodeMaybe s (.typeO sigT)).isSome = true

/-- Well-formedness of a change-of-type instruction: the fields of the two
converted structs are field objects (`IsField`), as go/types guarantees
for struct members. -/
def convOkInstr (inp : PkgIn) : Instr → Bool
  | .changeType vty xTy =>
    (match underlyingT inp.namedEnv (derefT inp.namedEnv vty) with
     | .strct flds => flds.all fun f => f.1.isField
     | _ => true) &&
    (match underlyingT inp.namedEnv (derefT inp.namedEnv xTy) with
     | .strct flds => flds.all fun f => f.1.isField
     | _ => true)
  | _ => true

/-- Well-formedness of the lowered functions: every conversion instruction
converts between structs whose members are field objects. -/
def convWF (inp : PkgIn) : Bool :=
  inp.fnEnv.all fun p => p.2.blocks.all fun b => b.all (convOkInstr inp)

/-- The per-fuel safety bundle of the mutual IR walker. -/
structure WalkP (inp : PkgIn) (fuel : Nat) : Prop where
  typS : ∀ t s, SAFE inp s (typ inp fuel t s)
  structS : ∀ t flds s, tyNode t s →
    SAFE inp s (typStructFold inp fuel t flds s)
  methS : ∀ t ms s, tyNode t s →
    SAFE inp s (typMethodsFold inp fuel t ms s)
  ifaceS : ∀ t ms s, tyNode t s →
    SAFE inp s (typIfaceFold inp fuel t ms s)
  tupleS : ∀ t es s, tyNode t s →
    SAFE inp s (typTupleFold inp fuel t es s)
  varS : ∀ v s, varNode inp v s → SAFE inp s (variableW inp fuel v s)
  sigS : ∀ sigT s, sigNode inp sigT s →
    SAFE inp s (signatureM inp fuel sigT s)
  sigVarsS : ∀ sigT reason vs s,
    (∀ f ∈ vs, irrO inp (.varO f) = false →
      pkgFiltered inp (.varO f) = false →
      (nodeMaybe s (.typeO sigT)).isSome = true) →
    SAFE inp s (sigVarsFold inp fuel sigT reason vs s)
  funS : ∀ fid s, fnNode fid s → SAFE inp s (functionM inp fuel fid s)
  anonS : ∀ fid anons s, fnNode fid s →
    SAFE inp s (anonFold inp fuel fid anons s)
  instrsS : ∀ fid s, fnNode fid s →
    SAFE inp s (instructionsM inp fuel fid s)
  blocksS : ∀ fid bs s, fnNode fid s →
    (∀ b ∈ bs, ∀ i ∈ b, convOkInstr inp i = true) →
    SAFE inp s (blocksFold inp fuel fid bs s)
  instrFoldS : ∀ fid is2 s, fnNode fid s →
    (∀ i ∈ is2, convOkInstr inp i = true) →
    SAFE inp s (instrFold inp fuel fid is2 s)
  instrS : ∀ fid ins s, fnNode fid s → convOkInstr inp ins = true →
    SAFE inp s (instrW inp fuel fid ins s)
  useCallS : ∀ fid seenL v s, fnNode fid s →
    SAFEP inp s (useCall inp fuel fid seenL v s)
  useCallFoldS : ∀ fid seenL vs s, fnNode fid s →
    SAFEP inp s (useCallFold inp fuel fid seenL vs s)
  typMem : ∀ t s s2, typ inp fuel t s = .ok s2 →
    foreignNamed inp t = true ∨ t ∈ s2.seenTypesL
  varMem : ∀ v s s2, variableW inp fuel v s = .ok s2 →
    foreignNamed inp v.2 = true ∨ v.2 ∈ s2.seenTypesL
  structMem : ∀ t flds s s2, tyNode t s →
    typStructFold inp fuel t flds s = .ok s2 →
    ∀ f ∈ flds, foreignNamed inp f.2 = true ∨ f.2 ∈ s2.seenTypesL

theorem tyNode_persist {t : GoType} {s s2 : GState}
    (hn : nodesPersist s s2) (h : tyNode t s) : tyNode t s2 := hn _ h

theorem fnNode_persist {fid : Nat} {s s2 : GState}
    (hn : nodesPersist s s2) (h : fnNode fid s) : fnNode fid s2 := hn _ h

theorem byOK_ty {inp : PkgIn} {t : GoType} {s : GState} (h : tyNode t s) :
    byOK inp (some (.typeO t)) s := Or.inr h

/-- The used endpoint of `seeAndUse` is always safe; a bare `use` after an
explicit `see` of the same key is safe likewise. -/
theorem use_after_see_safe (inp : PkgIn) (u : Obj) (byO : Option Obj)
    (r : String) (s : GState) (hby : byOK inp byO s) :
    SAFE inp (see inp u s) (use inp u byO r (see inp u s)) := by
  refine use_safe inp u byO r _ ?_
    (byOK_persist (see_persist inp u s) hby)
  by_cases hirr : irrO inp u = true
  · exact Or.inl hirr
  by_cases hpkg : pkgFiltered inp u = true
  · exact Or.inr (Or.inl hpkg)
  · exact Or.inr (Or.inr (see_creates_gen inp u s
      (Bool.not_eq_true _ ▸ hirr) (Bool.not_eq_true _ ▸ hpkg)))

theorem walkP_zero (inp : PkgIn) : WalkP inp 0 := by
  constructor
  case typMem =>
    intro t s s2 h
    exact (nomatch h)
  case varMem =>
    intro v s s2 h
    exact (nomatch h)
  case structMem =>
    intro t flds s s2 ht h
    exact (nomatch h)
  all_goals intros
  all_goals first
    | exact safe_err (by decide)
    | exact safep_err (by decide)


theorem usedOK_after_see (inp : PkgIn) (u : Obj) (s : GState) :
    irrO inp u = true ∨ pkgFiltered inp u = true ∨
      (nodeMaybe (see inp u s) u).isSome = true := by
  by_cases hirr : irrO inp u = true
  · exact Or.inl hirr
  by_cases hpkg : pkgFiltered inp u = true
  · exact Or.inr (Or.inl hpkg)
  · exact Or.inr (Or.inr (see_creates_gen inp u s
      (Bool.not_eq_true _ ▸ hirr) (Bool.not_eq_true _ ▸ hpkg)))

theorem usedOK_persist {inp : PkgIn} {u : Obj} {s s2 : GState}
    (hn : nodesPersist s s2)
    (h : irrO inp u = true ∨ pkgFiltered inp u = true ∨
      (nodeMaybe s u).isSome = true) :
    irrO inp u = true ∨ pkgFiltered inp u = true ∨
      (nodeMaybe s2 u).isSome = true := by
  rcases h with h | h | h
  · exact Or.inl h
  · exact Or.inr (Or.inl h)
  · exact Or.inr (Or.inr (hn u h))

theorem step_typStructFold {inp : PkgIn} {fuel : Nat}
    (ih : WalkP inp fuel) : ∀ t flds s, tyNode t s →
    SAFE inp s (typStructFold inp (fuel+1) t flds s) := by
  intro t flds
  cases flds with
  | nil => intro s ht; exact safe_ok_self inp s
  | cons f rest =>
    intro s ht
    rw [typStructFold]
    refine safe_pre (see_walkPost inp (.varO f) s) ?_
    have ht1 := tyNode_persist (see_persist inp (.varO f) s) ht
    have hu1 := usedOK_after_see inp (.varO f) s
    have hvn : varNode inp f (see inp (.varO f) s) := fun hirr hpkg =>
      see_creates_gen inp (.varO f) s hirr hpkg
    have hx1 : SAFE inp (see inp (.varO f) s)
        (if f.1.exported = true then
          use inp (.varO f) (some (.typeO t)) "exported struct field"
            (see inp (.varO f) s)
        else if isNoCopyType inp.namedEnv f.2 = true then
          use inp (.varO f) (some (.typeO t)) "NoCopy sentinel"
            (see inp (.varO f) s)
        else .ok (see inp (.varO f) s)) := by
      split
      · exact use_safe inp _ _ _ _ hu1 (byOK_ty ht1)
      split
      · exact use_safe inp _ _ _ _ hu1 (byOK_ty ht1)
      · exact safe_ok_self inp _
    refine safe_bind hx1 ?_
    intro s2 h2
    have hp2 := (hx1.2 s2 h2).1
    have hx2 : SAFE inp s2
        (if f.1.anonymous = true then do
          let s3 ← (if (msetOf inp f.2).any (fun m => m.1.exported) = true
            then use inp (.varO f) (some (.typeO t))
              "extends exported method set" s2
            else .ok s2)
          if hasExpField inp fuel [] f.2 = true then
            use inp (.varO f) (some (.typeO t)) "extends exported fields" s3
          else .ok s3
        else .ok s2) := by
      split
      · have hxa : SAFE inp s2
            (if (msetOf inp f.2).any (fun m => m.1.exported) = true then
              use inp (.varO f) (some (.typeO t))
                "extends exported method set" s2
            else .ok s2) := by
          split
          · exact use_safe inp _ _ _ _ (usedOK_persist hp2 hu1)
              (byOK_ty (tyNode_persist hp2 ht1))
          · exact safe_ok_self inp s2
        refine safe_bind hxa ?_
        intro s3 h3
        have hp3 := (hxa.2 s3 h3).1
        split
        · exact use_safe inp _ _ _ _
            (usedOK_persist (nodesPersist_trans hp2 hp3) hu1)
            (byOK_ty (tyNode_persist hp3 (tyNode_persist hp2 ht1)))
        · exact safe_ok_self inp s3
      · exact safe_ok_self inp s2
    refine safe_bind hx2 ?_
    intro s3 h3
    have hp3 := (hx2.2 s3 h3).1
    have hx3 : SAFE inp s3 (variableW inp fuel f s3) := by
      refine ih.varS f s3 ?_
      intro hirr hpkg
      exact nodesPersist_trans hp2 hp3 _ (hvn hirr hpkg)
    refine safe_bind hx3 ?_
    intro s4 h4
    have hp4 := (hx3.2 s4 h4).1
    exact ih.structS t rest s4 (tyNode_persist hp4
      (tyNode_persist hp3 (tyNode_persist hp2 ht1)))


theorem use_irr_ok (inp : PkgIn) (u : Obj) (byO : Option Obj) (r : String)
    (s : GState) (h : irrO inp u = true) :
    use inp u byO r s = .ok s := by
  unfold use
  rw [if_pos h]

theorem use_pkg_safe (inp : PkgIn) (u : Obj) (byO : Option Obj)
    (r : String) (s : GState) (h : pkgFiltered inp u = true) :
    SAFE inp s (use inp u byO r s) := by
  unfold use
  split
  · exact safe_ok_self inp s
  split
  · exact safe_err (by decide)
  split
  · exact safe_err (by decide)
  exact safe_ok_self inp s

theorem seeAndUse_safe_usedIrr (inp : PkgIn) (u : Obj) (byO : Option Obj)
    (r : String) (s : GState) (h : irrO inp u = true) :
    SAFE inp s (seeAndUse inp u byO r s) := by
  unfold seeAndUse
  rw [use_irr_ok inp u byO r _ h]
  exact safe_ok (see_walkPost inp u s)

theorem seeAndUse_safe_usedPkg (inp : PkgIn) (u : Obj) (byO : Option Obj)
    (r : String) (s : GState) (h : pkgFiltered inp u = true) :
    SAFE inp s (seeAndUse inp u byO r s) := by
  unfold seeAndUse
  exact safe_pre (see_walkPost inp u s) (use_pkg_safe inp u byO r _ h)

/-- A successful `seeAndUse` leaves a node for its relevant, local used
endpoint. -/
theorem seeAndUse_creates (inp : PkgIn) (u : Obj) (byO : Option Obj)
    (r : String) (s s2 : GState)
    (h : seeAndUse inp u byO r s = .ok s2)
    (hirr : irrO inp u = false) (hpkg : pkgFiltered inp u = false) :
    (nodeMaybe s2 u).isSome = true := by
  unfold seeAndUse at h
  exact (use_walkPost inp u byO r _ s2 h).1 u
    (see_creates_gen inp u s hirr hpkg)

theorem step_typMethodsFold {inp : PkgIn} {fuel : Nat}
    (ih : WalkP inp fuel) : ∀ t ms s, tyNode t s →
    SAFE inp s (typMethodsFold inp (fuel+1) t ms s) := by
  intro t ms
  cases ms with
  | nil => intro s ht; exact safe_ok_self inp s
  | cons m rest =>
    intro s ht
    rw [typMethodsFold]
    cases hfv : funcValue inp m.1.oid with
    | none => exact safe_err (by decide)
    | some fid =>
      simp only
      refine safe_pre (see_walkPost inp (.ssaFnO (some fid)) s) ?_
      have hfn : fnNode fid (see inp (.ssaFnO (some fid)) s) :=
        see_creates_gen inp (.ssaFnO (some fid)) s rfl rfl
      have ht1 := tyNode_persist (see_persist inp (.ssaFnO (some fid)) s) ht
      have hx1 : SAFE inp (see inp (.ssaFnO (some fid)) s)
          (match (fnGet inp fid).objO with
          | some fo =>
            if fo.1.exported = true then
              use inp (.ssaFnO (some fid)) (some (.typeO t))
                "exported method" (see inp (.ssaFnO (some fid)) s)
            else .ok (see inp (.ssaFnO (some fid)) s)
          | none => .ok (see inp (.ssaFnO (some fid)) s)) := by
        cases (fnGet inp fid).objO with
        | some fo =>
          simp only
          split
          · exact use_safe inp _ _ _ _ (Or.inr (Or.inr hfn)) (byOK_ty ht1)
          · exact safe_ok_self inp _
        | none => exact safe_ok_self inp _
      refine safe_bind hx1 ?_
      intro s2 h2
      have hp2 := (hx1.2 s2 h2).1
      refine safe_bind (ih.funS fid s2 (fnNode_persist hp2 hfn)) ?_
      intro s3 h3
      have hp3 := ((ih.funS fid s2 (fnNode_persist hp2 hfn)).2 s3 h3).1
      exact ih.methS t rest s3
        (tyNode_persist hp3 (tyNode_persist hp2 ht1))

theorem step_typIfaceFold {inp : PkgIn} {fuel : Nat}
    (ih : WalkP inp fuel) : ∀ t ms s, tyNode t s →
    SAFE inp s (typIfaceFold inp (fuel+1) t ms s) := by
  intro t ms
  cases ms with
  | nil => intro s ht; exact safe_ok_self inp s
  | cons m rest =>
    intro s ht
    rw [typIfaceFold]
    have hx1 := seeAndUse_safe inp (.funcO m) (some (.typeO t))
      "interface method" s (byOK_ty ht)
    refine safe_bind hx1 ?_
    intro s2 h2
    have hp2 := (hx1.2 s2 h2).1
    have hx2 : SAFE inp s2 (seeAndUse inp (.typeO m.2) (some (.funcO m))
        "signature" s2) := by
      by_cases hpkg : pkgFiltered inp (.funcO m) = true
      · exact seeAndUse_safe inp _ _ _ s2 (Or.inl hpkg)
      · refine seeAndUse_safe inp _ _ _ s2 (Or.inr ?_)
        exact (use_walkPost inp (.funcO m) _ _ _ s2 (by
          unfold seeAndUse at h2; exact h2)).1 _
          (see_creates_gen inp (.funcO m) s rfl
            (Bool.not_eq_true _ ▸ hpkg))
    refine safe_bind hx2 ?_
    intro s3 h3
    have hp3 := (hx2.2 s3 h3).1
    have hx3 : SAFE inp s3 (signatureM inp fuel m.2 s3) := by
      refine ih.sigS m.2 s3 ?_
      intro hrel
      exact seeAndUse_creates inp (.typeO m.2) _ _ s2 s3 h3 hrel rfl
    refine safe_bind hx3 ?_
    intro s4 h4
    have hp4 := (hx3.2 s4 h4).1
    exact ih.ifaceS t rest s4 (tyNode_persist hp4
      (tyNode_persist hp3 (tyNode_persist hp2 ht)))

theorem step_typTupleFold {inp : PkgIn} {fuel : Nat}
    (ih : WalkP inp fuel) : ∀ t es s, tyNode t s →
    SAFE inp s (typTupleFold inp (fuel+1) t es s) := by
  intro t es
  cases es with
  | nil => intro s ht; exact safe_ok_self inp s
  | cons f rest =>
    intro s ht
    rw [typTupleFold]
    have hx1 := seeAndUse_safe inp (.varO f) (some (.typeO t))
      "tuple element" s (byOK_ty ht)
    refine safe_bind hx1 ?_
    intro s2 h2
    have hp2 := (hx1.2 s2 h2).1
    have hx2 : SAFE inp s2 (variableW inp fuel f s2) := by
      refine ih.varS f s2 ?_
      intro hirr hpkg
      exact seeAndUse_creates inp (.varO f) _ _ s s2 h2 hirr hpkg
    refine safe_bind hx2 ?_
    intro s3 h3
    have hp3 := (hx2.2 s3 h3).1
    exact ih.tupleS t rest s3 (tyNode_persist hp3 (tyNode_persist hp2 ht))

theorem irrO_varO_false_of_ty {inp : PkgIn} {v : GoVar}
    (h : isIrrelevantT inp.namedEnv inp.irrFuel v.2 = false) :
    irrO inp (.varO v) = false := by
  show (!v.1.isField && isIrrelevantT inp.namedEnv inp.irrFuel v.2) = false
  rw [h, Bool.and_false]

theorem step_variableW {inp : PkgIn} {fuel : Nat}
    (ih : WalkP inp fuel) : ∀ v s, varNode inp v s →
    SAFE inp s (variableW inp (fuel+1) v s) := by
  intro v s hv
  rw [variableW]
  have hx1 : SAFE inp s (seeAndUse inp (.typeO v.2) (some (.varO v))
      "variable type" s) := by
    by_cases hirr : irrO inp (.typeO v.2) = true
    · exact seeAndUse_safe_usedIrr inp _ _ _ s hirr
    · have hrel : isIrrelevantT inp.namedEnv inp.irrFuel v.2 = false :=
        Bool.not_eq_true _ ▸ hirr
      by_cases hpkg : pkgFiltered inp (.varO v) = true
      · exact seeAndUse_safe inp _ _ _ s (Or.inl hpkg)
      · exact seeAndUse_safe inp _ _ _ s (Or.inr
          (hv (irrO_varO_false_of_ty hrel) (Bool.not_eq_true _ ▸ hpkg)))
  refine safe_bind hx1 ?_
  intro s2 h2
  exact ih.typS v.2 s2


theorem sig_recv_relevant (env : List (Nat × NamedInfo)) (fl : Nat)
    (rv : GoVar) (ps rs : List GoVar) :
    isIrrelevantT env fl (.sig (some rv) ps rs) = false := by
  cases fl with
  | zero => rfl
  | succ m => rfl

theorem step_sigVarsFold {inp : PkgIn} {fuel : Nat}
    (ih : WalkP inp fuel) : ∀ sigT reason vs s,
    (∀ f ∈ vs, irrO inp (.varO f) = false →
      pkgFiltered inp (.varO f) = false →
      (nodeMaybe s (.typeO sigT)).isSome = true) →
    SAFE inp s (sigVarsFold inp (fuel+1) sigT reason vs s) := by
  intro sigT reason vs
  cases vs with
  | nil => intro s hvs; exact safe_ok_self inp s
  | cons f rest =>
    intro s hvs
    rw [sigVarsFold]
    have hx1 : SAFE inp s (seeAndUse inp (.varO f) (some (.typeO sigT))
        reason s) := by
      by_cases hirr : irrO inp (.varO f) = true
      · exact seeAndUse_safe_usedIrr inp _ _ _ s hirr
      by_cases hpkg : pkgFiltered inp (.varO f) = true
      · exact seeAndUse_safe_usedPkg inp _ _ _ s hpkg
      · exact seeAndUse_safe inp _ _ _ s (Or.inr
          (hvs f (List.mem_cons_self f rest) (Bool.not_eq_true _ ▸ hirr)
            (Bool.not_eq_true _ ▸ hpkg)))
    refine safe_bind hx1 ?_
    intro s2 h2
    have hp2 := (hx1.2 s2 h2).1
    have hx2 : SAFE inp s2 (variableW inp fuel f s2) := by
      refine ih.varS f s2 ?_
      intro hirr hpkg
      exact seeAndUse_creates inp (.varO f) _ _ s s2 h2 hirr hpkg
    refine safe_bind hx2 ?_
    intro s3 h3
    have hp3 := (hx2.2 s3 h3).1
    refine ih.sigVarsS sigT reason rest s3 ?_
    intro f2 hf2 hirr2 hpkg2
    exact hp3 _ (hp2 _ (hvs f2 (List.mem_cons_of_mem f hf2) hirr2 hpkg2))

theorem step_signatureM {inp : PkgIn} {fuel : Nat}
    (ih : WalkP inp fuel) : ∀ sigT s, sigNode inp sigT s →
    SAFE inp s (signatureM inp (fuel+1) sigT s) := by
  intro sigT s hsig
  cases sigT with
  | sig recv params results =>
    have hparams : ∀ s2, nodesPersist s s2 →
        ∀ f, f ∈ params ∨ f ∈ results → irrO inp (.varO f) = false →
        pkgFiltered inp (.varO f) = false →
        (nodeMaybe s2 (.typeO (.sig recv params results))).isSome = true :=
      by
      intro s2 hper f hf hirr hpkg
      refine hper _ (hsig ?_)
      by_cases hrel : isIrrelevantT inp.namedEnv inp.irrFuel
          (.sig recv params results) = true
      · have h5 := sig_irr_vars inp.namedEnv inp.irrFuel recv params
          results hrel f hf
        rw [show irrO inp (.varO f) =
          isIrrelevantV inp.namedEnv inp.irrFuel f from rfl] at hirr
        rw [h5] at hirr
        cases hirr
      · exact Bool.not_eq_true _ ▸ hrel
    have hrest : ∀ s2, nodesPersist s s2 →
        SAFE inp s2 (do
          let s3 ← sigVarsFold inp fuel (.sig recv params results)
            "function argument" params s2
          sigVarsFold inp fuel (.sig recv params results)
            "function result" results s3) := by
      intro s2 hper
      have hx2 : SAFE inp s2 (sigVarsFold inp fuel
          (.sig recv params results) "function argument" params s2) := by
        refine ih.sigVarsS _ _ params s2 ?_
        intro f hf hirr hpkg
        exact hparams s2 hper f (Or.inl hf) hirr hpkg
      refine safe_bind hx2 ?_
      intro s3 h3
      have hp3 := (hx2.2 s3 h3).1
      refine ih.sigVarsS _ _ results s3 ?_
      intro f hf hirr hpkg
      exact hparams s3 (nodesPersist_trans hper hp3) f (Or.inr hf) hirr
        hpkg
    cases recv with
    | none => exact hrest s (nodesPersist_refl s)
    | some rv =>
      show SAFE inp s (do
        let s2 ← (do
          let s3 ← seeAndUse inp (.varO rv)
            (some (.typeO (.sig (some rv) params results))) "receiver" s
          variableW inp fuel rv s3)
        (do
          let s4 ← sigVarsFold inp fuel (.sig (some rv) params results)
            "function argument" params s2
          sigVarsFold inp fuel (.sig (some rv) params results)
            "function result" results s4))
      have hxa : SAFE inp s (seeAndUse inp (.varO rv) (some
          (.typeO (.sig (some rv) params results))) "receiver" s) := by
        by_cases hirr : irrO inp (.varO rv) = true
        · exact seeAndUse_safe_usedIrr inp _ _ _ s hirr
        by_cases hpkg : pkgFiltered inp (.varO rv) = true
        · exact seeAndUse_safe_usedPkg inp _ _ _ s hpkg
        · exact seeAndUse_safe inp _ _ _ s (Or.inr
            (hsig (sig_recv_relevant inp.namedEnv inp.irrFuel rv params
              results)))
      have hxr : SAFE inp s (do
          let s3 ← seeAndUse inp (.varO rv)
            (some (.typeO (.sig (some rv) params results))) "receiver" s
          variableW inp fuel rv s3) := by
        refine safe_bind hxa ?_
        intro s3 h3
        refine ih.varS rv s3 ?_
        intro hirr hpkg
        exact seeAndUse_creates inp (.varO rv) _ _ s s3 h3 hirr hpkg
      refine safe_bind hxr ?_
      intro s2 h2
      exact hrest s2 ((hxr.2 s2 h2).1)
  | named n => exact safe_ok_self inp s
  | basic b => exact safe_ok_self inp s
  | strct flds => exact safe_ok_self inp s
  | ptr e => exact safe_ok_self inp s
  | slice e => exact safe_ok_self inp s
  | array e => exact safe_ok_self inp s
  | chanT e => exact safe_ok_self inp s
  | mapT k e => exact safe_ok_self inp s
  | iface ms => exact safe_ok_self inp s
  | tuple es => exact safe_ok_self inp s


theorem step_functionM {inp : PkgIn} {fuel : Nat}
    (ih : WalkP inp fuel) : ∀ fid s, fnNode fid s →
    SAFE inp s (functionM inp (fuel+1) fid s) := by
  intro fid s hf
  rw [functionM]
  have hx1 := seeAndUse_safe inp (.typeO (fnGet inp fid).sigT)
    (some (.ssaFnO (some fid))) "function signature" s (byOK_fn hf)
  refine safe_bind hx1 ?_
  intro s2 h2
  have hp2 := (hx1.2 s2 h2).1
  have hx2 : SAFE inp s2 (signatureM inp fuel (fnGet inp fid).sigT s2) := by
    refine ih.sigS _ s2 ?_
    intro hrel
    exact seeAndUse_creates inp _ _ _ s s2 h2 hrel rfl
  refine safe_bind hx2 ?_
  intro s3 h3
  have hp3 := (hx2.2 s3 h3).1
  have hx3 := ih.instrsS fid s3
    (fnNode_persist hp3 (fnNode_persist hp2 hf))
  refine safe_bind hx3 ?_
  intro s4 h4
  have hp4 := (hx3.2 s4 h4).1
  exact ih.anonS fid (fnGet inp fid).anonFns s4 (fnNode_persist hp4
    (fnNode_persist hp3 (fnNode_persist hp2 hf)))

theorem step_anonFold {inp : PkgIn} {fuel : Nat}
    (ih : WalkP inp fuel) : ∀ fid anons s, fnNode fid s →
    SAFE inp s (anonFold inp (fuel+1) fid anons s) := by
  intro fid anons
  cases anons with
  | nil => intro s hf; exact safe_ok_self inp s
  | cons a rest =>
    intro s hf
    rw [anonFold]
    have hx1 := seeAndUse_safe inp (.ssaFnO (some a))
      (some (.ssaFnO (some fid))) "anonymous function" s (byOK_fn hf)
    refine safe_bind hx1 ?_
    intro s2 h2
    have hp2 := (hx1.2 s2 h2).1
    have hx2 := ih.funS a s2
      (seeAndUse_creates inp (.ssaFnO (some a)) _ _ s s2 h2 rfl rfl)
    refine safe_bind hx2 ?_
    intro s3 h3
    have hp3 := (hx2.2 s3 h3).1
    exact ih.anonS fid rest s3
      (fnNode_persist hp3 (fnNode_persist hp2 hf))

theorem lookup_mem2 {α β : Type} [DecidableEq α] (l : List (α × β))
    (k : α) (v : β) (h : l.lookup k = some v) : (k, v) ∈ l := by
  induction l with
  | nil => cases h
  | cons kv rest ih =>
    obtain ⟨a, b⟩ := kv
    by_cases hk : k = a
    · subst hk
      simp [List.lookup] at h
      simp [h]
    · have hne : (k == a) = false := by simp [hk]
      simp only [List.lookup, hne] at h
      simp [ih h]

theorem convWF_blocks {inp : PkgIn} (hW : convWF inp = true) (fid : Nat) :
    ∀ b ∈ (fnGet inp fid).blocks, ∀ i ∈ b, convOkInstr inp i = true := by
  rw [fnGet]
  cases hl : inp.fnEnv.lookup fid with
  | none =>
    intro b hb
    simp [defaultSsaFn] at hb
  | some fn =>
    rw [convWF, List.all_eq_true] at hW
    have h2 := hW (fid, fn) (lookup_mem2 _ _ _ hl)
    rw [List.all_eq_true] at h2
    intro b hb i hi
    have h3 := h2 b hb
    rw [List.all_eq_true] at h3
    exact h3 i hi

theorem step_instructionsM {inp : PkgIn} {fuel : Nat}
    (hW : convWF inp = true)
    (ih : WalkP inp fuel) : ∀ fid s, fnNode fid s →
    SAFE inp s (instructionsM inp (fuel+1) fid s) := by
  intro fid s hf
  rw [instructionsM]
  split
  · exact safe_ok_self inp s
  · refine safe_pre (walkPost_of_seen_eq (fun o h => h) rfl) ?_
    exact ih.blocksS fid (fnGet inp fid).blocks _ hf (convWF_blocks hW fid)

theorem step_blocksFold {inp : PkgIn} {fuel : Nat}
    (ih : WalkP inp fuel) : ∀ fid bs s, fnNode fid s →
    (∀ b ∈ bs, ∀ i ∈ b, convOkInstr inp i = true) →
    SAFE inp s (blocksFold inp (fuel+1) fid bs s) := by
  intro fid bs
  cases bs with
  | nil => intro s hf hok; exact safe_ok_self inp s
  | cons b rest =>
    intro s hf hok
    rw [blocksFold]
    have hx1 := ih.instrFoldS fid b s hf
      (hok b (List.mem_cons_self b rest))
    refine safe_bind hx1 ?_
    intro s2 h2
    exact ih.blocksS fid rest s2 (fnNode_persist ((hx1.2 s2 h2).1) hf)
      (fun b2 hb2 => hok b2 (List.mem_cons_of_mem b hb2))

theorem step_instrFold {inp : PkgIn} {fuel : Nat}
    (ih : WalkP inp fuel) : ∀ fid is2 s, fnNode fid s →
    (∀ i ∈ is2, convOkInstr inp i = true) →
    SAFE inp s (instrFold inp (fuel+1) fid is2 s) := by
  intro fid is2
  cases is2 with
  | nil => intro s hf hok; exact safe_ok_self inp s
  | cons i rest =>
    intro s hf hok
    rw [instrFold]
    have hx1 := ih.instrS fid i s hf (hok i (List.mem_cons_self i rest))
    refine safe_bind hx1 ?_
    intro s2 h2
    exact ih.instrFoldS fid rest s2 (fnNode_persist ((hx1.2 s2 h2).1) hf)
      (fun i2 hi2 => hok i2 (List.mem_cons_of_mem i hi2))

theorem step_useCallFold {inp : PkgIn} {fuel : Nat}
    (ih : WalkP inp fuel) : ∀ fid seenL vs s, fnNode fid s →
    SAFEP inp s (useCallFold inp (fuel+1) fid seenL vs s) := by
  intro fid seenL vs
  cases vs with
  | nil => intro s hf; exact safep_ok (walkPost_refl inp s)
  | cons v rest =>
    intro s hf
    rw [useCallFold]
    have hx1 := ih.useCallS fid seenL v s hf
    refine safep_bind hx1 ?_
    intro p hp
    exact ih.useCallFoldS fid p.1 rest p.2
      (fnNode_persist ((hx1.2 p hp).1) hf)

theorem step_useCall {inp : PkgIn} {fuel : Nat}
    (ih : WalkP inp fuel) : ∀ fid seenL v s, fnNode fid s →
    SAFEP inp s (useCall inp (fuel+1) fid seenL v s) := by
  intro fid seenL v s hf
  rw [useCall]
  split
  · exact safep_ok (walkPost_refl inp s)
  cases v with
  | fnV f =>
    have hx1 := seeAndUse_safe inp (.ssaFnO (some f))
      (some (.ssaFnO (some fid))) "function call" s (byOK_fn hf)
    refine safe_bind_safep hx1 ?_
    intro s2 h2
    have hp2 := (hx1.2 s2 h2).1
    have hff : fnNode f s2 :=
      seeAndUse_creates inp (.ssaFnO (some f)) _ _ s s2 h2 rfl rfl
    cases (fnGet inp f).objO with
    | some fo =>
      simp only
      split
      · have hx2 := ih.instrsS f s2 hff
        refine safe_bind_safep hx2 ?_
        intro s3 h3
        exact safep_ok (walkPost_refl inp s3)
      · exact safep_ok (walkPost_refl inp s2)
    | none => exact safep_ok (walkPost_refl inp s2)
  | closureV inner => exact ih.useCallS fid _ inner s hf
  | builtinV => exact safep_ok (walkPost_refl inp s)
  | phiV edges => exact ih.useCallFoldS fid _ edges s hf
  | otherV => exact safep_ok (walkPost_refl inp s)


theorem irrO_varO_field {inp : PkgIn} {f : GoVar}
    (h : f.1.isField = true) : irrO inp (.varO f) = false := by
  show (!f.1.isField && isIrrelevantT inp.namedEnv inp.irrFuel f.2) = false
  rw [h]
  rfl

theorem convFieldsFold_safe (inp : PkgIn) : ∀ l1 l2 s,
    (∀ f ∈ l1, f.1.isField = true) → (∀ f ∈ l2, f.1.isField = true) →
    SAFE inp s (convFieldsFold inp l1 l2 s) := by
  intro l1
  induction l1 with
  | nil => intro l2 s h1 h2; exact safe_ok_self inp s
  | cons f1 r1 ih =>
    intro l2 s h1 h2
    cases l2 with
    | nil => exact safe_ok_self inp s
    | cons f2 r2 =>
      rw [convFieldsFold]
      refine safe_pre (see_walkPost inp (.varO f1) s) ?_
      refine safe_pre (see_walkPost inp (.varO f2)
        (see inp (.varO f1) s)) ?_
      have hb2 : byOK inp (some (.varO f2))
          (see inp (.varO f2) (see inp (.varO f1) s)) := by
        by_cases hpkg : pkgFiltered inp (.varO f2) = true
        · exact Or.inl hpkg
        · exact Or.inr (see_creates_gen inp (.varO f2) _
            (irrO_varO_field (h2 f2 (List.mem_cons_self f2 r2)))
            (Bool.not_eq_true _ ▸ hpkg))
      have hx1 := seeAndUse_safe inp (.varO f1) (some (.varO f2))
        "struct conversion" _ hb2
      refine safe_bind hx1 ?_
      intro s2 hs2
      have hp2 := (hx1.2 s2 hs2).1
      have hb1 : byOK inp (some (.varO f1)) s2 := by
        by_cases hpkg : pkgFiltered inp (.varO f1) = true
        · exact Or.inl hpkg
        · refine Or.inr (hp2 _ ?_)
          exact see_persist inp (.varO f2) _ _
            (see_creates_gen inp (.varO f1) s
              (irrO_varO_field (h1 f1 (List.mem_cons_self f1 r1)))
              (Bool.not_eq_true _ ▸ hpkg))
      have hx2 := seeAndUse_safe inp (.varO f2) (some (.varO f1))
        "struct conversion" s2 hb1
      refine safe_bind hx2 ?_
      intro s3 hs3
      exact ih r2 s3 (fun f hfm => h1 f (List.mem_cons_of_mem f1 hfm))
        (fun f hfm => h2 f (List.mem_cons_of_mem f2 hfm))

theorem unsafeFold_safe (inp : PkgIn) (fid : Nat) : ∀ flds s,
    fnNode fid s → SAFE inp s (unsafeFold inp fid flds s) := by
  intro flds
  induction flds with
  | nil => intro s hf; exact safe_ok_self inp s
  | cons f rest ih =>
    intro s hf
    rw [unsafeFold]
    have hx1 := seeAndUse_safe inp (.varO f) (some (.ssaFnO (some fid)))
      "unsafe conversion" s (byOK_fn hf)
    refine safe_bind hx1 ?_
    intro s2 h2
    exact ih s2 (fnNode_persist ((hx1.2 s2 h2).1) hf)


theorem instr_prelude_safe {inp : PkgIn} {fuel : Nat} (ih : WalkP inp fuel)
    (fid : Nat) (vty : GoType) (s : GState) (hf : fnNode fid s) :
    SAFE inp s (do
      let s2 ← seeAndUse inp (.typeO vty) (some (.ssaFnO (some fid)))
        "instruction" s
      typ inp fuel vty s2) := by
  refine safe_bind (seeAndUse_safe inp _ _ _ s (byOK_fn hf)) ?_
  intro s2 h2
  exact ih.typS vty s2

theorem step_instrW {inp : PkgIn} {fuel : Nat}
    (ih : WalkP inp fuel) : ∀ fid ins s, fnNode fid s →
    convOkInstr inp ins = true →
    SAFE inp s (instrW inp (fuel+1) fid ins s) := by
  intro fid ins s hf hok
  cases ins with
  | field vty xTy idx =>
    refine safe_bind (instr_prelude_safe ih fid vty s hf) ?_
    intro s2 h2
    have hf2 := fnNode_persist
      ((instr_prelude_safe ih fid vty s hf).2 s2 h2).1 hf
    have hgoal : SAFE inp s2 (match underlyingT inp.namedEnv xTy with
      | GoType.strct flds =>
        (match flds.get? idx with
        | some f => seeAndUse inp (Obj.varO f)
            (some (Obj.ssaFnO (some fid))) "field access" s2
        | none => Except.error AErr.nilPanic)
      | _ => Except.error AErr.nilPanic) := by
      cases underlyingT inp.namedEnv xTy
      case strct flds =>
        show SAFE inp s2 (match flds.get? idx with
          | some f => seeAndUse inp (Obj.varO f)
              (some (Obj.ssaFnO (some fid))) "field access" s2
          | none => Except.error AErr.nilPanic)
        cases flds.get? idx
        case some f =>
          exact seeAndUse_safe inp (.varO f)
            (some (.ssaFnO (some fid))) "field access" s2 (byOK_fn hf2)
        case none =>
          exact safe_err (by decide)
      all_goals exact safe_err (by decide)
    exact hgoal
  | fieldAddr vty xTy idx =>
    refine safe_bind (instr_prelude_safe ih fid vty s hf) ?_
    intro s2 h2
    have hf2 := fnNode_persist
      ((instr_prelude_safe ih fid vty s hf).2 s2 h2).1 hf
    have hgoal : SAFE inp s2 (match underlyingT inp.namedEnv
        (derefT inp.namedEnv xTy) with
      | GoType.strct flds =>
        (match flds.get? idx with
        | some f => seeAndUse inp (Obj.varO f)
            (some (Obj.ssaFnO (some fid))) "field access" s2
        | none => Except.error AErr.nilPanic)
      | _ => Except.error AErr.nilPanic) := by
      cases underlyingT inp.namedEnv (derefT inp.namedEnv xTy)
      case strct flds =>
        show SAFE inp s2 (match flds.get? idx with
          | some f => seeAndUse inp (Obj.varO f)
              (some (Obj.ssaFnO (some fid))) "field access" s2
          | none => Except.error AErr.nilPanic)
        cases flds.get? idx
        case some f =>
          exact seeAndUse_safe inp (.varO f)
            (some (.ssaFnO (some fid))) "field access" s2 (byOK_fn hf2)
        case none =>
          exact safe_err (by decide)
      all_goals exact safe_err (by decide)
    exact hgoal
  | staticCall vty callee =>
    refine safe_bind (instr_prelude_safe ih fid vty s hf) ?_
    intro s2 h2
    have hf2 := fnNode_persist
      ((instr_prelude_safe ih fid vty s hf).2 s2 h2).1 hf
    refine safep_bind_safe (ih.useCallS fid [] callee s2 hf2) ?_
    intro p hp
    exact safe_ok (walkPost_refl inp p.2)
  | invokeCall vty m =>
    refine safe_bind (instr_prelude_safe ih fid vty s hf) ?_
    intro s2 h2
    have hf2 := fnNode_persist
      ((instr_prelude_safe ih fid vty s hf).2 s2 h2).1 hf
    exact seeAndUse_safe inp (.funcO m) (some (.ssaFnO (some fid)))
      "interface call" s2 (byOK_fn hf2)
  | ret results =>
    refine safep_bind_safe
      ((handleReturn_safe inp fid fuel).2 [] results s hf) ?_
    intro p hp
    exact safe_ok (walkPost_refl inp p.2)
  | changeType vty xTy =>
    refine safe_bind (instr_prelude_safe ih fid vty s hf) ?_
    intro s2 h2
    have hf2 := fnNode_persist
      ((instr_prelude_safe ih fid vty s hf).2 s2 h2).1 hf
    have hx1 := seeAndUse_safe inp (.typeO vty)
      (some (.ssaFnO (some fid))) "conversion" s2 (byOK_fn hf2)
    refine safe_bind hx1 ?_
    intro s3 h3
    refine safe_bind (ih.typS vty s3) ?_
    intro s4 h4
    have hgoal : SAFE inp s4 (match underlyingT inp.namedEnv
        (derefT inp.namedEnv vty), underlyingT inp.namedEnv
        (derefT inp.namedEnv xTy) with
      | GoType.strct flds1, GoType.strct flds2 =>
        if flds1.length ≠ flds2.length then
          Except.error AErr.numFieldsAssert
        else convFieldsFold inp flds1 flds2 s4
      | _, _ => Except.ok s4) := by
      cases hu1 : underlyingT inp.namedEnv (derefT inp.namedEnv vty)
      case strct flds1 =>
        cases hu2 : underlyingT inp.namedEnv (derefT inp.namedEnv xTy)
        case strct flds2 =>
          show SAFE inp s4 (if flds1.length ≠ flds2.length then
              Except.error AErr.numFieldsAssert
            else convFieldsFold inp flds1 flds2 s4)
          by_cases hlen : flds1.length ≠ flds2.length
          · rw [if_pos hlen]
            exact safe_err (show AErr.numFieldsAssert ≠ AErr.useNewNode
              from by decide)
          · rw [if_neg hlen]
            rw [convOkInstr, hu1, hu2, Bool.and_eq_true] at hok
            obtain ⟨hok1, hok2⟩ := hok
            rw [List.all_eq_true] at hok1 hok2
            refine convFieldsFold_safe inp flds1 flds2 s4 ?_ ?_
            · intro f hfm
              simpa using hok1 f hfm
            · intro f hfm
              simpa using hok2 f hfm
        all_goals exact safe_ok_self inp s4
      all_goals exact safe_ok_self inp s4
    exact hgoal
  | convert vty xTy =>
    refine safe_bind (instr_prelude_safe ih fid vty s hf) ?_
    intro s2 h2
    have hf2 := fnNode_persist
      ((instr_prelude_safe ih fid vty s hf).2 s2 h2).1 hf
    clear hok h2
    have hx1 : SAFE inp s2 (match vty, underlyingT inp.namedEnv xTy with
      | .basic true, .ptr pe =>
        (match underlyingT inp.namedEnv pe with
        | .strct flds => unsafeFold inp fid flds s2
        | _ => .ok s2)
      | _, _ => .ok s2) := by
      split
      · split
        · exact unsafeFold_safe inp fid _ s2 hf2
        · exact safe_ok_self inp s2
      · exact safe_ok_self inp s2
    refine safe_bind hx1 ?_
    intro s3 h3
    have hf3 := fnNode_persist ((hx1.2 s3 h3).1) hf2
    split
    · split
      · exact unsafeFold_safe inp fid _ s3 hf3
      · exact safe_ok_self inp s3
    · exact safe_ok_self inp s3
  | typeAssert vty asserted =>
    refine safe_bind (instr_prelude_safe ih fid vty s hf) ?_
    intro s2 h2
    have hf2 := fnNode_persist
      ((instr_prelude_safe ih fid vty s hf).2 s2 h2).1 hf
    have hx1 := seeAndUse_safe inp (.typeO asserted)
      (some (.ssaFnO (some fid))) "type assert" s2 (byOK_fn hf2)
    refine safe_bind hx1 ?_
    intro s3 h3
    exact ih.typS asserted s3
  | makeClosure vty fnRef =>
    refine safe_bind (instr_prelude_safe ih fid vty s hf) ?_
    intro s2 h2
    have hf2 := fnNode_persist
      ((instr_prelude_safe ih fid vty s hf).2 s2 h2).1 hf
    have hx1 := seeAndUse_safe inp (.ssaFnO (some fnRef))
      (some (.ssaFnO (some fid))) "make closure" s2 (byOK_fn hf2)
    refine safe_bind hx1 ?_
    intro s3 h3
    have hfr : fnNode fnRef s3 :=
      seeAndUse_creates inp (.ssaFnO (some fnRef)) _ _ s2 s3 h3 rfl rfl
    cases (fnGet inp fnRef).objO with
    | some fo =>
      simp only
      split
      · exact ih.instrsS fnRef s3 hfr
      · exact safe_ok_self inp s3
    | none => exact safe_ok_self inp s3
  | rangeV vty => exact safe_ok_self inp s
  | otherVal vty =>
    refine safe_bind (instr_prelude_safe ih fid vty s hf) ?_
    intro s2 h2
    exact safe_ok_self inp s2
  | otherNonVal => exact safe_ok_self inp s

/-- The kind dispatch of `typ` (the `switch` of unused.go:672-788), split
out of the memoization prelude for the proofs. -/
def typBody (inp : PkgIn) (fuel : Nat) (t : GoType) (s : GState) :
    Except AErr GState :=
  match t with
  | .strct flds => typStructFold inp fuel t flds s
  | .basic _ => .ok s
  | .named nid => do
    let info := namedGet inp.namedEnv nid
    let s ← seeAndUse inp (.typeO info.underlying) (some (.typeO t))
      "underlying type" s
    let s ← seeAndUse inp (.typeNameO info.tobj) (some (.typeO t))
      "type name" s
    let s ← seeAndUse inp (.typeO t) (some (.typeNameO info.tobj))
      "named type" s
    let s ← typMethodsFold inp fuel t info.methods s
    typ inp fuel info.underlying s
  | .slice e => do
    let s ← seeAndUse inp (.typeO e) (some (.typeO t)) "element type" s
    typ inp fuel e s
  | .mapT k e => do
    let s ← seeAndUse inp (.typeO e) (some (.typeO t)) "element type" s
    let s ← seeAndUse inp (.typeO k) (some (.typeO t)) "key type" s
    let s ← typ inp fuel e s
    typ inp fuel k s
  | .sig r p q => signatureM inp fuel (.sig r p q) s
  | .iface ms => typIfaceFold inp fuel t ms s
  | .array e => do
    let s ← seeAndUse inp (.typeO e) (some (.typeO t)) "element type" s
    typ inp fuel e s
  | .ptr e => do
    let s ← seeAndUse inp (.typeO e) (some (.typeO t)) "element type" s
    typ inp fuel e s
  | .chanT e => do
    let s ← seeAndUse inp (.typeO e) (some (.typeO t)) "element type" s
    typ inp fuel e s
  | .tuple es => typTupleFold inp fuel t es s

/-- One unfolding of `typ` at positive fuel. -/
theorem typ_succ (inp : PkgIn) (fuel : Nat) (t : GoType) (s : GState) :
    typ inp (fuel+1) t s =
      if s.seenTypesL.contains t then .ok s
      else if foreignNamed inp t then .ok s
      else if isIrrelevantT inp.namedEnv inp.irrFuel t then
        .ok { s with seenTypesL := t :: s.seenTypesL }
      else
        typBody inp fuel t
          (see inp (.typeO t) { s with seenTypesL := t :: s.seenTypesL }) := by
  cases t <;> rfl

theorem bind_ok {α β : Type} {x : Except AErr α} {f : α → Except AErr β}
    {b : β} (h : (x >>= f) = .ok b) : ∃ a, x = .ok a ∧ f a = .ok b := by
  cases x with
  | error e => exact (nomatch h)
  | ok a => exact ⟨a, rfl, h⟩

/-- Struct types are never irrelevant (the `isIrrelevant` switch has no
struct case, so structs fall to the relevant default). -/
theorem strct_relevant (env : List (Nat × NamedInfo)) (fl : Nat)
    (flds : List GoVar) : isIrrelevantT env fl (.strct flds) = false := by
  cases fl with
  | zero => rfl
  | succ fl => rfl

/-- An irrelevant type never dereferences to a type with struct
underlying: the filter dereferences first, and neither a struct nor a
named type is irrelevant. -/
theorem irr_no_strct (env : List (Nat × NamedInfo)) (fl : Nat) (t : GoType)
    (flds : List GoVar) (h : isIrrelevantT env fl t = true)
    (he : underlyingT env (derefT env t) = .strct flds) : False := by
  cases fl with
  | zero => exact (nomatch h)
  | succ fl =>
    rw [isIrrelevantT] at h
    cases hd : derefT env t <;> rw [hd] at h he
    case named nid => exact (nomatch h)
    case strct f2 => exact (nomatch h)
    case mapT k e => exact (nomatch h)
    case ptr e => exact (nomatch h)
    case chanT e => exact (nomatch h)
    all_goals exact (nomatch he)

/-- Memoizing a relevant type and giving it its node preserves the
struct-node invariant. -/
theorem strNode_insert_see {inp : PkgIn} {t : GoType} {s : GState}
    (hrel : isIrrelevantT inp.namedEnv inp.irrFuel t = false)
    (hS : strNode s) :
    strNode (see inp (.typeO t)
      { s with seenTypesL := t :: s.seenTypesL }) := by
  intro flds hf
  have hf2 : (GoType.strct flds) ∈ t :: s.seenTypesL := by
    rw [see_seen] at hf
    exact hf
  cases List.mem_cons.mp hf2 with
  | inl he =>
    rw [he]
    exact see_creates_gen inp (.typeO t) _ hrel rfl
  | inr hm =>
    exact see_persist inp (.typeO t) _ _ (hS flds hm)

/-- Chasing the struct clause of a type `e` with struct underlying that is
memoized at the end of a walk step that started right after `t` was
memoized. -/
theorem elemSeen_chase {inp : PkgIn} {s s2 : GState} {t e : GoType}
    {flds : List GoVar}
    (hS : strNode (see inp (.typeO t)
      { s with seenTypesL := t :: s.seenTypesL }))
    (hw : walkPost inp (see inp (.typeO t)
      { s with seenTypesL := t :: s.seenTypesL }) s2)
    (hue : underlyingT inp.namedEnv e = .strct flds)
    (hmem : e ∈ s2.seenTypesL)
    (het : e = t → False)
    (hst : (GoType.strct flds) = t → False) :
    ((nodeMaybe s2 (.typeO (.strct flds))).isSome = true ∧
      (GoType.strct flds) ∈ s2.seenTypesL) ∨
    foreignNamed inp e = true ∨ e ∈ s.seenTypesL := by
  have hseen : (see inp (.typeO t)
      { s with seenTypesL := t :: s.seenTypesL }).seenTypesL =
      t :: s.seenTypesL := see_seen inp (.typeO t) _
  by_cases hes : e ∈ (see inp (.typeO t)
      { s with seenTypesL := t :: s.seenTypesL }).seenTypesL
  · rw [hseen] at hes
    cases List.mem_cons.mp hes with
    | inl he => exact absurd he het
    | inr hm => exact Or.inr (Or.inr hm)
  · obtain ⟨_, _, hu, _⟩ := hw.2.2.2 hS e hmem hes
    have hde : derefT inp.namedEnv e = e := by rw [derefT, hue]
    have h2 : underlyingT inp.namedEnv (derefT inp.namedEnv e) =
        .strct flds := by rw [hde]; exact hue
    rcases hu flds h2 with h3 | h3 | h3 | h3
    · exact Or.inl h3
    · rw [hde] at h3
      exact Or.inr (Or.inl h3)
    · rw [hde] at h3
      exact absurd h3 hes
    · rw [hue, hseen] at h3
      cases List.mem_cons.mp h3 with
      | inl he2 => exact absurd he2 hst
      | inr hm =>
        refine Or.inl ⟨hw.1 _ (hS flds ?_), hw.2.1 _ ?_⟩
        · rw [hseen]
          exact List.mem_cons_of_mem t hm
        · rw [hseen]
          exact List.mem_cons_of_mem t hm

/-- Chasing the struct clause through a memoized pointer type `ptr e`
whose pointee has struct underlying. -/
theorem ptrSeen_chase {inp : PkgIn} {s s2 : GState} {t e : GoType}
    {flds : List GoVar}
    (hS : strNode (see inp (.typeO t)
      { s with seenTypesL := t :: s.seenTypesL }))
    (hw : walkPost inp (see inp (.typeO t)
      { s with seenTypesL := t :: s.seenTypesL }) s2)
    (hue : underlyingT inp.namedEnv e = .strct flds)
    (hmem : (GoType.ptr e) ∈ s2.seenTypesL)
    (het : e = t → False)
    (hpt : (GoType.ptr e) = t → False) :
    ((nodeMaybe s2 (.typeO (.strct flds))).isSome = true ∧
      (GoType.strct flds) ∈ s2.seenTypesL) ∨
    foreignNamed inp e = true ∨ e ∈ s.seenTypesL ∨
    (GoType.ptr e) ∈ s.seenTypesL := by
  have hseen : (see inp (.typeO t)
      { s with seenTypesL := t :: s.seenTypesL }).seenTypesL =
      t :: s.seenTypesL := see_seen inp (.typeO t) _
  by_cases hps : (GoType.ptr e) ∈ (see inp (.typeO t)
      { s with seenTypesL := t :: s.seenTypesL }).seenTypesL
  · rw [hseen] at hps
    cases List.mem_cons.mp hps with
    | inl he => exact absurd he hpt
    | inr hm => exact Or.inr (Or.inr (Or.inr hm))
  · obtain ⟨_, _, hu, _⟩ := hw.2.2.2 hS (.ptr e) hmem hps
    have hdp : derefT inp.namedEnv (.ptr e) = e := rfl
    have h2 : underlyingT inp.namedEnv
        (derefT inp.namedEnv (.ptr e)) = .strct flds := by
      rw [hdp]; exact hue
    rcases hu flds h2 with h3 | h3 | h3 | h3
    · exact Or.inl h3
    · rw [hdp] at h3
      exact Or.inr (Or.inl h3)
    · rw [hdp, hseen] at h3
      cases List.mem_cons.mp h3 with
      | inl he2 => exact absurd he2 het
      | inr hm => exact Or.inr (Or.inr (Or.inl hm))
    · have h3b : (GoType.ptr e) ∈ (see inp (.typeO t)
          { s with seenTypesL := t :: s.seenTypesL }).seenTypesL := h3
      exact absurd h3b hps


/-- Glue for `typ`'s working branch: once `t` is memoized and given its
node, arm safety plus the memoization clauses for `t` at the arm's final
state give safety from the original state, and `t` stays memoized. -/
theorem typ_glue {inp : PkgIn} {t : GoType} {s : GState}
    {X : Except AErr GState}
    (hts : t ∉ s.seenTypesL)
    (hforeign : foreignNamed inp t = false)
    (hrel : isIrrelevantT inp.namedEnv inp.irrFuel t = false)
    (hX : SAFE inp
      (see inp (.typeO t) { s with seenTypesL := t :: s.seenTypesL }) X)
    (hclU : ∀ s2, X = .ok s2 → strNode s → ∀ flds,
      underlyingT inp.namedEnv (derefT inp.namedEnv t) = .strct flds →
      ((nodeMaybe s2 (.typeO (.strct flds))).isSome = true ∧
        (GoType.strct flds) ∈ s2.seenTypesL) ∨
      foreignNamed inp (derefT inp.namedEnv t) = true ∨
      derefT inp.namedEnv t ∈ s.seenTypesL ∨
      underlyingT inp.namedEnv t ∈ s.seenTypesL)
    (hclF : ∀ s2, X = .ok s2 → strNode s → ∀ flds, t = .strct flds →
      ∀ f ∈ flds, foreignNamed inp f.2 = true ∨ f.2 ∈ s2.seenTypesL) :
    SAFE inp s X ∧ ∀ s2, X = .ok s2 → t ∈ s2.seenTypesL := by
  have hseen : (see inp (.typeO t)
      { s with seenTypesL := t :: s.seenTypesL }).seenTypesL =
      t :: s.seenTypesL := see_seen inp (.typeO t) _
  have htn : tyNode t (see inp (.typeO t)
      { s with seenTypesL := t :: s.seenTypesL }) :=
    see_creates_gen inp (.typeO t) _ hrel rfl
  have hmemt : ∀ s2, X = .ok s2 → t ∈ s2.seenTypesL := by
    intro s2 h2
    refine (hX.2 s2 h2).2.1 t ?_
    rw [hseen]
    exact List.mem_cons_self t _
  refine ⟨⟨hX.1, fun s2 h2 => ?_⟩, hmemt⟩
  have hw := hX.2 s2 h2
  have hn : nodesPersist s s2 := by
    intro o ho
    exact hw.1 o (see_persist inp (.typeO t) _ o ho)
  have hsn : seenPersist s s2 := by
    intro u hu
    refine hw.2.1 u ?_
    rw [hseen]
    exact List.mem_cons_of_mem t hu
  refine ⟨hn, hsn, fun hS => hw.2.2.1 (strNode_insert_see hrel hS), ?_⟩
  intro hS u hu2 hu0
  have hS2 := strNode_insert_see hrel hS
  by_cases hut : u = t
  · subst hut
    refine ⟨hforeign, fun _ => hw.1 _ htn, hclU s2 h2 hS, hclF s2 h2 hS⟩
  · have hu1 : u ∉ (see inp (.typeO t)
        { s with seenTypesL := t :: s.seenTypesL }).seenTypesL := by
      rw [hseen]
      intro hc
      cases List.mem_cons.mp hc with
      | inl he => exact hut he
      | inr hm => exact hu0 hm
    obtain ⟨hf, hnn, huc, hsc⟩ := hw.2.2.2 hS2 u hu2 hu1
    refine ⟨hf, hnn, ?_, hsc⟩
    intro flds hflds
    rcases huc flds hflds with h1 | h1 | h1 | h1
    · exact Or.inl h1
    · exact Or.inr (Or.inl h1)
    · rw [hseen] at h1
      cases List.mem_cons.mp h1 with
      | inl hdeq =>
        have hut2 : underlyingT inp.namedEnv t = .strct flds := by
          rw [← hdeq]
          exact hflds
        have hdt : derefT inp.namedEnv t = t := by rw [derefT, hut2]
        have hflds2 : underlyingT inp.namedEnv (derefT inp.namedEnv t) =
            .strct flds := by rw [hdt]; exact hut2
        rcases hclU s2 h2 hS flds hflds2 with h3 | h3 | h3 | h3
        · exact Or.inl h3
        · rw [hdt, hforeign] at h3
          exact (nomatch h3)
        · rw [hdt] at h3
          exact absurd h3 hts
        · rw [hut2] at h3
          exact Or.inl ⟨hn _ (hS flds h3), hsn _ h3⟩
      | inr hm => exact Or.inr (Or.inr (Or.inl hm))
    · rw [hseen] at h1
      cases List.mem_cons.mp h1 with
      | inl hueq =>
        cases hct : t with
        | ptr e =>
          rw [hct] at hueq
          have hdu : derefT inp.namedEnv u = e := by rw [derefT, hueq]
          rw [hdu] at hflds
          rw [hct] at hclU hts
          have hflds2 : underlyingT inp.namedEnv
              (derefT inp.namedEnv (.ptr e)) = .strct flds := hflds
          rw [hdu, hueq]
          rcases hclU s2 h2 hS flds hflds2 with h3 | h3 | h3 | h3
          · exact Or.inl h3
          · have h3b : foreignNamed inp e = true := h3
            exact Or.inr (Or.inl h3b)
          · have h3b : e ∈ s.seenTypesL := h3
            exact Or.inr (Or.inr (Or.inl h3b))
          · have h3b : (GoType.ptr e) ∈ s.seenTypesL := h3
            exact absurd h3b hts
        | strct flds2 =>
          rw [hct] at hueq
          have hdu : derefT inp.namedEnv u = u := by rw [derefT, hueq]
          rw [hdu] at hflds
          rw [hueq] at hflds
          injection hflds with hinj
          subst hinj
          rw [← hct] at hueq
          refine Or.inl ⟨?_, ?_⟩
          · have hnode := hw.1 _ htn
            rw [hct] at hnode
            exact hnode
          · have hm2 := hmemt s2 h2
            rw [hct] at hm2
            exact hm2
        | basic b =>
          rw [hct] at hueq
          have hdu : derefT inp.namedEnv u = u := by rw [derefT, hueq]
          rw [hdu, hueq] at hflds
          exact (nomatch hflds)
        | named m =>
          rw [hct] at hueq
          have hdu : derefT inp.namedEnv u = u := by rw [derefT, hueq]
          rw [hdu, hueq] at hflds
          exact (nomatch hflds)
        | slice e =>
          rw [hct] at hueq
          have hdu : derefT inp.namedEnv u = u := by rw [derefT, hueq]
          rw [hdu, hueq] at hflds
          exact (nomatch hflds)
        | mapT k e =>
          rw [hct] at hueq
          have hdu : derefT inp.namedEnv u = u := by rw [derefT, hueq]
          rw [hdu, hueq] at hflds
          exact (nomatch hflds)
        | sig r p q =>
          rw [hct] at hueq
          have hdu : derefT inp.namedEnv u = u := by rw [derefT, hueq]
          rw [hdu, hueq] at hflds
          exact (nomatch hflds)
        | iface ms =>
          rw [hct] at hueq
          have hdu : derefT inp.namedEnv u = u := by rw [derefT, hueq]
          rw [hdu, hueq] at hflds
          exact (nomatch hflds)
        | array e =>
          rw [hct] at hueq
          have hdu : derefT inp.namedEnv u = u := by rw [derefT, hueq]
          rw [hdu, hueq] at hflds
          exact (nomatch hflds)
        | chanT e =>
          rw [hct] at hueq
          have hdu : derefT inp.namedEnv u = u := by rw [derefT, hueq]
          rw [hdu, hueq] at hflds
          exact (nomatch hflds)
        | tuple es =>
          rw [hct] at hueq
          have hdu : derefT inp.namedEnv u = u := by rw [derefT, hueq]
          rw [hdu, hueq] at hflds
          exact (nomatch hflds)
      | inr hm => exact Or.inr (Or.inr (Or.inr hm))

theorem step_varMem {inp : PkgIn} {fuel : Nat} (ih : WalkP inp fuel) :
    ∀ v s s2, variableW inp (fuel+1) v s = .ok s2 →
      foreignNamed inp v.2 = true ∨ v.2 ∈ s2.seenTypesL := by
  intro v s s2 h
  rw [variableW] at h
  obtain ⟨s3, h3, h2⟩ := bind_ok h
  exact ih.typMem v.2 s3 s2 h2

theorem step_structMem {inp : PkgIn} {fuel : Nat} (ih : WalkP inp fuel) :
    ∀ t flds s s2, tyNode t s →
      typStructFold inp (fuel+1) t flds s = .ok s2 →
      ∀ f ∈ flds, foreignNamed inp f.2 = true ∨ f.2 ∈ s2.seenTypesL := by
  intro t flds
  cases flds with
  | nil =>
    intro s s2 ht h f hf
    exact absurd hf (List.not_mem_nil f)
  | cons f0 rest =>
    intro s s2 ht h g hg
    rw [typStructFold] at h
    obtain ⟨sB, hA, h2⟩ := bind_ok h
    obtain ⟨sC, hB, h3⟩ := bind_ok h2
    obtain ⟨sD, hC, h4⟩ := bind_ok h3
    have hw1 : walkPost inp s (see inp (.varO f0) s) :=
      see_walkPost inp (.varO f0) s
    have hwA : walkPost inp (see inp (.varO f0) s) sB := by
      split at hA
      · exact use_walkPost inp _ _ _ _ sB hA
      split at hA
      · exact use_walkPost inp _ _ _ _ sB hA
      · cases hA
        exact walkPost_refl inp _
    have hwB : walkPost inp sB sC := by
      split at hB
      · obtain ⟨sM, hM, hM2⟩ := bind_ok hB
        have hwM : walkPost inp sB sM := by
          split at hM
          · exact use_walkPost inp _ _ _ _ sM hM
          · cases hM
            exact walkPost_refl inp _
        refine walkPost_trans hwM ?_
        split at hM2
        · exact use_walkPost inp _ _ _ _ sC hM2
        · cases hM2
          exact walkPost_refl inp _
      · cases hB
        exact walkPost_refl inp _
    have hwC : walkPost inp sC sD := by
      have hvn : varNode inp f0 sC := by
        intro hirr hpkg
        exact hwB.1 _ (hwA.1 _ (see_creates_gen inp (.varO f0) s hirr hpkg))
      exact (ih.varS f0 sC hvn).2 sD hC
    have htD : tyNode t sD :=
      tyNode_persist hwC.1 (tyNode_persist hwB.1 (tyNode_persist hwA.1
        (tyNode_persist hw1.1 ht)))
    cases List.mem_cons.mp hg with
    | inl hgf =>
      subst hgf
      rcases ih.varMem g sC sD hC with hm | hm
      · exact Or.inl hm
      · exact Or.inr (((ih.structS t rest sD htD).2 s2 h4).2.1 _ hm)
    | inr hgr =>
      exact ih.structMem t rest sD s2 htD h4 g hgr


set_option maxHeartbeats 1000000 in
theorem step_typ {inp : PkgIn} {fuel : Nat} (ih : WalkP inp fuel) :
    ∀ t s, SAFE inp s (typ inp (fuel+1) t s) ∧
      (∀ s2, typ inp (fuel+1) t s = .ok s2 →
        foreignNamed inp t = true ∨ t ∈ s2.seenTypesL) := by
  intro t s
  rw [typ_succ]
  by_cases hmemo : s.seenTypesL.contains t = true
  · rw [if_pos hmemo]
    refine ⟨safe_ok_self inp s, ?_⟩
    intro s2 h2
    cases h2
    exact Or.inr (by simpa using hmemo)
  rw [if_neg hmemo]
  have hts : t ∉ s.seenTypesL := fun hc => hmemo (by simpa using hc)
  by_cases hforeign : foreignNamed inp t = true
  · rw [if_pos hforeign]
    exact ⟨safe_ok_self inp s, fun s2 h2 => Or.inl hforeign⟩
  rw [if_neg hforeign]
  have hforeignf : foreignNamed inp t = false := Bool.not_eq_true _ ▸ hforeign
  by_cases hrel : isIrrelevantT inp.namedEnv inp.irrFuel t = true
  · rw [if_pos hrel]
    constructor
    · refine safe_ok ?_
      refine ⟨fun o ho => ho, fun u hu => List.mem_cons_of_mem t hu, ?_, ?_⟩
      · intro hS flds hf
        have hf2 : (GoType.strct flds) ∈ t :: s.seenTypesL := hf
        cases List.mem_cons.mp hf2 with
        | inl he =>
          have h0 := strct_relevant inp.namedEnv inp.irrFuel flds
          rw [he] at h0
          rw [h0] at hrel
          exact (nomatch hrel)
        | inr hm => exact hS flds hm
      · intro hS u hu2 hu0
        have hu2b : u ∈ t :: s.seenTypesL := hu2
        have hut : u = t := by
          cases List.mem_cons.mp hu2b with
          | inl he => exact he
          | inr hm => exact absurd hm hu0
        subst hut
        refine ⟨hforeignf, ?_, ?_, ?_⟩
        · intro hrel2
          rw [hrel2] at hrel
          exact (nomatch hrel)
        · intro flds hflds
          exact (irr_no_strct inp.namedEnv inp.irrFuel u flds hrel hflds).elim
        · intro flds hteq f hf
          have h0 := strct_relevant inp.namedEnv inp.irrFuel flds
          rw [← hteq] at h0
          rw [h0] at hrel
          exact (nomatch hrel)
    · intro s2 h2
      cases h2
      exact Or.inr (List.mem_cons_self t _)
  rw [if_neg hrel]
  have hrelf : isIrrelevantT inp.namedEnv inp.irrFuel t = false :=
    Bool.not_eq_true _ ▸ hrel
  cases t with
  | basic b =>
    obtain ⟨hsafe, hmem⟩ := typ_glue hts hforeignf hrelf
      (safe_ok_self inp (see inp (.typeO (.basic b))
        { s with seenTypesL := (.basic b) :: s.seenTypesL }))
      (fun s2 h2 hS flds hflds => (nomatch hflds))
      (fun s2 h2 hS flds hteq => (nomatch hteq))
    exact ⟨hsafe, fun s2 h2 => Or.inr (hmem s2 h2)⟩
  | strct flds0 =>
    have htn : tyNode (.strct flds0) (see inp (.typeO (.strct flds0))
        { s with seenTypesL := (.strct flds0) :: s.seenTypesL }) :=
      see_creates_gen inp (.typeO (.strct flds0)) _ hrelf rfl
    have hX := ih.structS (.strct flds0) flds0 _ htn
    have hU : ∀ s2, typStructFold inp fuel (.strct flds0) flds0
        (see inp (.typeO (.strct flds0))
          { s with seenTypesL := (.strct flds0) :: s.seenTypesL }) =
          .ok s2 → strNode s → ∀ flds,
        underlyingT inp.namedEnv
          (derefT inp.namedEnv (.strct flds0)) = .strct flds →
        ((nodeMaybe s2 (.typeO (.strct flds))).isSome = true ∧
          (GoType.strct flds) ∈ s2.seenTypesL) ∨
        foreignNamed inp (derefT inp.namedEnv (.strct flds0)) = true ∨
        derefT inp.namedEnv (.strct flds0) ∈ s.seenTypesL ∨
        underlyingT inp.namedEnv (.strct flds0) ∈ s.seenTypesL := by
      intro s2 h2 hS flds hflds
      have hflds2 : (GoType.strct flds0) = .strct flds := hflds
      injection hflds2 with hinj
      subst hinj
      refine Or.inl ⟨(hX.2 s2 h2).1 _ htn, (hX.2 s2 h2).2.1 _ ?_⟩
      rw [see_seen]
      exact List.mem_cons_self _ _
    have hF : ∀ s2, typStructFold inp fuel (.strct flds0) flds0
        (see inp (.typeO (.strct flds0))
          { s with seenTypesL := (.strct flds0) :: s.seenTypesL }) =
          .ok s2 → strNode s → ∀ flds,
        (GoType.strct flds0) = .strct flds →
        ∀ f ∈ flds, foreignNamed inp f.2 = true ∨ f.2 ∈ s2.seenTypesL := by
      intro s2 h2 hS flds hteq f hf
      injection hteq with hinj
      subst hinj
      exact ih.structMem (.strct flds0) flds0 _ s2 htn h2 f hf
    obtain ⟨hsafe, hmem⟩ := typ_glue hts hforeignf hrelf hX hU hF
    exact ⟨hsafe, fun s2 h2 => Or.inr (hmem s2 h2)⟩
  | named nid =>
    have htn : tyNode (.named nid) (see inp (.typeO (.named nid))
        { s with seenTypesL := (.named nid) :: s.seenTypesL }) :=
      see_creates_gen inp (.typeO (.named nid)) _ hrelf rfl
    have hx1 := seeAndUse_safe inp
      (.typeO (namedGet inp.namedEnv nid).underlying)
      (some (.typeO (.named nid))) "underlying type"
      (see inp (.typeO (.named nid))
        { s with seenTypesL := (.named nid) :: s.seenTypesL })
      (byOK_ty htn)
    have hX : SAFE inp (see inp (.typeO (.named nid))
        { s with seenTypesL := (.named nid) :: s.seenTypesL })
        (typBody inp fuel (.named nid) (see inp (.typeO (.named nid))
          { s with seenTypesL := (.named nid) :: s.seenTypesL })) := by
      show SAFE inp (see inp (.typeO (.named nid))
        { s with seenTypesL := (.named nid) :: s.seenTypesL }) (do
        let s3 ← seeAndUse inp
          (.typeO (namedGet inp.namedEnv nid).underlying)
          (some (.typeO (.named nid))) "underlying type"
          (see inp (.typeO (.named nid))
            { s with seenTypesL := (.named nid) :: s.seenTypesL })
        let s4 ← seeAndUse inp (.typeNameO (namedGet inp.namedEnv nid).tobj)
          (some (.typeO (.named nid))) "type name" s3
        let s5 ← seeAndUse inp (.typeO (.named nid))
          (some (.typeNameO (namedGet inp.namedEnv nid).tobj)) "named type" s4
        let s6 ← typMethodsFold inp fuel (.named nid)
          (namedGet inp.namedEnv nid).methods s5
        typ inp fuel (namedGet inp.namedEnv nid).underlying s6)
      refine safe_bind hx1 ?_
      intro s3 h3
      have hp3 := (hx1.2 s3 h3).1
      have hx2 := seeAndUse_safe inp
        (.typeNameO (namedGet inp.namedEnv nid).tobj)
        (some (.typeO (.named nid))) "type name" s3
        (byOK_ty (tyNode_persist hp3 htn))
      refine safe_bind hx2 ?_
      intro s4 h4
      have hp4 := (hx2.2 s4 h4).1
      have hx3 : SAFE inp s4 (seeAndUse inp (.typeO (.named nid))
          (some (.typeNameO (namedGet inp.namedEnv nid).tobj))
          "named type" s4) := by
        by_cases hpkg : pkgFiltered inp
            (.typeNameO (namedGet inp.namedEnv nid).tobj) = true
        · exact seeAndUse_safe inp _ _ _ s4 (Or.inl hpkg)
        · refine seeAndUse_safe inp _ _ _ s4 (Or.inr ?_)
          exact seeAndUse_creates inp
            (.typeNameO (namedGet inp.namedEnv nid).tobj) _ _ s3 s4 h4 rfl
            (Bool.not_eq_true _ ▸ hpkg)
      refine safe_bind hx3 ?_
      intro s5 h5
      have hp5 := (hx3.2 s5 h5).1
      have hx4 := ih.methS (.named nid) (namedGet inp.namedEnv nid).methods
        s5 (tyNode_persist hp5 (tyNode_persist hp4
          (tyNode_persist hp3 htn)))
      refine safe_bind hx4 ?_
      intro s6 h6
      exact ih.typS (namedGet inp.namedEnv nid).underlying s6
    have hU : ∀ s2, typBody inp fuel (.named nid)
        (see inp (.typeO (.named nid))
          { s with seenTypesL := (.named nid) :: s.seenTypesL }) =
          .ok s2 → strNode s → ∀ flds,
        underlyingT inp.namedEnv
          (derefT inp.namedEnv (.named nid)) = .strct flds →
        ((nodeMaybe s2 (.typeO (.strct flds))).isSome = true ∧
          (GoType.strct flds) ∈ s2.seenTypesL) ∨
        foreignNamed inp (derefT inp.namedEnv (.named nid)) = true ∨
        derefT inp.namedEnv (.named nid) ∈ s.seenTypesL ∨
        underlyingT inp.namedEnv (.named nid) ∈ s.seenTypesL := by
      intro s2 h2 hS flds hflds
      have hw : walkPost inp (see inp (.typeO (.named nid))
          { s with seenTypesL := (.named nid) :: s.seenTypesL }) s2 :=
        hX.2 s2 h2
      have hS2 := strNode_insert_see hrelf hS
      have h2b : (do
          let s3 ← seeAndUse inp
            (.typeO (namedGet inp.namedEnv nid).underlying)
            (some (.typeO (.named nid))) "underlying type"
            (see inp (.typeO (.named nid))
              { s with seenTypesL := (.named nid) :: s.seenTypesL })
          let s4 ← seeAndUse inp
            (.typeNameO (namedGet inp.namedEnv nid).tobj)
            (some (.typeO (.named nid))) "type name" s3
          let s5 ← seeAndUse inp (.typeO (.named nid))
            (some (.typeNameO (namedGet inp.namedEnv nid).tobj))
            "named type" s4
          let s6 ← typMethodsFold inp fuel (.named nid)
            (namedGet inp.namedEnv nid).methods s5
          typ inp fuel (namedGet inp.namedEnv nid).underlying s6) =
          .ok s2 := h2
      obtain ⟨s3, h3, h2c⟩ := bind_ok h2b
      obtain ⟨s4, h4, h2d⟩ := bind_ok h2c
      obtain ⟨s5, h5, h2e⟩ := bind_ok h2d
      obtain ⟨s6, h6, h7⟩ := bind_ok h2e
      have hmem := ih.typMem (namedGet inp.namedEnv nid).underlying s6 s2 h7
      cases hsu : (namedGet inp.namedEnv nid).underlying
      case ptr e =>
        have hsu2 : underlyingT inp.namedEnv (.named nid) = .ptr e := hsu
        have hder : derefT inp.namedEnv (.named nid) = e := by
          rw [derefT, hsu2]
        rw [hder] at hflds
        rw [hsu] at hmem
        have hmem2 : (GoType.ptr e) ∈ s2.seenTypesL := by
          rcases hmem with hm | hm
          · exact (nomatch hm)
          · exact hm
        have hchase := ptrSeen_chase hS2 hw hflds hmem2
          (fun he => by
            rw [he, hsu2] at hflds
            exact (nomatch hflds))
          (fun hp => (nomatch hp))
        rw [hder, hsu2]
        exact hchase
      case strct flds2 =>
        have hsu2 : underlyingT inp.namedEnv (.named nid) = .strct flds2 :=
          hsu
        have hder : derefT inp.namedEnv (.named nid) = .named nid := by
          rw [derefT, hsu2]
        rw [hder, hsu2] at hflds
        injection hflds with hinj
        subst hinj
        rw [hsu] at hmem
        have hmem2 : (GoType.strct flds2) ∈ s2.seenTypesL := by
          rcases hmem with hm | hm
          · exact (nomatch hm)
          · exact hm
        have hS3 : strNode s2 := hw.2.2.1 hS2
        exact Or.inl ⟨hS3 flds2 hmem2, hmem2⟩
      all_goals
        (have hsu2 : underlyingT inp.namedEnv (.named nid) = _ := hsu
         have hder : derefT inp.namedEnv (.named nid) = .named nid := by
           rw [derefT, hsu2]
         rw [hder, hsu2] at hflds
         exact (nomatch hflds))
    obtain ⟨hsafe, hmem⟩ := typ_glue hts hforeignf hrelf hX hU
      (fun s2 h2 hS flds hteq => (nomatch hteq))
    exact ⟨hsafe, fun s2 h2 => Or.inr (hmem s2 h2)⟩
  | slice e =>
    have htn : tyNode (.slice e) (see inp (.typeO (.slice e))
        { s with seenTypesL := (.slice e) :: s.seenTypesL }) :=
      see_creates_gen inp (.typeO (.slice e)) _ hrelf rfl
    have hX : SAFE inp (see inp (.typeO (.slice e))
        { s with seenTypesL := (.slice e) :: s.seenTypesL })
        (typBody inp fuel (.slice e) (see inp (.typeO (.slice e))
          { s with seenTypesL := (.slice e) :: s.seenTypesL })) := by
      show SAFE inp (see inp (.typeO (.slice e))
        { s with seenTypesL := (.slice e) :: s.seenTypesL }) (do
        let s3 ← seeAndUse inp (.typeO e) (some (.typeO (.slice e)))
          "element type" (see inp (.typeO (.slice e))
            { s with seenTypesL := (.slice e) :: s.seenTypesL })
        typ inp fuel e s3)
      refine safe_bind (seeAndUse_safe inp _ _ _ _ (byOK_ty htn)) ?_
      intro s3 h3
      exact ih.typS e s3
    obtain ⟨hsafe, hmem⟩ := typ_glue hts hforeignf hrelf hX
      (fun s2 h2 hS flds hflds => (nomatch hflds))
      (fun s2 h2 hS flds hteq => (nomatch hteq))
    exact ⟨hsafe, fun s2 h2 => Or.inr (hmem s2 h2)⟩
  | mapT k e =>
    have htn : tyNode (.mapT k e) (see inp (.typeO (.mapT k e))
        { s with seenTypesL := (.mapT k e) :: s.seenTypesL }) :=
      see_creates_gen inp (.typeO (.mapT k e)) _ hrelf rfl
    have hX : SAFE inp (see inp (.typeO (.mapT k e))
        { s with seenTypesL := (.mapT k e) :: s.seenTypesL })
        (typBody inp fuel (.mapT k e) (see inp (.typeO (.mapT k e))
          { s with seenTypesL := (.mapT k e) :: s.seenTypesL })) := by
      show SAFE inp (see inp (.typeO (.mapT k e))
        { s with seenTypesL := (.mapT k e) :: s.seenTypesL }) (do
        let s3 ← seeAndUse inp (.typeO e) (some (.typeO (.mapT k e)))
          "element type" (see inp (.typeO (.mapT k e))
            { s with seenTypesL := (.mapT k e) :: s.seenTypesL })
        let s4 ← seeAndUse inp (.typeO k) (some (.typeO (.mapT k e)))
          "key type" s3
        let s5 ← typ inp fuel e s4
        typ inp fuel k s5)
      have hx1 := seeAndUse_safe inp (.typeO e) (some (.typeO (.mapT k e)))
        "element type" (see inp (.typeO (.mapT k e))
          { s with seenTypesL := (.mapT k e) :: s.seenTypesL })
        (byOK_ty htn)
      refine safe_bind hx1 ?_
      intro s3 h3
      have hp3 := (hx1.2 s3 h3).1
      have hx2 := seeAndUse_safe inp (.typeO k) (some (.typeO (.mapT k e)))
        "key type" s3 (byOK_ty (tyNode_persist hp3 htn))
      refine safe_bind hx2 ?_
      intro s4 h4
      refine safe_bind (ih.typS e s4) ?_
      intro s5 h5
      exact ih.typS k s5
    obtain ⟨hsafe, hmem⟩ := typ_glue hts hforeignf hrelf hX
      (fun s2 h2 hS flds hflds => (nomatch hflds))
      (fun s2 h2 hS flds hteq => (nomatch hteq))
    exact ⟨hsafe, fun s2 h2 => Or.inr (hmem s2 h2)⟩
  | sig r p q =>
    have htn : tyNode (.sig r p q) (see inp (.typeO (.sig r p q))
        { s with seenTypesL := (.sig r p q) :: s.seenTypesL }) :=
      see_creates_gen inp (.typeO (.sig r p q)) _ hrelf rfl
    have hX := ih.sigS (.sig r p q) (see inp (.typeO (.sig r p q))
        { s with seenTypesL := (.sig r p q) :: s.seenTypesL })
      (fun _ => htn)
    obtain ⟨hsafe, hmem⟩ := typ_glue hts hforeignf hrelf hX
      (fun s2 h2 hS flds hflds => (nomatch hflds))
      (fun s2 h2 hS flds hteq => (nomatch hteq))
    exact ⟨hsafe, fun s2 h2 => Or.inr (hmem s2 h2)⟩
  | iface ms =>
    have htn : tyNode (.iface ms) (see inp (.typeO (.iface ms))
        { s with seenTypesL := (.iface ms) :: s.seenTypesL }) :=
      see_creates_gen inp (.typeO (.iface ms)) _ hrelf rfl
    have hX := ih.ifaceS (.iface ms) ms (see inp (.typeO (.iface ms))
        { s with seenTypesL := (.iface ms) :: s.seenTypesL }) htn
    obtain ⟨hsafe, hmem⟩ := typ_glue hts hforeignf hrelf hX
      (fun s2 h2 hS flds hflds => (nomatch hflds))
      (fun s2 h2 hS flds hteq => (nomatch hteq))
    exact ⟨hsafe, fun s2 h2 => Or.inr (hmem s2 h2)⟩
  | array e =>
    have htn : tyNode (.array e) (see inp (.typeO (.array e))
        { s with seenTypesL := (.array e) :: s.seenTypesL }) :=
      see_creates_gen inp (.typeO (.array e)) _ hrelf rfl
    have hX : SAFE inp (see inp (.typeO (.array e))
        { s with seenTypesL := (.array e) :: s.seenTypesL })
        (typBody inp fuel (.array e) (see inp (.typeO (.array e))
          { s with seenTypesL := (.array e) :: s.seenTypesL })) := by
      show SAFE inp (see inp (.typeO (.array e))
        { s with seenTypesL := (.array e) :: s.seenTypesL }) (do
        let s3 ← seeAndUse inp (.typeO e) (some (.typeO (.array e)))
          "element type" (see inp (.typeO (.array e))
            { s with seenTypesL := (.array e) :: s.seenTypesL })
        typ inp fuel e s3)
      refine safe_bind (seeAndUse_safe inp _ _ _ _ (byOK_ty htn)) ?_
      intro s3 h3
      exact ih.typS e s3
    obtain ⟨hsafe, hmem⟩ := typ_glue hts hforeignf hrelf hX
      (fun s2 h2 hS flds hflds => (nomatch hflds))
      (fun s2 h2 hS flds hteq => (nomatch hteq))
    exact ⟨hsafe, fun s2 h2 => Or.inr (hmem s2 h2)⟩
  | ptr e =>
    have htn : tyNode (.ptr e) (see inp (.typeO (.ptr e))
        { s with seenTypesL := (.ptr e) :: s.seenTypesL }) :=
      see_creates_gen inp (.typeO (.ptr e)) _ hrelf rfl
    have hX : SAFE inp (see inp (.typeO (.ptr e))
        { s with seenTypesL := (.ptr e) :: s.seenTypesL })
        (typBody inp fuel (.ptr e) (see inp (.typeO (.ptr e))
          { s with seenTypesL := (.ptr e) :: s.seenTypesL })) := by
      show SAFE inp (see inp (.typeO (.ptr e))
        { s with seenTypesL := (.ptr e) :: s.seenTypesL }) (do
        let s3 ← seeAndUse inp (.typeO e) (some (.typeO (.ptr e)))
          "element type" (see inp (.typeO (.ptr e))
            { s with seenTypesL := (.ptr e) :: s.seenTypesL })
        typ inp fuel e s3)
      refine safe_bind (seeAndUse_safe inp _ _ _ _ (byOK_ty htn)) ?_
      intro s3 h3
      exact ih.typS e s3
    have hU : ∀ s2, typBody inp fuel (.ptr e)
        (see inp (.typeO (.ptr e))
          { s with seenTypesL := (.ptr e) :: s.seenTypesL }) =
          .ok s2 → strNode s → ∀ flds,
        underlyingT inp.namedEnv
          (derefT inp.namedEnv (.ptr e)) = .strct flds →
        ((nodeMaybe s2 (.typeO (.strct flds))).isSome = true ∧
          (GoType.strct flds) ∈ s2.seenTypesL) ∨
        foreignNamed inp (derefT inp.namedEnv (.ptr e)) = true ∨
        derefT inp.namedEnv (.ptr e) ∈ s.seenTypesL ∨
        underlyingT inp.namedEnv (.ptr e) ∈ s.seenTypesL := by
      intro s2 h2 hS flds hflds
      have hflds2 : underlyingT inp.namedEnv e = .strct flds := hflds
      have hw : walkPost inp (see inp (.typeO (.ptr e))
          { s with seenTypesL := (.ptr e) :: s.seenTypesL }) s2 :=
        hX.2 s2 h2
      have hS2 := strNode_insert_see hrelf hS
      have h2b : (do
          let s3 ← seeAndUse inp (.typeO e) (some (.typeO (.ptr e)))
            "element type" (see inp (.typeO (.ptr e))
              { s with seenTypesL := (.ptr e) :: s.seenTypesL })
          typ inp fuel e s3) = .ok s2 := h2
      obtain ⟨s3, h3, h7⟩ := bind_ok h2b
      rcases ih.typMem e s3 s2 h7 with hm | hm
      · exact Or.inr (Or.inl hm)
      · have hchase := elemSeen_chase hS2 hw hflds2 hm
          (fun he => by
            rw [he] at hflds2
            exact (nomatch hflds2))
          (fun hp => (nomatch hp))
        rcases hchase with h9 | h9 | h9
        · exact Or.inl h9
        · exact Or.inr (Or.inl h9)
        · exact Or.inr (Or.inr (Or.inl h9))
    obtain ⟨hsafe, hmem⟩ := typ_glue hts hforeignf hrelf hX hU
      (fun s2 h2 hS flds hteq => (nomatch hteq))
    exact ⟨hsafe, fun s2 h2 => Or.inr (hmem s2 h2)⟩
  | chanT e =>
    have htn : tyNode (.chanT e) (see inp (.typeO (.chanT e))
        { s with seenTypesL := (.chanT e) :: s.seenTypesL }) :=
      see_creates_gen inp (.typeO (.chanT e)) _ hrelf rfl
    have hX : SAFE inp (see inp (.typeO (.chanT e))
        { s with seenTypesL := (.chanT e) :: s.seenTypesL })
        (typBody inp fuel (.chanT e) (see inp (.typeO (.chanT e))
          { s with seenTypesL := (.chanT e) :: s.seenTypesL })) := by
      show SAFE inp (see inp (.typeO (.chanT e))
        { s with seenTypesL := (.chanT e) :: s.seenTypesL }) (do
        let s3 ← seeAndUse inp (.typeO e) (some (.typeO (.chanT e)))
          "element type" (see inp (.typeO (.chanT e))
            { s with seenTypesL := (.chanT e) :: s.seenTypesL })
        typ inp fuel e s3)
      refine safe_bind (seeAndUse_safe inp _ _ _ _ (byOK_ty htn)) ?_
      intro s3 h3
      exact ih.typS e s3
    obtain ⟨hsafe, hmem⟩ := typ_glue hts hforeignf hrelf hX
      (fun s2 h2 hS flds hflds => (nomatch hflds))
      (fun s2 h2 hS flds hteq => (nomatch hteq))
    exact ⟨hsafe, fun s2 h2 => Or.inr (hmem s2 h2)⟩
  | tuple es =>
    have htn : tyNode (.tuple es) (see inp (.typeO (.tuple es))
        { s with seenTypesL := (.tuple es) :: s.seenTypesL }) :=
      see_creates_gen inp (.typeO (.tuple es)) _ hrelf rfl
    have hX := ih.tupleS (.tuple es) es (see inp (.typeO (.tuple es))
        { s with seenTypesL := (.tuple es) :: s.seenTypesL }) htn
    obtain ⟨hsafe, hmem⟩ := typ_glue hts hforeignf hrelf hX
      (fun s2 h2 hS flds hflds => (nomatch hflds))
      (fun s2 h2 hS flds hteq => (nomatch hteq))
    exact ⟨hsafe, fun s2 h2 => Or.inr (hmem s2 h2)⟩


/-- Every fuel level of the mutual graph walker satisfies the safety
bundle, for inputs whose conversion instructions are well formed. -/
theorem walkSafe (inp : PkgIn) (hW : convWF inp = true) :
    ∀ fuel, WalkP inp fuel := by
  intro fuel
  induction fuel with
  | zero => exact walkP_zero inp
  | succ fuel ih =>
    exact ⟨fun t s => (step_typ ih t s).1,
      step_typStructFold ih,
      step_typMethodsFold ih,
      step_typIfaceFold ih,
      step_typTupleFold ih,
      step_variableW ih,
      step_signatureM ih,
      step_sigVarsFold ih,
      step_functionM ih,
      step_anonFold ih,
      step_instructionsM hW ih,
      step_blocksFold ih,
      step_instrFold ih,
      step_instrW ih,
      step_useCall ih,
      step_useCallFold ih,
      fun t s s2 h => (step_typ ih t s).2 s2 h,
      step_varMem ih,
      step_structMem ih⟩


/-! Safety of the entry seeder. -/

theorem defsFold_safe (inp : PkgIn) (fuel : Nat) (hWP : WalkP inp fuel) :
    ∀ ds s, SAFE inp s (defsFold inp fuel ds s) := by
  intro ds
  induction ds with
  | nil => intro s; exact safe_ok_self inp s
  | cons d rest ihd =>
    intro s
    refine safe_bind ?_ (fun s2 h2 => ihd s2)
    cases d with
    | typeNameD tn =>
      show SAFE inp s
        (typ inp fuel (.named tn.tnid) (see inp (.typeNameO tn) s))
      exact safe_pre (see_walkPost inp (.typeNameO tn) s)
        (hWP.typS (.named tn.tnid) _)
    | constD c =>
      show SAFE inp s
        ((match surroundingFunc inp c.scopeChain with
          | none =>
            if c.exported = true then
              use inp (.constO c) none "exported constant"
                (see inp (.constO c) s)
            else .ok (see inp (.constO c) s)
          | some _ => .ok (see inp (.constO c) s)) >>= fun s3 =>
          typ inp fuel c.ty s3 >>= fun s4 =>
            seeAndUse inp (.typeO c.ty) (some (.constO c))
              "constant type" s4)
      refine safe_pre (see_walkPost inp (.constO c) s) ?_
      have hu0 := usedOK_after_see inp (.constO c) s
      have hx1 : SAFE inp (see inp (.constO c) s)
          (match surroundingFunc inp c.scopeChain with
          | none =>
            if c.exported = true then
              use inp (.constO c) none "exported constant"
                (see inp (.constO c) s)
            else .ok (see inp (.constO c) s)
          | some _ => .ok (see inp (.constO c) s)) := by
        cases surroundingFunc inp c.scopeChain with
        | none =>
          show SAFE inp (see inp (.constO c) s)
            (if c.exported = true then
              use inp (.constO c) none "exported constant"
                (see inp (.constO c) s)
            else .ok (see inp (.constO c) s))
          split
          · exact use_safe inp _ _ _ _ hu0 trivial
          · exact safe_ok_self inp _
        | some fid2 =>
          exact safe_ok_self inp _
      refine safe_bind hx1 ?_
      intro s3 h3
      have hp3 := (hx1.2 s3 h3).1
      refine safe_bind (hWP.typS c.ty s3) ?_
      intro s4 h4
      have hp4 := ((hWP.typS c.ty s3).2 s4 h4).1
      by_cases hpkg : pkgFiltered inp (.constO c) = true
      · exact seeAndUse_safe inp _ _ _ s4 (Or.inl hpkg)
      · refine seeAndUse_safe inp _ _ _ s4 (Or.inr ?_)
        exact hp4 _ (hp3 _ (see_creates_gen inp (.constO c) s rfl
          (Bool.not_eq_true _ ▸ hpkg)))
    | otherD => exact safe_ok_self inp s

theorem identScan_safe (inp : PkgIn) (fid : Nat) :
    ∀ idents s, fnNode fid s → SAFE inp s (identScan inp fid idents s) := by
  intro idents
  induction idents with
  | nil => intro s hf; exact safe_ok_self inp s
  | cons ident rest ihs =>
    intro s hf
    rw [identScan]
    cases hl : inp.uses.lookup ident with
    | none =>
      show SAFE inp s (identScan inp fid rest s)
      exact ihs s hf
    | some u =>
      cases u with
      | constU c =>
        show SAFE inp s
          (seeAndUse inp (.constO c) (some (.ssaFnO (some fid)))
            "used constant" s >>= fun s2 => identScan inp fid rest s2)
        have hx1 := seeAndUse_safe inp (.constO c)
          (some (.ssaFnO (some fid))) "used constant" s (byOK_fn hf)
        refine safe_bind hx1 ?_
        intro s2 h2
        exact ihs s2 (fnNode_persist (hx1.2 s2 h2).1 hf)
      | otherU =>
        show SAFE inp s (identScan inp fid rest s)
        exact ihs s hf

theorem fnConstFold_safe (inp : PkgIn) :
    ∀ fns s, SAFE inp s (fnConstFold inp fns s) := by
  intro fns
  induction fns with
  | nil => intro s; exact safe_ok_self inp s
  | cons fid rest ihf =>
    intro s
    rw [fnConstFold]
    split
    · exact ihf s
    · cases hb : (fnGet inp fid).bodyIdents with
      | none =>
        show SAFE inp s (fnConstFold inp rest (see inp (.ssaFnO (some fid)) s))
        exact safe_pre (see_walkPost inp (.ssaFnO (some fid)) s) (ihf _)
      | some idents =>
        show SAFE inp s
          (identScan inp fid idents (see inp (.ssaFnO (some fid)) s) >>=
            fun s2 => fnConstFold inp rest s2)
        refine safe_pre (see_walkPost inp (.ssaFnO (some fid)) s) ?_
        have hfn : fnNode fid (see inp (.ssaFnO (some fid)) s) :=
          see_creates_gen inp (.ssaFnO (some fid)) s rfl rfl
        refine safe_bind (identScan_safe inp fid idents _ hfn) ?_
        intro s2 h2
        exact ihf s2

theorem usesFold_safe (inp : PkgIn) :
    ∀ us s, SAFE inp s (usesFold inp us s) := by
  intro us
  induction us with
  | nil => intro s; exact safe_ok_self inp s
  | cons p rest ihu =>
    intro s
    obtain ⟨ident, uo⟩ := p
    cases uo with
    | constU c =>
      show SAFE inp s
        ((if handledConsts.contains ident = true then .ok s
          else seeAndUse inp (.constO c) none "used constant" s) >>=
          fun s2 => usesFold inp rest s2)
      have hx1 : SAFE inp s
          (if handledConsts.contains ident = true then .ok s
          else seeAndUse inp (.constO c) none "used constant" s) := by
        split
        · exact safe_ok_self inp s
        · exact seeAndUse_safe inp _ _ _ s trivial
      refine safe_bind hx1 ?_
      intro s2 h2
      exact ihu s2
    | otherU =>
      show SAFE inp s (usesFold inp rest s)
      exact ihu s

theorem membersFold_safe (inp : PkgIn) (fuel : Nat) (hWP : WalkP inp fuel) :
    ∀ ms s, SAFE inp s (membersFold inp fuel ms s) := by
  intro ms
  induction ms with
  | nil => intro s; exact safe_ok_self inp s
  | cons m rest ihm =>
    intro s
    refine safe_bind ?_ (fun s2 h2 => ihm s2)
    cases m with
    | constM => exact safe_ok_self inp s
    | globalM => exact safe_ok_self inp s
    | fnM fid =>
      show SAFE inp s
        ((if (fnGet inp fid).fname = "init" then
            use inp (.ssaFnO (some fid)) none "init function"
              (see inp (.ssaFnO (some fid)) s)
          else .ok (see inp (.ssaFnO (some fid)) s)) >>= fun s2 =>
          (match (fnGet inp fid).objO with
            | some fo =>
              if fo.1.exported = true then
                use inp (.ssaFnO (some fid)) none
                  "exported top-level function" s2
              else .ok s2
            | none => .ok s2) >>= fun s3 =>
          (if (fnGet inp fid).fname = "main" ∧ inp.pkgName = "main" then
              use inp (.ssaFnO (some fid)) none "main function" s3
            else .ok s3) >>= fun s4 =>
          functionM inp fuel fid s4)
      refine safe_pre (see_walkPost inp (.ssaFnO (some fid)) s) ?_
      have hfn : fnNode fid (see inp (.ssaFnO (some fid)) s) :=
        see_creates_gen inp (.ssaFnO (some fid)) s rfl rfl
      have hx1 : SAFE inp (see inp (.ssaFnO (some fid)) s)
          (if (fnGet inp fid).fname = "init" then
            use inp (.ssaFnO (some fid)) none "init function"
              (see inp (.ssaFnO (some fid)) s)
          else .ok (see inp (.ssaFnO (some fid)) s)) := by
        split
        · exact use_safe inp _ _ _ _ (Or.inr (Or.inr hfn)) trivial
        · exact safe_ok_self inp _
      refine safe_bind hx1 ?_
      intro s2 h2
      have hf2 : fnNode fid s2 := fnNode_persist (hx1.2 s2 h2).1 hfn
      have hx2 : SAFE inp s2
          (match (fnGet inp fid).objO with
            | some fo =>
              if fo.1.exported = true then
                use inp (.ssaFnO (some fid)) none
                  "exported top-level function" s2
              else .ok s2
            | none => .ok s2) := by
        cases (fnGet inp fid).objO with
        | some fo =>
          show SAFE inp s2
            (if fo.1.exported = true then
              use inp (.ssaFnO (some fid)) none
                "exported top-level function" s2
            else .ok s2)
          split
          · exact use_safe inp _ _ _ _ (Or.inr (Or.inr hf2)) trivial
          · exact safe_ok_self inp s2
        | none => exact safe_ok_self inp s2
      refine safe_bind hx2 ?_
      intro s3 h3
      have hf3 : fnNode fid s3 := fnNode_persist (hx2.2 s3 h3).1 hf2
      have hx3 : SAFE inp s3
          (if (fnGet inp fid).fname = "main" ∧ inp.pkgName = "main" then
              use inp (.ssaFnO (some fid)) none "main function" s3
            else .ok s3) := by
        split
        · exact use_safe inp _ _ _ _ (Or.inr (Or.inr hf3)) trivial
        · exact safe_ok_self inp s3
      refine safe_bind hx3 ?_
      intro s4 h4
      exact hWP.funS fid s4 (fnNode_persist (hx3.2 s4 h4).1 hf3)
    | typeM obj t =>
      show SAFE inp s
        ((match obj with
          | some tn =>
            if tn.exported = true then
              use inp (.typeNameO tn) none "exported top-level type"
                (see inp (.typeNameO tn) s)
            else .ok (see inp (.typeNameO tn) s)
          | none => .ok s) >>= fun s2 => typ inp fuel t s2)
      have hx1 : SAFE inp s
          (match obj with
          | some tn =>
            if tn.exported = true then
              use inp (.typeNameO tn) none "exported top-level type"
                (see inp (.typeNameO tn) s)
            else .ok (see inp (.typeNameO tn) s)
          | none => .ok s) := by
        cases obj with
        | some tn =>
          show SAFE inp s
            (if tn.exported = true then
              use inp (.typeNameO tn) none "exported top-level type"
                (see inp (.typeNameO tn) s)
            else .ok (see inp (.typeNameO tn) s))
          split
          · refine safe_pre (see_walkPost inp (.typeNameO tn) s) ?_
            exact use_safe inp _ _ _ _
              (usedOK_after_see inp (.typeNameO tn) s) trivial
          · exact safe_ok (see_walkPost inp (.typeNameO tn) s)
        | none => exact safe_ok_self inp s
      refine safe_bind hx1 ?_
      intro s2 h2
      exact hWP.typS t s2


/-! Safety of the interface-satisfaction pass. -/

/-- Depth-bounded closure of package-foreignness along struct embedding:
every field belongs to another package, and the struct under a field's
(dereferenced) type satisfies the same closure one level down. -/
def foreignFlds (inp : PkgIn) : Nat → List GoVar → Bool
  | 0, _ => true
  | n+1, flds => flds.all fun f =>
      pkgFiltered inp (.varO f) &&
      (match underlyingT inp.namedEnv (derefT inp.namedEnv f.2) with
       | .strct flds2 => foreignFlds inp n flds2
       | _ => true)

/-- Well-formedness of the named-type environment for the
interface-satisfaction pass, as Go's acyclic imports guarantee: a named
type of another package only embeds, to depth `n`, struct fields that
belong to other packages. -/
def ifaceWF (inp : PkgIn) (n : Nat) : Bool :=
  inp.namedEnv.all fun p =>
    !(foreignNamed inp (.named p.1)) ||
    (match underlyingT inp.namedEnv
        (derefT inp.namedEnv (.named p.1)) with
     | .strct flds => foreignFlds inp n flds
     | _ => true)

theorem foreignFlds_mono (inp : PkgIn) :
    ∀ n m, m ≤ n → ∀ flds, foreignFlds inp n flds = true →
      foreignFlds inp m flds = true := by
  intro n
  induction n with
  | zero =>
    intro m hm flds h
    cases Nat.le_zero.mp hm
    exact h
  | succ n ihn =>
    intro m hm flds h
    cases m with
    | zero => rfl
    | succ m =>
      rw [foreignFlds, List.all_eq_true] at h ⊢
      intro f hf
      have h2 := h f hf
      rw [Bool.and_eq_true] at h2 ⊢
      refine ⟨h2.1, ?_⟩
      have h3 := h2.2
      cases hu : underlyingT inp.namedEnv (derefT inp.namedEnv f.2) <;>
        rw [hu] at h3
      case strct flds2 =>
        have h4 : foreignFlds inp n flds2 = true := h3
        show foreignFlds inp m flds2 = true
        exact ihn m (Nat.le_of_succ_le_succ hm) flds2 h4

theorem ifaceWF_foreign {inp : PkgIn} {N : Nat}
    (hWF : ifaceWF inp N = true) {d : GoType}
    (hf : foreignNamed inp d = true) {flds2 : List GoVar}
    (hu : underlyingT inp.namedEnv (derefT inp.namedEnv d) = .strct flds2) :
    foreignFlds inp N flds2 = true := by
  cases d
  case named nid =>
    rw [ifaceWF, List.all_eq_true] at hWF
    cases hl : inp.namedEnv.lookup nid with
    | none =>
      have hf2 : foreignNamed inp (.named nid) = false := by
        rw [foreignNamed, namedGet, hl]
        rfl
      rw [hf2] at hf
      exact (nomatch hf)
    | some info =>
      have h2 : (!(foreignNamed inp (.named nid)) ||
          (match underlyingT inp.namedEnv
              (derefT inp.namedEnv (.named nid)) with
           | .strct flds => foreignFlds inp N flds
           | _ => true)) = true := hWF (nid, info) (lookup_mem2 _ _ _ hl)
      rw [hf, Bool.not_true, Bool.false_or, hu] at h2
      exact h2
  all_goals exact (nomatch hf)

theorem strNode_newGraph : strNode newGraph :=
  fun _ h => absurd h (List.not_mem_nil _)

/-- What the fresh-graph walk contract says about each memoized type. -/
theorem seen_facts {inp : PkgIn} {s : GState}
    (hw : walkPost inp newGraph s) {t : GoType} (ht : t ∈ s.seenTypesL) :
    foreignNamed inp t = false ∧
    (isIrrelevantT inp.namedEnv inp.irrFuel t = false →
      (nodeMaybe s (.typeO t)).isSome = true) ∧
    (∀ flds, underlyingT inp.namedEnv (derefT inp.namedEnv t) =
        .strct flds →
      ((nodeMaybe s (.typeO (.strct flds))).isSome = true ∧
        (GoType.strct flds) ∈ s.seenTypesL) ∨
      foreignNamed inp (derefT inp.namedEnv t) = true) ∧
    (∀ flds, t = .strct flds → ∀ f ∈ flds,
      foreignNamed inp f.2 = true ∨ f.2 ∈ s.seenTypesL) := by
  obtain ⟨hf, hn, hu, hfc⟩ :=
    hw.2.2.2 strNode_newGraph t ht (List.not_mem_nil _)
  refine ⟨hf, hn, ?_, hfc⟩
  intro flds hflds
  rcases hu flds hflds with h1 | h1 | h1 | h1
  · exact Or.inl h1
  · exact Or.inr h1
  · exact absurd h1 (List.not_mem_nil _)
  · exact absurd h1 (List.not_mem_nil _)

/-- Non-empty interfaces are relevant. -/
theorem iface_cons_relevant (env : List (Nat × NamedInfo)) (fl : Nat)
    (m : GoFuncObj) (rest : List GoFuncObj) :
    isIrrelevantT env fl (.iface (m :: rest)) = false := by
  cases fl with
  | zero => rfl
  | succ fl => rfl

theorem lookup_mem3 {α β : Type} [BEq α] [LawfulBEq α] (l : List (α × β))
    (k : α) (v : β) (h : l.lookup k = some v) : (k, v) ∈ l := by
  induction l with
  | nil => cases h
  | cons kv rest ih =>
    rw [List.lookup] at h
    cases hbe : (k == kv.1) with
    | true =>
      rw [hbe] at h
      injection h with h2
      have hk : k = kv.1 := eq_of_beq hbe
      have hkv : kv = (k, v) := by
        rw [hk, ← h2]
      rw [hkv]
      exact List.mem_cons_self _ _
    | false =>
      rw [hbe] at h
      exact List.mem_cons_of_mem _ (ih h)

theorem pathFold_safe (inp : PkgIn) (N : Nat) (hWF : ifaceWF inp N = true) :
    ∀ path, path.length ≤ N → ∀ baseO s, walkPost inp newGraph s →
    (∀ flds, baseO = some flds →
      (((nodeMaybe s (.typeO (.strct flds))).isSome = true ∧
        (GoType.strct flds) ∈ s.seenTypesL) ∨
       foreignFlds inp path.length flds = true)) →
    SAFE inp s (pathFold inp baseO path s) := by
  intro path
  induction path with
  | nil =>
    intro hlen baseO s hw hinv
    cases baseO with
    | none => exact safe_ok_self inp s
    | some flds => exact safe_ok_self inp s
  | cons idx rest ihp =>
    intro hlen baseO s hw hinv
    cases baseO with
    | none => exact safe_err (by decide)
    | some flds =>
      show SAFE inp s
        (match flds.get? idx with
        | none => .error .nilPanic
        | some nxt =>
          seeAndUse inp (.varO nxt) (some (.typeO (.strct flds)))
            "helps implement" s >>= fun s3 =>
          pathFold inp
            (match underlyingT inp.namedEnv
                (derefT inp.namedEnv nxt.2) with
             | .strct flds2 => some flds2
             | _ => none) rest s3)
      cases hg : flds.get? idx with
      | none => exact safe_err (by decide)
      | some nxt =>
        have hnf : nxt ∈ flds := List.get?_mem hg
        rcases hinv flds rfl with ⟨hnode, hmem⟩ | hff
        · have hx1 := seeAndUse_safe inp (.varO nxt)
            (some (.typeO (.strct flds))) "helps implement" s (Or.inr hnode)
          refine safe_bind hx1 ?_
          intro s3 h3
          have hw3 : walkPost inp newGraph s3 :=
            walkPost_trans hw (hx1.2 s3 h3)
          refine ihp (Nat.le_of_succ_le hlen) _ s3 hw3 ?_
          intro flds2 hb2
          have hu2 : underlyingT inp.namedEnv (derefT inp.namedEnv nxt.2) =
              .strct flds2 := by
            cases hu : underlyingT inp.namedEnv
                (derefT inp.namedEnv nxt.2) <;> rw [hu] at hb2
            case strct f0 =>
              have hb3 : some f0 = some flds2 := hb2
              injection hb3 with hb4
              rw [hb4]
            all_goals exact (nomatch hb2)
          have hmem3 : (GoType.strct flds) ∈ s3.seenTypesL :=
            (hx1.2 s3 h3).2.1 _ hmem
          obtain ⟨-, -, -, hfc⟩ := seen_facts hw3 hmem3
          rcases hfc flds rfl nxt hnf with hforeign | hseen2
          · exact Or.inr (foreignFlds_mono inp N rest.length
              (Nat.le_of_succ_le hlen) flds2
              (ifaceWF_foreign hWF hforeign hu2))
          · obtain ⟨-, -, hu3, -⟩ := seen_facts hw3 hseen2
            rcases hu3 flds2 hu2 with h9 | h9
            · exact Or.inl h9
            · have hdd : derefT inp.namedEnv (derefT inp.namedEnv nxt.2) =
                  derefT inp.namedEnv nxt.2 := derefT_fix _ nxt.2 flds2 hu2
              have hu4 : underlyingT inp.namedEnv (derefT inp.namedEnv
                  (derefT inp.namedEnv nxt.2)) = .strct flds2 := by
                rw [hdd]
                exact hu2
              exact Or.inr (foreignFlds_mono inp N rest.length
                (Nat.le_of_succ_le hlen) flds2
                (ifaceWF_foreign hWF h9 hu4))
        · have hff2 : foreignFlds inp (rest.length + 1) flds = true := hff
          rw [foreignFlds, List.all_eq_true] at hff2
          have h5 := hff2 nxt hnf
          rw [Bool.and_eq_true] at h5
          have hx1 := seeAndUse_safe_usedPkg inp (.varO nxt)
            (some (.typeO (.strct flds))) "helps implement" s h5.1
          refine safe_bind hx1 ?_
          intro s3 h3
          refine ihp (Nat.le_of_succ_le hlen) _ s3
            (walkPost_trans hw (hx1.2 s3 h3)) ?_
          intro flds2 hb2
          refine Or.inr ?_
          have h6 := h5.2
          cases hu : underlyingT inp.namedEnv
              (derefT inp.namedEnv nxt.2) <;> rw [hu] at hb2 h6
          case strct f0 =>
            have hb3 : some f0 = some flds2 := hb2
            injection hb3 with hb4
            have h7 : foreignFlds inp rest.length f0 = true := h6
            rw [← hb4]
            exact h7
          all_goals exact (nomatch hb2)

theorem implMethods_safe (inp : PkgIn) (N : Nat)
    (hWF : ifaceWF inp N = true)
    (hN : ∀ pr ∈ inp.msSelL, pr.2.path.length ≤ N + 1) (t ifc : GoType) :
    ∀ ms s, walkPost inp newGraph s → t ∈ s.seenTypesL → tyNode ifc s →
    SAFE inp s (implMethods inp t ifc ms s) := by
  intro ms
  induction ms with
  | nil => intro s hw ht hn; exact safe_ok_self inp s
  | cons m rest ihm =>
    intro s hw ht hn
    show SAFE inp s
      ((match inp.msSelL.lookup (t, m.1.fname) with
        | none => .error .selObjAssert
        | some sel =>
          (if sel.path.length > 1 then
            match underlyingT inp.namedEnv (derefT inp.namedEnv t) with
            | .strct flds => pathFold inp (some flds) sel.path.dropLast s
            | _ => .error .nilPanic
          else .ok s) >>= fun s3 =>
          (match funcValue inp sel.selObj.1.oid with
          | some fid =>
            seeAndUse inp (.ssaFnO (some fid)) (some (.typeO ifc))
              "implements" s3
          | none =>
            seeAndUse inp (.funcO sel.selObj) (some (.typeO ifc))
              "implements" s3)) >>= fun s4 =>
        implMethods inp t ifc rest s4)
    cases hsel : inp.msSelL.lookup (t, m.1.fname) with
    | none => exact safe_err (by decide)
    | some sel =>
      have hxp : SAFE inp s
          (if sel.path.length > 1 then
            match underlyingT inp.namedEnv (derefT inp.namedEnv t) with
            | .strct flds => pathFold inp (some flds) sel.path.dropLast s
            | _ => .error .nilPanic
          else .ok s) := by
        split
        · cases hu : underlyingT inp.namedEnv (derefT inp.namedEnv t) with
          | strct flds =>
            have hlen : sel.path.dropLast.length ≤ N := by
              have hb : sel.path.length ≤ N + 1 :=
                hN _ (lookup_mem3 _ _ _ hsel)
              rw [List.length_dropLast]
              omega
            refine pathFold_safe inp N hWF sel.path.dropLast hlen
              (some flds) s hw ?_
            intro flds2 hfe
            injection hfe with hfi
            subst hfi
            rcases (seen_facts hw ht).2.2.1 flds hu with h1 | h1
            · exact Or.inl h1
            · have hdd : derefT inp.namedEnv (derefT inp.namedEnv t) =
                  derefT inp.namedEnv t := derefT_fix _ t flds hu
              have hu4 : underlyingT inp.namedEnv (derefT inp.namedEnv
                  (derefT inp.namedEnv t)) = .strct flds := by
                rw [hdd]
                exact hu
              exact Or.inr (foreignFlds_mono inp N _ hlen flds
                (ifaceWF_foreign hWF h1 hu4))
          | basic b => exact safe_err (by decide)
          | named nid => exact safe_err (by decide)
          | slice e => exact safe_err (by decide)
          | mapT k e => exact safe_err (by decide)
          | sig r p q => exact safe_err (by decide)
          | iface ms2 => exact safe_err (by decide)
          | array e => exact safe_err (by decide)
          | ptr e => exact safe_err (by decide)
          | chanT e => exact safe_err (by decide)
          | tuple es => exact safe_err (by decide)
        · exact safe_ok_self inp s
      have hx2 : SAFE inp s
          ((if sel.path.length > 1 then
            match underlyingT inp.namedEnv (derefT inp.namedEnv t) with
            | .strct flds => pathFold inp (some flds) sel.path.dropLast s
            | _ => .error .nilPanic
          else .ok s) >>= fun s3 =>
          (match funcValue inp sel.selObj.1.oid with
          | some fid =>
            seeAndUse inp (.ssaFnO (some fid)) (some (.typeO ifc))
              "implements" s3
          | none =>
            seeAndUse inp (.funcO sel.selObj) (some (.typeO ifc))
              "implements" s3)) := by
        refine safe_bind hxp ?_
        intro s3 h3
        have hn3 : tyNode ifc s3 := tyNode_persist (hxp.2 s3 h3).1 hn
        cases funcValue inp sel.selObj.1.oid with
        | some fid => exact seeAndUse_safe inp _ _ _ s3 (byOK_ty hn3)
        | none => exact seeAndUse_safe inp _ _ _ s3 (byOK_ty hn3)
      refine safe_bind hx2 ?_
      intro s4 h4
      exact ihm s4 (walkPost_trans hw (hx2.2 s4 h4))
        ((hx2.2 s4 h4).2.1 t ht) (tyNode_persist (hx2.2 s4 h4).1 hn)

theorem ifaceOne_safe (inp : PkgIn) (N : Nat) (hWF : ifaceWF inp N = true)
    (hN : ∀ pr ∈ inp.msSelL, pr.2.path.length ≤ N + 1) :
    ∀ ts ifc s, walkPost inp newGraph s → ifc ∈ s.seenTypesL →
    (∀ t ∈ ts, t ∈ s.seenTypesL) →
    SAFE inp s (ifaceOne inp ifc ts s) := by
  intro ts
  induction ts with
  | nil => intro ifc s hw hifc hts; exact safe_ok_self inp s
  | cons t rest iht =>
    intro ifc s hw hifc hts
    have hts1 : t ∈ s.seenTypesL := hts t (List.mem_cons_self t rest)
    by_cases himpl : (t, ifc) ∈ inp.implL
    · cases ifc with
      | iface ms =>
        cases ms with
        | nil =>
          show SAFE inp s
            ((if (t, GoType.iface []) ∈ inp.implL then
                (Except.ok s : Except AErr GState)
              else .ok s) >>= fun s2 => ifaceOne inp (.iface []) rest s2)
          rw [if_pos himpl]
          show SAFE inp s (ifaceOne inp (.iface []) rest s)
          exact iht (.iface []) s hw hifc
            (fun t2 ht2 => hts t2 (List.mem_cons_of_mem t ht2))
        | cons m ms2 =>
          show SAFE inp s
            ((if (t, GoType.iface (m :: ms2)) ∈ inp.implL then
                implMethods inp t (.iface (m :: ms2)) (m :: ms2) s
              else .ok s) >>= fun s2 =>
              ifaceOne inp (.iface (m :: ms2)) rest s2)
          rw [if_pos himpl]
          have hx1 : SAFE inp s
              (implMethods inp t (.iface (m :: ms2)) (m :: ms2) s) := by
            refine implMethods_safe inp N hWF hN t (.iface (m :: ms2))
              (m :: ms2) s hw hts1 ?_
            exact (seen_facts hw hifc).2.1
              (iface_cons_relevant inp.namedEnv inp.irrFuel m ms2)
          refine safe_bind hx1 ?_
          intro s2 h2
          exact iht (.iface (m :: ms2)) s2
            (walkPost_trans hw (hx1.2 s2 h2))
            ((hx1.2 s2 h2).2.1 _ hifc)
            (fun t2 ht2 => (hx1.2 s2 h2).2.1 _
              (hts t2 (List.mem_cons_of_mem t ht2)))
      | basic b =>
        show SAFE inp s
          ((if (t, GoType.basic b) ∈ inp.implL then
              (Except.ok s : Except AErr GState)
            else .ok s) >>= fun s2 => ifaceOne inp (.basic b) rest s2)
        rw [if_pos himpl]
        show SAFE inp s (ifaceOne inp (.basic b) rest s)
        exact iht _ s hw hifc
          (fun t2 ht2 => hts t2 (List.mem_cons_of_mem t ht2))
      | named nid =>
        show SAFE inp s
          ((if (t, GoType.named nid) ∈ inp.implL then
              (Except.ok s : Except AErr GState)
            else .ok s) >>= fun s2 => ifaceOne inp (.named nid) rest s2)
        rw [if_pos himpl]
        show SAFE inp s (ifaceOne inp (.named nid) rest s)
        exact iht _ s hw hifc
          (fun t2 ht2 => hts t2 (List.mem_cons_of_mem t ht2))
      | strct flds =>
        show SAFE inp s
          ((if (t, GoType.strct flds) ∈ inp.implL then
              (Except.ok s : Except AErr GState)
            else .ok s) >>= fun s2 => ifaceOne inp (.strct flds) rest s2)
        rw [if_pos himpl]
        show SAFE inp s (ifaceOne inp (.strct flds) rest s)
        exact iht _ s hw hifc
          (fun t2 ht2 => hts t2 (List.mem_cons_of_mem t ht2))
      | slice e =>
        show SAFE inp s
          ((if (t, GoType.slice e) ∈ inp.implL then
              (Except.ok s : Except AErr GState)
            else .ok s) >>= fun s2 => ifaceOne inp (.slice e) rest s2)
        rw [if_pos himpl]
        show SAFE inp s (ifaceOne inp (.slice e) rest s)
        exact iht _ s hw hifc
          (fun t2 ht2 => hts t2 (List.mem_cons_of_mem t ht2))
      | mapT k e =>
        show SAFE inp s
          ((if (t, GoType.mapT k e) ∈ inp.implL then
              (Except.ok s : Except AErr GState)
            else .ok s) >>= fun s2 => ifaceOne inp (.mapT k e) rest s2)
        rw [if_pos himpl]
        show SAFE inp s (ifaceOne inp (.mapT k e) rest s)
        exact iht _ s hw hifc
          (fun t2 ht2 => hts t2 (List.mem_cons_of_mem t ht2))
      | sig r p q =>
        show SAFE inp s
          ((if (t, GoType.sig r p q) ∈ inp.implL then
              (Except.ok s : Except AErr GState)
            else .ok s) >>= fun s2 => ifaceOne inp (.sig r p q) rest s2)
        rw [if_pos himpl]
        show SAFE inp s (ifaceOne inp (.sig r p q) rest s)
        exact iht _ s hw hifc
          (fun t2 ht2 => hts t2 (List.mem_cons_of_mem t ht2))
      | array e =>
        show SAFE inp s
          ((if (t, GoType.array e) ∈ inp.implL then
              (Except.ok s : Except AErr GState)
            else .ok s) >>= fun s2 => ifaceOne inp (.array e) rest s2)
        rw [if_pos himpl]
        show SAFE inp s (ifaceOne inp (.array e) rest s)
        exact iht _ s hw hifc
          (fun t2 ht2 => hts t2 (List.mem_cons_of_mem t ht2))
      | ptr e =>
        show SAFE inp s
          ((if (t, GoType.ptr e) ∈ inp.implL then
              (Except.ok s : Except AErr GState)
            else .ok s) >>= fun s2 => ifaceOne inp (.ptr e) rest s2)
        rw [if_pos himpl]
        show SAFE inp s (ifaceOne inp (.ptr e) rest s)
        exact iht _ s hw hifc
          (fun t2 ht2 => hts t2 (List.mem_cons_of_mem t ht2))
      | chanT e =>
        show SAFE inp s
          ((if (t, GoType.chanT e) ∈ inp.implL then
              (Except.ok s : Except AErr GState)
            else .ok s) >>= fun s2 => ifaceOne inp (.chanT e) rest s2)
        rw [if_pos himpl]
        show SAFE inp s (ifaceOne inp (.chanT e) rest s)
        exact iht _ s hw hifc
          (fun t2 ht2 => hts t2 (List.mem_cons_of_mem t ht2))
      | tuple es =>
        show SAFE inp s
          ((if (t, GoType.tuple es) ∈ inp.implL then
              (Except.ok s : Except AErr GState)
            else .ok s) >>= fun s2 => ifaceOne inp (.tuple es) rest s2)
        rw [if_pos himpl]
        show SAFE inp s (ifaceOne inp (.tuple es) rest s)
        exact iht _ s hw hifc
          (fun t2 ht2 => hts t2 (List.mem_cons_of_mem t ht2))
    · show SAFE inp s
        ((if (t, ifc) ∈ inp.implL then
            match ifc with
            | .iface ms => implMethods inp t ifc ms s
            | _ => .ok s
          else .ok s) >>= fun s2 => ifaceOne inp ifc rest s2)
      rw [if_neg himpl]
      show SAFE inp s (ifaceOne inp ifc rest s)
      exact iht ifc s hw hifc
        (fun t2 ht2 => hts t2 (List.mem_cons_of_mem t ht2))

theorem ifacePairs_safe (inp : PkgIn) (N : Nat)
    (hWF : ifaceWF inp N = true)
    (hN : ∀ pr ∈ inp.msSelL, pr.2.path.length ≤ N + 1) :
    ∀ ifcs notIfs s, walkPost inp newGraph s →
    (∀ i ∈ ifcs, i ∈ s.seenTypesL) →
    (∀ t ∈ notIfs, t ∈ s.seenTypesL) →
    SAFE inp s (ifacePairs inp ifcs notIfs s) := by
  intro ifcs
  induction ifcs with
  | nil => intro notIfs s hw hi ht; exact safe_ok_self inp s
  | cons ifc rest ihi =>
    intro notIfs s hw hi ht
    show SAFE inp s (ifaceOne inp ifc notIfs s >>= fun s2 =>
      ifacePairs inp rest notIfs s2)
    have hx1 := ifaceOne_safe inp N hWF hN notIfs ifc s hw
      (hi ifc (List.mem_cons_self ifc rest)) ht
    refine safe_bind hx1 ?_
    intro s2 h2
    exact ihi notIfs s2 (walkPost_trans hw (hx1.2 s2 h2))
      (fun i hi2 => (hx1.2 s2 h2).2.1 _
        (hi i (List.mem_cons_of_mem ifc hi2)))
      (fun t2 ht2 => (hx1.2 s2 h2).2.1 _ (ht t2 ht2))

theorem ifaceSat_safe (inp : PkgIn) (N : Nat) (hWF : ifaceWF inp N = true)
    (hN : ∀ pr ∈ inp.msSelL, pr.2.path.length ≤ N + 1)
    (s : GState) (hw : walkPost inp newGraph s) :
    SAFE inp s (ifaceSat inp s) := by
  show SAFE inp s (ifacePairs inp
    (s.seenTypesL.filter fun t =>
      match t with
      | .iface _ => true
      | _ => false)
    (s.seenTypesL.filter fun t =>
      match t with
      | .iface _ => false
      | t2 =>
        match underlyingT inp.namedEnv t2 with
        | .iface _ => false
        | _ => true) s)
  refine ifacePairs_safe inp N hWF hN _ _ s hw ?_ ?_
  · intro i hi
    exact (List.mem_filter.mp hi).1
  · intro t2 ht2
    exact (List.mem_filter.mp ht2).1

/-- The full entry seeder never fails the no-new-node assertions, and its
successful runs obey the walk contract from the fresh graph. -/
theorem entry_safe (inp : PkgIn) (fuel : Nat) (hW : convWF inp = true)
    (N : Nat) (hWF : ifaceWF inp N = true)
    (hN : ∀ pr ∈ inp.msSelL, pr.2.path.length ≤ N + 1) :
    SAFE inp newGraph (entry inp fuel newGraph) := by
  have hWP := walkSafe inp hW fuel
  show SAFE inp newGraph
    (defsFold inp fuel inp.defs newGraph >>= fun s1 =>
      fnConstFold inp inp.initialFns s1 >>= fun s2 =>
      usesFold inp inp.uses s2 >>= fun s3 =>
      membersFold inp fuel inp.members s3 >>= fun s4 =>
      ifaceSat inp s4)
  have hd := defsFold_safe inp fuel hWP inp.defs newGraph
  refine safe_bind hd ?_
  intro s1 h1
  have hf := fnConstFold_safe inp inp.initialFns s1
  refine safe_bind hf ?_
  intro s2 h2
  have hu := usesFold_safe inp inp.uses s2
  refine safe_bind hu ?_
  intro s3 h3
  have hm := membersFold_safe inp fuel hWP inp.members s3
  refine safe_bind hm ?_
  intro s4 h4
  have hw4 : walkPost inp newGraph s4 :=
    walkPost_trans (hd.2 s1 h1) (walkPost_trans (hf.2 s2 h2)
      (walkPost_trans (hu.2 s3 h3) (hm.2 s4 h4)))
  exact ifaceSat_safe inp N hWF hN s4 hw4


/-- Neither `color` nor its edge loop can fail the no-new-node assertion:
their only error is fuel exhaustion. -/
theorem color_no_new :
    ∀ fuel, (∀ nodes i, color fuel nodes i ≠ .error .useNewNode) ∧
      (∀ nodes js, colorList fuel nodes js ≠ .error .useNewNode) := by
  intro fuel
  induction fuel with
  | zero =>
    exact ⟨fun nodes i h => (nomatch h), fun nodes js h => (nomatch h)⟩
  | succ fuel ihc =>
    constructor
    · intro nodes i
      rw [color]
      split
      · split
        · exact fun h => (nomatch h)
        · exact ihc.2 _ _
      · exact fun h => (nomatch h)
    · intro nodes js
      cases js with
      | nil => exact fun h => (nomatch h)
      | cons j rest =>
        rw [colorList]
        intro h
        cases hc : color fuel nodes j with
        | error e =>
          rw [hc] at h
          have h3 : e = AErr.useNewNode := Except.error.inj h
          rw [h3] at hc
          exact ihc.1 nodes j hc
        | ok nodes2 =>
          rw [hc] at h
          exact ihc.2 nodes2 rest h

/-- C8: the no-new-node assertions inside `use` never fail in a complete
analysis run.  Every `use` that passes the relevance filter and the
same-package filter reaches the node lookups with nodes already created
by a prior `see` for both endpoints, so neither the entry seeder nor the
whole per-package check can return the failed assertion, at any fuel.
The hypotheses are input well-formedness facts that go/types guarantees:
conversion instructions convert structs whose members are field objects
(`convWF`), and, by the acyclicity of package imports, named types of
other packages embed only fields of other packages (`ifaceWF`), to a
depth bounding the method-set selection paths. -/
theorem c8_use_no_new_node (inp : PkgIn) (fuel : Nat)
    (hW : convWF inp = true) (N : Nat) (hWF : ifaceWF inp N = true)
    (hN : ∀ pr ∈ inp.msSelL, pr.2.path.length ≤ N + 1) :
    entry inp fuel newGraph ≠ .error .useNewNode ∧
    checkPkg inp fuel ≠ .error .useNewNode := by
  have he := entry_safe inp fuel hW N hWF hN
  refine ⟨he.1, ?_⟩
  intro h
  have h2 : (entry inp fuel newGraph >>= fun s =>
      color fuel s.nodes 0 >>= fun nodes2 =>
      .ok (reportAll inp (quietPass inp { s with nodes := nodes2 }))) =
      .error .useNewNode := h
  cases hc : entry inp fuel newGraph with
  | error e =>
    rw [hc] at h2
    have h3 : e = AErr.useNewNode := Except.error.inj h2
    rw [h3] at hc
    exact he.1 hc
  | ok s =>
    rw [hc] at h2
    have h2b : (color fuel s.nodes 0 >>= fun nodes2 =>
        (.ok (reportAll inp (quietPass inp { s with nodes := nodes2 })) :
          Except AErr (List Obj))) = .error .useNewNode := h2
    cases hcc : color fuel s.nodes 0 with
    | error e2 =>
      rw [hcc] at h2b
      have h3 : e2 = AErr.useNewNode := Except.error.inj h2b
      rw [h3] at hcc
      exact (color_no_new fuel).1 s.nodes 0 hcc
    | ok nodes2 =>
      rw [hcc] at h2b
      exact (nomatch h2b)

def c8x : GoVar :=
  (⟨30, "X", true, true, false, some 1⟩, .basic false)

def c8meth : GoFuncObj :=
  (⟨40, "M", true, some 1⟩,
    .sig (some (⟨41, "t", false, false, false, some 1⟩, .named 4)) [] [])

def c8tn : TypeNameObj := ⟨4, "T", true, some 1⟩

def c8info : NamedInfo :=
  { underlying := .strct [c8x], tobj := c8tn, methods := [c8meth] }

def c8fnMain : SsaFn :=
  { fname := "main", pkg := some 1,
    objO := some (⟨50, "main", false, some 1⟩, .sig none [] []),
    sigT := .sig none [] [], bodyIdents := some [], blocks := [[]],
    anonFns := [] }

def c8fnM : SsaFn :=
  { fname := "M", pkg := some 1, objO := some c8meth, sigT := c8meth.2,
    bodyIdents := some [], blocks := [[]], anonFns := [] }

def c8ifc : GoType := .iface [c8meth]

def c8inp : PkgIn :=
  { P := 1, pkgName := "main",
    namedEnv := [(4, c8info)],
    fnEnv := [(7, c8fnMain), (8, c8fnM)],
    funcValueL := [(40, 8), (50, 7)],
    scopesL := [],
    defs := [.typeNameD c8tn],
    uses := [],
    initialFns := [7, 8],
    members := [.fnM 7, .typeM (some c8tn) (.named 4)],
    implL := [(.named 4, c8ifc)],
    msSelL := [((.named 4, "M"), ⟨c8meth, [0]⟩)],
    msetL := [(.named 4, [c8meth])],
    irrFuel := 6 }

/-- C8 witness: the well-formedness hypotheses hold, by evaluation, for a
small package declaring an exported struct type with a method, an
interface it implements, and `main`. -/
theorem c8_witness :
    convWF c8inp = true ∧ ifaceWF c8inp 1 = true ∧
    (∀ pr ∈ c8inp.msSelL, pr.2.path.length ≤ 1 + 1) ∧
    (entry c8inp 20 newGraph ≠ .error .useNewNode ∧
      checkPkg c8inp 20 ≠ .error .useNewNode) :=
  ⟨by decide, by decide, by decide,
    c8_use_no_new_node c8inp 20 (by decide) 1 (by decide) (by decide)⟩


end Unused2
